import Mathlib

/-!
# Repository writer of the GitOps service: a shallow embedding

The development embeds `pkg/repo/writer/default_writer.go` (the native
repository writer), the secret-store create handler of
`pkg/handler/secretstore.go` and the methods of the helm multi-environment
variant of `pkg/application/helm_mutil_env.go`.

Modelling conventions.

* A repository view (`fs.FS`, backed by an in-memory billy filesystem) is a
  finite list of entries; a path is the list of its components.  Every name
  handed to `Join` is taken as one path component (no separator, no dot
  segment); empty elements are dropped, as `path.Join` does.
* The generator patterns are strings built by `path.Join`, which is embedded
  with its cleaning step (`path.Clean`).
* Go errors are values of `GoErr`; `fmt.Errorf` with `%w` keeps the wrapped
  error, so that `errors.Is` can be expressed.
* Collaborators that live outside the embedded files (clone, push, kube
  configuration, YAML marshalling, the application variants) are fields of
  `Env`: every theorem holds for all of their behaviours.
* Each writer operation returns the error it reports, the view it leaves and
  the trace of the collaborator calls and mutations it performed, in order.
-/

namespace Squidflow

/-! ## Errors -/

/-- Go error values: `new` is `errors.New` or `fmt.Errorf` without `%w`, `wrap`
is `fmt.Errorf` with `%w` (the message is the full formatted text). -/
inductive GoErr where
  | new (msg : String)
  | wrap (msg : String) (inner : GoErr)
deriving DecidableEq, Repr

/-- The text of an error (`err.Error()`). -/
def GoErr.Error : GoErr → String
  | .new m => m
  | .wrap m _ => m

/-- The call `fmt.Errorf(pre + "%w", err)`. -/
def Errorf_w (pre : String) (err : GoErr) : GoErr :=
  .wrap (pre ++ err.Error) err

/-- The call `fmt.Errorf(pre + "%v", err)`: the cause is not kept. -/
def Errorf_v (pre : String) (err : GoErr) : GoErr :=
  .new (pre ++ err.Error)

/-- The predicate `errors.Is(err, target)`: the target occurs on the unwrap chain. -/
def errorsIs : GoErr → GoErr → Bool
  | .new m, target => decide (GoErr.new m = target)
  | .wrap m inner, target => decide (GoErr.wrap m inner = target) || errorsIs inner target

/-! ## Filesystem view -/

/-- A path of a repository view, as the list of its components. -/
abbrev Path := List String

/-- One node of a view: a file with its content, or a directory (`data = none`). -/
structure Entry where
  path : Path
  data : Option String
deriving DecidableEq, Repr

/-- A repository view: the nodes it holds.  A directory exists as soon as a
node lies at or under it. -/
abbrev FS := List Entry

/-- The call `repofs.Join(p, elems...)`: empty elements are ignored. -/
def Join (p : Path) (elems : List String) : Path :=
  p ++ elems.filter (fun s => s ≠ "")

/-- Modelled from the spec: `fs.FS.ExistsOrDie` (package `pkg/fs`) is not under
src/.  A path of the view exists when a node lies at or under it. -/
def ExistsOrDie (fs : FS) (p : Path) : Bool :=
  fs.any (fun e => p.isPrefixOf e.path)

/-- The name under which `e` shows up in a listing of directory `p`, if it lies strictly under `p`. -/
def childName (p : Path) (e : Entry) : Option String :=
  if p.isPrefixOf e.path then (e.path.drop p.length).head? else none

/-- The call `repofs.ReadDir(p)` on the in-memory filesystem, reduced to the
entries' names (the writer reads only `Name()` and the length of the listing):
the distinct first components found under `p`; a path that does not exist is
an error, a path without children lists nothing. -/
def ReadDir (fs : FS) (p : Path) : Except GoErr (List String) :=
  if !ExistsOrDie fs p then
    .error (.new "file does not exist")
  else
    .ok ((fs.filterMap (childName p)).dedup)

/-- The call `billyUtils.RemoveAll(repofs, p)`: removes `p` and everything under
it; removing an absent path is not an error. -/
def RemoveAll (fs : FS) (p : Path) : Except GoErr FS :=
  .ok (fs.filter (fun e => !p.isPrefixOf e.path))

/-- The call `repofs.Remove(p)`: removes a file or an empty directory. -/
def Remove (fs : FS) (p : Path) : Except GoErr FS :=
  if !ExistsOrDie fs p then
    .error (.new "file does not exist")
  else if fs.any (fun e => p.isPrefixOf e.path && decide (e.path ≠ p)) then
    .error (.new "dir not empty")
  else
    .ok (fs.filter (fun e => decide (e.path ≠ p)))

/-- The content of the file at `p`, if `p` is a file of the view. -/
def readFile (fs : FS) (p : Path) : Option String :=
  (fs.find? (fun e => decide (e.path = p) && e.data.isSome)).bind Entry.data

/-- The call `billyUtils.WriteFile(repofs, p, data, 0666)`: creates or replaces
the file at `p`; writing over a directory fails. -/
def WriteFile (fs : FS) (p : Path) (data : String) : Except GoErr FS :=
  if fs.any (fun e => p.isPrefixOf e.path && (decide (e.path ≠ p) || e.data.isNone)) then
    .error (.new "is a directory")
  else
    .ok (fs.filter (fun e => decide (e.path ≠ p)) ++ [⟨p, some data⟩])

/-- One pattern component against one name, as `path.Match` does for names
holding none of `?`, `[` and the backslash: `*` matches any run of characters,
any other character matches itself. -/
def globMatch : List Char → List Char → Bool
  | [], cs => cs.isEmpty
  | p :: ps, cs =>
    if p = '*' then
      cs.tails.any (fun t => globMatch ps t)
    else
      match cs with
      | [] => false
      | c :: rest => decide (p = c) && globMatch ps rest

/-- A path against a pattern, component by component. -/
def matchPath : Path → Path → Bool
  | [], [] => true
  | pat :: pats, name :: names => globMatch pat.toList name.toList && matchPath pats names
  | _, _ => false

/-- The call `billyUtils.Glob(repofs, pattern)`: the existing paths that match
the pattern (the listing is given without the sort by name). -/
def Glob (fs : FS) (pattern : Path) : List Path :=
  ((fs.map (fun e => e.path.take pattern.length)).filter (matchPath pattern)).dedup

/-! ## Layout constants, repositories and collaborators -/

/-- The constants of `store.Default` that the embedded code reads. -/
structure Store where
  AppsDir : String
  OverlaysDir : String
  ProjectsDir : String
  BootsrtrapDir : String
  ClusterResourcesDir : String
  ClusterContextName : String
  DestServer : String
  DestServerAnnotation : String
  LabelKeyAppManagedBy : String
  LabelValueManagedBy : String
deriving DecidableEq, Repr

/-- The fields of `git.CloneOptions` the writer reads: the raw `Repo` string and
the parts `Parse` derives from it. -/
structure CloneOptions where
  Repo : String
  URL : String
  Revision : String
  Path : String
  CloneForWrite : Bool
deriving DecidableEq, Repr

/-- NativeRepoTarget implements the native GitOps repository structure. -/
structure NativeRepoTarget where
  project : String
  metaRepoCloneOpts : CloneOptions
  tenantRepoCloneOpts : Option CloneOptions
deriving DecidableEq, Repr

/-! ## Project manifests -/

/-- A Go `map[string]string`, as an association list with unique keys. -/
abbrev GoMap := List (String × String)

/-- The assignment `m[k] = v`. -/
def mapSet (m : GoMap) (k v : String) : GoMap :=
  m.filter (fun kv => decide (kv.1 ≠ k)) ++ [(k, v)]

/-- The read `m[k]`: the empty string when the key is absent. -/
def mapGet (m : GoMap) (k : String) : String :=
  ((m.find? (fun kv => decide (kv.1 = k))).map Prod.snd).getD ""

/-- The elements of a path between its separators, as `strings.Split(s, "/")`. -/
def splitSlash : List Char → List (List Char)
  | [] => [[]]
  | c :: cs =>
    if c = '/' then [] :: splitSlash cs
    else
      match splitSlash cs with
      | [] => [[c]]
      | h :: t => (c :: h) :: t

/-- The elements separated by single separators. -/
def joinSlash : List (List Char) → List Char
  | [] => []
  | c :: rest =>
    match rest with
    | [] => c
    | _ :: _ => c ++ '/' :: joinSlash rest

/-- One element of the path in the loop of `path.Clean`: an empty element and
`.` are dropped, `..` removes the element before it (at the start of a rooted
path it is dropped, at the start of a relative path it is kept), any other
element is appended. -/
def cleanStep (rooted : Bool) (out : List (List Char)) (c : List Char) : List (List Char) :=
  if c = [] ∨ c = ['.'] then out
  else if c = ['.', '.'] then
    match out.getLast? with
    | some top => if top = ['.', '.'] then out ++ [c] else out.dropLast
    | none => if rooted then out else out ++ [c]
  else out ++ [c]

/-- The function `path.Clean`: the shortest path equivalent to `s`; the empty
relative path is `.`. -/
def pathClean (s : List Char) : List Char :=
  let rooted := decide (s.head? = some '/')
  let out := (splitSlash s).foldl (cleanStep rooted) []
  if rooted then '/' :: joinSlash out
  else if out = [] then ['.'] else joinSlash out

/-- The function `path.Join`: the non-empty elements joined by `/` and the
result cleaned; the empty string when every element is empty. -/
def pathJoin (elems : List String) : String :=
  match elems.filter (fun s => s ≠ "") with
  | [] => ""
  | kept => String.mk (pathClean (joinSlash (kept.map String.toList)))

structure TypeMeta where
  Kind : String := ""
  APIVersion : String := ""
deriving DecidableEq, Repr

structure ObjectMeta where
  Name : String := ""
  Namespace : String := ""
  Labels : Option GoMap := none
  Annotations : Option GoMap := none
  /-- The text of `CreationTimestamp.String()`; the zero time unless set. -/
  CreationTimestamp : String := "0001-01-01 00:00:00 +0000 UTC"
deriving DecidableEq, Repr

structure GroupKind where
  Group : String
  Kind : String
deriving DecidableEq, Repr

structure ApplicationDestination where
  Server : String := ""
  Namespace : String := ""
deriving DecidableEq, Repr

structure AppProjectSpec where
  SourceRepos : List String
  Destinations : List ApplicationDestination
  Description : String
  ClusterResourceWhitelist : List GroupKind
  NamespaceResourceWhitelist : List GroupKind
deriving DecidableEq, Repr

structure AppProject where
  typeMeta : TypeMeta
  objectMeta : ObjectMeta
  Spec : AppProjectSpec
deriving DecidableEq, Repr

structure ApplicationSourceDirectory where
  Recurse : Bool
  Exclude : String
  Include : String
deriving DecidableEq, Repr

structure ApplicationSource where
  RepoURL : String := ""
  Path : String := ""
  TargetRevision : String := ""
  Directory : Option ApplicationSourceDirectory := none
deriving DecidableEq, Repr

structure SyncPolicyAutomated where
  Prune : Bool
  SelfHeal : Bool
  AllowEmpty : Bool
deriving DecidableEq, Repr

structure SyncPolicy where
  Automated : Option SyncPolicyAutomated
deriving DecidableEq, Repr

structure ResourceIgnoreDifferences where
  Group : String
  Kind : String
  JSONPointers : List String
deriving DecidableEq, Repr

structure ApplicationSpec where
  Project : String := ""
  Source : Option ApplicationSource := none
  Destination : ApplicationDestination := {}
  syncPolicy : Option SyncPolicy := none
  IgnoreDifferences : List ResourceIgnoreDifferences := []
deriving DecidableEq, Repr

structure ApplicationSetTemplateMeta where
  Name : String := ""
  Namespace : String := ""
  Labels : Option GoMap := none
  Annotations : Option GoMap := none
deriving DecidableEq, Repr

structure ApplicationSetTemplate where
  templateMeta : ApplicationSetTemplateMeta := {}
  Spec : ApplicationSpec := {}
deriving DecidableEq, Repr

structure GitFileGeneratorItem where
  Path : String
deriving DecidableEq, Repr

structure GitGenerator where
  RepoURL : String
  Revision : String
  Files : List GitFileGeneratorItem
  RequeueAfterSeconds : Option Int
  Template : ApplicationSetTemplate := {}
deriving DecidableEq, Repr

structure ApplicationSetGenerator where
  Git : Option GitGenerator
deriving DecidableEq, Repr

structure ApplicationSetSyncPolicy where
  PreserveResourcesOnDeletion : Bool
deriving DecidableEq, Repr

structure ApplicationSetSpec where
  Generators : List ApplicationSetGenerator
  Template : ApplicationSetTemplate
  syncPolicy : Option ApplicationSetSyncPolicy
deriving DecidableEq, Repr

structure ApplicationSet where
  typeMeta : TypeMeta
  objectMeta : ObjectMeta
  Spec : ApplicationSetSpec
deriving DecidableEq, Repr

/-! ## Secret stores -/

/-- The Vault provider block of a SecretStore (`esv1beta1.VaultProvider`); the
authentication block is kept as its text. -/
structure VaultProvider where
  Server : String := ""
  Path : Option String := none
  Version : String := ""
  Auth : String := ""
deriving DecidableEq, Repr

/-- The provider block (`esv1beta1.SecretStoreProvider`): the Vault pointer and
whether a provider of another kind is set. -/
structure SecretStoreProvider where
  Vault : Option VaultProvider := none
  otherProvider : Bool := false
deriving DecidableEq, Repr

/-- The fields of `esv1beta1.SecretStore` the service reads and writes. -/
structure SecretStore where
  Kind : String := ""
  Name : String := ""
  Namespace : String := ""
  Annotations : Option GoMap := none
  Provider : Option SecretStoreProvider := none
deriving DecidableEq, Repr

/-- The read `ss.Annotations[k]`, which gives the empty string on a nil map. -/
def SecretStore.annotation_of (ss : SecretStore) (k : String) : String :=
  match ss.Annotations with
  | none => ""
  | some m => mapGet m k

/-- The assignment `ss.Annotations[k] = v` on a non-nil map. -/
def SecretStore.annotate (ss : SecretStore) (k v : String) : SecretStore :=
  { ss with Annotations := some (mapSet (ss.Annotations.getD []) k v) }

/-- The fields of `application.Config` (the per-application `config.json`) the writer reads. -/
structure Config where
  AppName : String := ""
  UserGivenName : String := ""
  DestNamespace : String := ""
  DestServer : String := ""
  SrcPath : String := ""
  SrcRepoURL : String := ""
  SrcTargetRevision : String := ""
  Labels : Option GoMap := none
  Annotations : Option GoMap := none
deriving DecidableEq, Repr

/-- The read `conf.Annotations[k]`, which gives the empty string on a nil map. -/
def Config.annotation_of (conf : Config) (k : String) : String :=
  match conf.Annotations with
  | none => ""
  | some m => mapGet m k

/-- The type `types.ApplicationSourceRequest`. -/
structure types.ApplicationSourceRequest where
  Repo : String
  Path : String
  TargetRevision : String
deriving DecidableEq, Repr

/-- The type `types.ApplicationInstantiation`. -/
structure types.ApplicationInstantiation where
  ApplicationName : String
  TenantName : String
  AppCode : String
  Description : String
deriving DecidableEq, Repr

/-- The type `types.ApplicationTarget`. -/
structure types.ApplicationTarget where
  Cluster : String
  Namespace : String
deriving DecidableEq, Repr

/-- The type `types.ApplicationRuntime`: the placeholder block (the git info
list is empty and the resource metrics are zero). -/
structure types.ApplicationRuntime where
  Status : String
  Health : String
  SyncStatus : String
  ArgoCDUrl : String
  CreatedAt : String
  CreatedBy : String
  LastUpdatedAt : String
  LastUpdatedBy : String
deriving DecidableEq, Repr

/-- The type `types.Application`. -/
structure types.Application where
  ApplicationSource : types.ApplicationSourceRequest
  ApplicationInstantiation : types.ApplicationInstantiation
  ApplicationTarget : List types.ApplicationTarget
  ApplicationRuntime : types.ApplicationRuntime
deriving DecidableEq, Repr

/-- The type `application.ClusterResConfig`. -/
structure ClusterResConfig where
  Name : String
  Server : String
deriving DecidableEq, Repr

/-- The type `types.GenerateProjectOptions`. -/
structure GenerateProjectOptions where
  Name : String
  Namespace : String
  ProjectGitopsRepo : String
  RepoURL : String
  Revision : String
  InstallationPath : String
  DefaultDestServer : String
  DefaultDestContext : String
  Labels : Option GoMap
  Annotations : Option GoMap
deriving DecidableEq, Repr

/-- The serialisers and assets that `generateProjectManifests` relies on. -/
structure Codec where
  /-- The call `yaml.Marshal` on an AppProject. -/
  marshalAppProject : AppProject → Except GoErr String
  /-- The call `yaml.Marshal` on an ApplicationSet. -/
  marshalAppSet : ApplicationSet → Except GoErr String
  /-- The call `json.Marshal` on a cluster resources config. -/
  marshalClusterResConfig : ClusterResConfig → Except GoErr String
  /-- The embedded asset `assets/cluster_res_readme.md`. -/
  clusterResReadmeTpl : String
  /-- The function `getDefaultAppLabels`. -/
  getDefaultAppLabels : Option GoMap → Option GoMap
  /-- The call `yaml.Marshal` on a SecretStore. -/
  marshalSecretStore : SecretStore → Except GoErr String
  /-- The call `yaml.Unmarshal` into a SecretStore. -/
  unmarshalSecretStore : String → Except GoErr SecretStore
  /-- The call `json.Unmarshal` into an application config. -/
  unmarshalConfig : String → Except GoErr Config
  /-- The parse that `repofs.ReadYamls(name, proj, appSet)` makes of a project
  file: its two documents, as an AppProject and an ApplicationSet. -/
  readProjectYamls : String → Except GoErr (AppProject × ApplicationSet)

/-- The package variable `DefaultApplicationSetGeneratorInterval`. -/
def DefaultApplicationSetGeneratorInterval : Int := 20

structure createAppSetOptions where
  name : String
  namespace_ : String
  appName : String
  appNamespace : String
  appProject : String
  repoURL : String
  revision : String
  srcPath : String
  destServer : String
  destNamespace : String
  prune : Bool
  preserveResourcesOnDeletion : Bool
  appLabels : Option GoMap
  appAnnotations : Option GoMap
  generators : List ApplicationSetGenerator
deriving DecidableEq, Repr

/-- The ApplicationSet object that `createAppSet` marshals. -/
def createAppSet.object (st : Store) (o : createAppSetOptions) : ApplicationSet :=
  let destServer := if o.destServer = "" then st.DestServer else o.destServer
  let appProject := if o.appProject = "" then "default" else o.appProject
  let appLabels : Option GoMap :=
    match o.appLabels with
    | none => some (mapSet (mapSet [] st.LabelKeyAppManagedBy st.LabelValueManagedBy)
        "app.kubernetes.io/name" o.appName)
    | some l => some l
  { typeMeta := { Kind := "ApplicationSet", APIVersion := "argoproj.io/v1alpha1" },
    objectMeta :=
      { Name := o.name, Namespace := o.namespace_,
        Annotations := some (mapSet [] "argocd.argoproj.io/sync-wave" "0") },
    Spec :=
      { Generators := o.generators,
        Template :=
          { templateMeta :=
              { Namespace := o.appNamespace, Name := o.appName, Labels := appLabels,
                Annotations := o.appAnnotations },
            Spec :=
              { Project := appProject,
                Source := some { RepoURL := o.repoURL, Path := o.srcPath, TargetRevision := o.revision },
                Destination := { Server := destServer, Namespace := o.destNamespace },
                syncPolicy := some { Automated := some { SelfHeal := true, Prune := o.prune, AllowEmpty := true } },
                IgnoreDifferences :=
                  [{ Group := "argoproj.io", Kind := "Application", JSONPointers := ["/status"] }] } },
        syncPolicy := some { PreserveResourcesOnDeletion := o.preserveResourcesOnDeletion } } }

/-- The function `createAppSet`. -/
def createAppSet (st : Store) (c : Codec) (o : createAppSetOptions) : Except GoErr String :=
  c.marshalAppSet (createAppSet.object st o)

/-- The AppProject object built by `generateProjectManifests`. -/
def generateProjectManifests.project (st : Store) (o : GenerateProjectOptions) : AppProject :=
  { typeMeta := { Kind := "AppProject", APIVersion := "argoproj.io/v1alpha1" },
    objectMeta :=
      { Name := o.Name, Namespace := o.Namespace,
        Annotations := some (mapSet (mapSet (mapSet [] "argocd.argoproj.io/sync-wave" "-2")
          "argocd.argoproj.io/sync-options" "PruneLast=true")
          st.DestServerAnnotation o.DefaultDestServer) },
    Spec :=
      { SourceRepos := ["*"],
        Destinations := [{ Server := "*", Namespace := "*" }],
        Description := o.Name ++ " project",
        ClusterResourceWhitelist := [{ Group := "*", Kind := "*" }],
        NamespaceResourceWhitelist := [{ Group := "*", Kind := "*" }] } }

/-- The options that `generateProjectManifests` hands to `createAppSet`. -/
def generateProjectManifests.appSetOptions (st : Store) (c : Codec) (o : GenerateProjectOptions) :
    createAppSetOptions :=
  let appsetRepoURL := if o.ProjectGitopsRepo = "" then o.RepoURL else o.ProjectGitopsRepo
  { name := o.Name,
    namespace_ := o.Namespace,
    appName := o.Name ++ "-\x7b\x7b userGivenName \x7d\x7d",
    appNamespace := o.Namespace,
    appProject := o.Name,
    repoURL := "\x7b\x7b srcRepoURL \x7d\x7d",
    srcPath := "\x7b\x7b srcPath \x7d\x7d",
    revision := "\x7b\x7b srcTargetRevision \x7d\x7d",
    destServer := "\x7b\x7b destServer \x7d\x7d",
    destNamespace := "\x7b\x7b destNamespace \x7d\x7d",
    prune := true,
    preserveResourcesOnDeletion := false,
    appLabels := c.getDefaultAppLabels o.Labels,
    appAnnotations := o.Annotations,
    generators :=
      [{ Git := some
          { RepoURL := appsetRepoURL,
            Revision := o.Revision,
            Files := [{ Path := pathJoin [o.InstallationPath, st.AppsDir, "**", o.Name, "config.json"] }],
            RequeueAfterSeconds := some DefaultApplicationSetGeneratorInterval } },
       { Git := some
          { RepoURL := appsetRepoURL,
            Revision := o.Revision,
            Files := [{ Path := pathJoin [o.InstallationPath, st.AppsDir, "**", o.Name, "config_dir.json"] }],
            RequeueAfterSeconds := some DefaultApplicationSetGeneratorInterval,
            Template :=
              { Spec :=
                  { Source := some
                      { Directory := some
                          { Recurse := true,
                            Exclude := "\x7b\x7b exclude \x7d\x7d",
                            Include := "\x7b\x7b include \x7d\x7d" } } } } } }] }

/-- The four outputs of `generateProjectManifests`. -/
structure ProjectManifests where
  projectYAML : String
  appSetYAML : String
  clusterResReadme : String
  clusterResConfig : String
deriving DecidableEq, Repr

/-- The function `generateProjectManifests`. -/
def generateProjectManifests (st : Store) (c : Codec) (o : GenerateProjectOptions) :
    Except GoErr ProjectManifests :=
  match c.marshalAppProject (generateProjectManifests.project st o) with
  | .error err => .error (Errorf_w "failed to marshal AppProject: " err)
  | .ok projectYAML =>
    match createAppSet st c (generateProjectManifests.appSetOptions st c o) with
    | .error err => .error (Errorf_w "failed to marshal ApplicationSet: " err)
    | .ok appSetYAML =>
      let clusterResReadme := c.clusterResReadmeTpl.replace "\x7bCLUSTER\x7d" o.DefaultDestServer
      match c.marshalClusterResConfig { Name := o.DefaultDestContext, Server := o.DefaultDestServer } with
      | .error err => .error (Errorf_w "failed to create cluster resources config: " err)
      | .ok clusterResConfig => .ok ⟨projectYAML, appSetYAML, clusterResReadme, clusterResConfig⟩

/-- The repository object a `Persist` call is made on. -/
inductive RepoHandle where
  | meta
  | tenant
deriving DecidableEq, Repr

/-! ## Applications -/

/-- The type `types.ApplicationDryRunEnv`. -/
structure ApplicationDryRunEnv where
  Environment : String
  IsValid : Bool
  Manifest : String
  ArgocdFile : String
  Error : String
deriving DecidableEq, Repr

/-- The type `types.ApplicationCreatedResp`. -/
structure ApplicationCreatedResp where
  Success : Bool
  Message : String
  Total : Nat
  Environments : List ApplicationDryRunEnv
deriving DecidableEq, Repr

/-- The application source collaborator supplied by the caller (`AppOpts.AppSource`). -/
structure AppSource where
  DetectEnvironments : List String
  Manifest : String → Except GoErr String

/-- The fields of `application.CreateOptions` the embedded code reads. -/
structure CreateOptions where
  AppName : String
  AppSpecifier : String
  AppType : String
  DestNamespace : String
  DestServer : String
  InstallationMode : String
  Environments : List String
  HelmManifestPath : String
  Labels : Option GoMap
  Annotations : Option GoMap
  AppSource : AppSource

/-- The type `application.AppCreateOptions`. -/
structure AppCreateOptions where
  ProjectName : String
  DryRun : Bool
  AppOpts : CreateOptions

/-- The two views an application variant writes to.  When the meta and the
tenant repository are the same, both handles denote `meta`. -/
structure Views where
  meta : FS
  tenant : FS
deriving DecidableEq, Repr

/-- The view behind a handle. -/
def Views.get (v : Views) : RepoHandle → FS
  | .meta => v.meta
  | .tenant => v.tenant

/-- An application variant (`application.Application`): its name and the effect
of `CreateFiles(repofs, appsfs, projectName)` on the views. -/
structure Application where
  Name : String
  CreateFiles : Views → (repofs appsfs : RepoHandle) → String → Views × Option GoErr

/-- What an operation did, in order. -/
inductive Event where
  | clone (opts : Option CloneOptions)
  | bulkWrite (files : List Path)
  | removeAll (dir : Path)
  | remove (file : Path)
  | addCluster (context : String)
  | createFiles (project : String)
  | persist (repo : RepoHandle) (msg : String)
deriving DecidableEq, Repr

/-- The collaborators of the writer and the layout constants. -/
structure Env where
  store : Store
  /-- The function `getRepo(ctx, cloneOpts)`: clone or fetch, giving the view. -/
  getRepo : Option CloneOptions → Except GoErr FS
  /-- The function `prepareRepo(ctx, cloneOpts, projectName)`. -/
  prepareRepo : CloneOptions → String → Except GoErr FS
  /-- The result of `r.Persist(ctx, &git.PushOptions{CommitMsg: msg})` on the view. -/
  Persist : RepoHandle → FS → String → Option GoErr
  /-- The function `getInstallationNamespace(repofs)`. -/
  getInstallationNamespace : FS → Except GoErr String
  /-- The function `util.KubeContextToServer(context)`. -/
  KubeContextToServer : String → Except GoErr String
  /-- The serialisers and embedded assets. -/
  codec : Codec
  /-- The function `util.Doc`, which fills the binary name into a message. -/
  Doc : String → String
  /-- The method `repofs.Root()`. -/
  Root : FS → String
  /-- The formatted time `time.Now().Format(time.RFC3339)`. -/
  now : String
  /-- The identifier returned by `getNewId()`. -/
  getNewId : String
  /-- The configuration reader `viper.GetString`. -/
  viperGetString : String → String
  /-- The method `cloneOpts.Parse()`. -/
  Parse : CloneOptions → CloneOptions
  /-- The function `setAppOptsDefaults(ctx, repofs, opts)`: it reads the meta view
  and gives the application options with the unset ones defaulted. -/
  setAppOptsDefaults : FS → AppCreateOptions → Except GoErr CreateOptions
  /-- The function `parseApp(appOpts, projectName, repoURL, revision, path)`. -/
  parseApp : CreateOptions → String → String → String → String → Except GoErr Application
  /-- The function `genCommitMsg(action, resource, appName, projectName, repofs)`. -/
  genCommitMsg : String → String → String → String → FS → String
  /-- The constant `types.ActionTypeCreate`. -/
  ActionTypeCreate : String
  /-- The constant `types.ResourceNameApp`. -/
  ResourceNameApp : String
  /-- The sentinel `application.ErrAppAlreadyInstalledOnProject`. -/
  ErrAppAlreadyInstalledOnProject : GoErr

/-- The result of a writer operation on one repository. -/
structure Outcome where
  err : Option GoErr
  /-- The view after the call; `none` when no repository could be obtained. -/
  view : Option FS
  trace : List Event
deriving DecidableEq, Repr

/-- Whether an event is a `Persist` call. -/
def Event.isPersist : Event → Bool
  | .persist _ _ => true
  | _ => false

/-- Whether an event changes a view. -/
def Event.isMutation : Event → Bool
  | .bulkWrite _ => true
  | .removeAll _ => true
  | .remove _ => true
  | .createFiles _ => true
  | _ => false

/-! ## Application delete -/

/-- The overlay container that `RunAppDelete` and `DeleteFromProject` inspect:
`apps/<app>/overlays` when it exists, otherwise `apps/<app>`. -/
def overlayContainer (st : Store) (repofs : FS) (appName : String) : Path :=
  let appDir := Join [] [st.AppsDir, appName]
  let appOverlaysDir := Join appDir [st.OverlaysDir]
  if ExistsOrDie repofs appOverlaysDir then appOverlaysDir else appDir

/-- Lines 198 to 228 of `RunAppDelete`: the directory to remove and the commit message. -/
def RunAppDelete.plan (st : Store) (project : String) (repofs : FS) (appName : String) :
    Except GoErr (Path × String) :=
  let appDir := Join [] [st.AppsDir, appName]
  let commitMsg := "chore: delete app '" ++ appName ++ "'"
  if project = "" then
    .ok (appDir, commitMsg)
  else
    let appOverlaysDir := overlayContainer st repofs appName
    let appProjectDir := Join appOverlaysDir [project]
    if !ExistsOrDie repofs appProjectDir then
      .error (.new ("application '" ++ appName ++ "' not found in project '" ++ project ++ "'"))
    else
      match ReadDir repofs appOverlaysDir with
      | .error err =>
        .error (Errorf_w ("failed to read overlays directory '" ++ "/".intercalate appOverlaysDir ++ "': ") err)
      | .ok allOverlays =>
        if allOverlays.length = 1 then
          .ok (appDir, commitMsg)
        else
          .ok (appProjectDir, commitMsg ++ " from project '" ++ project ++ "'")

/-- RunAppDelete deletes an application from the native GitOps repository structure. -/
def RunAppDelete (env : Env) (n : NativeRepoTarget) (appName : String) : Outcome :=
  match env.getRepo n.tenantRepoCloneOpts with
  | .error err => ⟨some err, none, [.clone n.tenantRepoCloneOpts]⟩
  | .ok repofs =>
    let appDir := Join [] [env.store.AppsDir, appName]
    if !ExistsOrDie repofs appDir then
      ⟨some (.new ("application '" ++ appName ++ "' not found")), some repofs,
        [.clone n.tenantRepoCloneOpts]⟩
    else
      match RunAppDelete.plan env.store n.project repofs appName with
      | .error err => ⟨some err, some repofs, [.clone n.tenantRepoCloneOpts]⟩
      | .ok (dirToRemove, commitMsg) =>
        match RemoveAll repofs dirToRemove with
        | .error err =>
          ⟨some (Errorf_w ("failed to delete directory '" ++ "/".intercalate dirToRemove ++ "': ") err),
            some repofs, [.clone n.tenantRepoCloneOpts]⟩
        | .ok repofs1 =>
          match env.Persist .tenant repofs1 commitMsg with
          | some err =>
            ⟨some (Errorf_w "failed to push to repo: " err), some repofs1,
              [.clone n.tenantRepoCloneOpts, .removeAll dirToRemove, .persist .tenant commitMsg]⟩
          | none =>
            ⟨none, some repofs1,
              [.clone n.tenantRepoCloneOpts, .removeAll dirToRemove, .persist .tenant commitMsg]⟩

/-! ## Project create -/

/-- Modelled from the spec: `util.JoinManifests` is not under src/.  The
generated documents are "concatenated as a single multi-document manifest":
the documents in order, separated by the YAML document separator. -/
def JoinManifests (manifests : List String) : String :=
  "\n---\n".intercalate manifests

/-- The type `fs.BulkWriteRequest`. -/
structure BulkWriteRequest where
  Filename : Path
  Data : String
  ErrMsg : String
deriving DecidableEq, Repr

/-- Modelled from the spec: `fs.BulkWrite` is not under src/.  It performs "one
bulk write": the requests are written in order, and the first failing write
stops the batch with the request's error message. -/
def BulkWrite (repofs : FS) : List BulkWriteRequest → FS × Option GoErr
  | [] => (repofs, none)
  | req :: rest =>
    match WriteFile repofs req.Filename req.Data with
    | .error err => (repofs, some (Errorf_w (req.ErrMsg ++ ": ") err))
    | .ok repofs1 => BulkWrite repofs1 rest

/-- The fields of `types.ProjectCreateOptions` that `RunProjectCreate` reads;
`AddCmd` is the result of `AddCmd.Execute(ctx, context)`. -/
structure ProjectCreateOptions where
  ProjectName : String
  DestKubeServer : String
  DestKubeContext : String
  ProjectGitopsRepo : String
  DryRun : Bool
  AddCmd : String → Option GoErr
  Labels : Option GoMap
  Annotations : Option GoMap

/-- Lines 398 to 406 of `RunProjectCreate`: the destination server after defaulting. -/
def RunProjectCreate.destServer (env : Env) (opts : ProjectCreateOptions) : Except GoErr String :=
  if opts.DestKubeServer = "" then
    if opts.DestKubeContext ≠ "" then
      env.KubeContextToServer opts.DestKubeContext
    else
      .ok env.store.DestServer
  else
    .ok opts.DestKubeServer

/-- The options `RunProjectCreate` hands to `generateProjectManifests`. -/
def RunProjectCreate.genOptions (n : NativeRepoTarget) (opts : ProjectCreateOptions)
    (installationNamespace destKubeServer : String) : GenerateProjectOptions :=
  { Name := opts.ProjectName,
    Namespace := installationNamespace,
    ProjectGitopsRepo := opts.ProjectGitopsRepo,
    RepoURL := n.metaRepoCloneOpts.URL,
    Revision := n.metaRepoCloneOpts.Revision,
    InstallationPath := n.metaRepoCloneOpts.Path,
    DefaultDestServer := destKubeServer,
    DefaultDestContext := opts.DestKubeContext,
    Labels := opts.Labels,
    Annotations := opts.Annotations }

/-- Lines 429 to 456 of `RunProjectCreate`: the requests of the bulk write. -/
def RunProjectCreate.bulkWrites (st : Store) (repofs : FS) (opts : ProjectCreateOptions)
    (m : ProjectManifests) : List BulkWriteRequest :=
  (if opts.DestKubeContext ≠ "" ∧
      ¬ ExistsOrDie repofs (Join [] [st.BootsrtrapDir, st.ClusterResourcesDir, opts.DestKubeContext]) then
    [{ Filename := Join [] [st.BootsrtrapDir, st.ClusterResourcesDir, opts.DestKubeContext ++ ".json"],
       Data := m.clusterResConfig, ErrMsg := "failed to write cluster config" },
     { Filename := Join [] [st.BootsrtrapDir, st.ClusterResourcesDir, opts.DestKubeContext, "README.md"],
       Data := m.clusterResReadme, ErrMsg := "failed to write cluster resources readme" }]
  else [])
  ++ [{ Filename := Join [] [st.ProjectsDir, opts.ProjectName ++ ".yaml"],
        Data := JoinManifests [m.projectYAML, m.appSetYAML],
        ErrMsg := "failed to create project file" }]

/-- RunProjectCreate creates a project in the native GitOps repository structure. -/
def RunProjectCreate (env : Env) (n : NativeRepoTarget) (opts : ProjectCreateOptions) : Outcome :=
  match env.prepareRepo n.metaRepoCloneOpts "" with
  | .error err => ⟨some err, none, [.clone (some n.metaRepoCloneOpts)]⟩
  | .ok repofs =>
    let t0 : List Event := [.clone (some n.metaRepoCloneOpts)]
    match env.getInstallationNamespace repofs with
    | .error _ =>
      ⟨some (.new ((env.Doc
          "Bootstrap folder not found, please execute `<BIN> repo bootstrap --installation-path %s` command").replace
          "%s" (env.Root repofs))), some repofs, t0⟩
    | .ok installationNamespace =>
      if ExistsOrDie repofs (Join [] [env.store.ProjectsDir, opts.ProjectName ++ ".yaml"]) then
        ⟨some (.new ("project '" ++ opts.ProjectName ++ "' already exists")), some repofs, t0⟩
      else
        match RunProjectCreate.destServer env opts with
        | .error err => ⟨some err, some repofs, t0⟩
        | .ok destKubeServer =>
          match generateProjectManifests env.store env.codec
              (RunProjectCreate.genOptions n opts installationNamespace destKubeServer) with
          | .error err =>
            ⟨some (Errorf_w "failed to generate project resources: " err), some repofs, t0⟩
          | .ok m =>
            if opts.DryRun then
              ⟨none, some repofs, t0⟩
            else
              let added : Option GoErr :=
                if opts.DestKubeContext ≠ "" then opts.AddCmd opts.DestKubeContext else none
              let t1 : List Event :=
                if opts.DestKubeContext ≠ "" then t0 ++ [.addCluster opts.DestKubeContext] else t0
              match added with
              | some err =>
                ⟨some (Errorf_w "failed to add new cluster credentials: " err), some repofs, t1⟩
              | none =>
                let bulkWrites := RunProjectCreate.bulkWrites env.store repofs opts m
                let t2 := t1 ++ [.bulkWrite (bulkWrites.map BulkWriteRequest.Filename)]
                match BulkWrite repofs bulkWrites with
                | (repofs1, some err) => ⟨some err, some repofs1, t2⟩
                | (repofs1, none) =>
                  let commitMsg := "chore: added project '" ++ opts.ProjectName ++ "'"
                  match env.Persist .meta repofs1 commitMsg with
                  | some err => ⟨some err, some repofs1, t2 ++ [.persist .meta commitMsg]⟩
                  | none => ⟨none, some repofs1, t2 ++ [.persist .meta commitMsg]⟩

/-! ## Secret store operations -/

/-- The path `bootstrap/cluster-resources/<context>/ss-<id>.yaml`. -/
def secretStorePath (st : Store) (id : String) : Path :=
  Join [] [st.BootsrtrapDir, st.ClusterResourcesDir, st.ClusterContextName, "ss-" ++ id ++ ".yaml"]

/-- The writer's `SecretStoreCreate` (in its own comment and in the handler: `WriteSecretStore2Repo`). -/
def SecretStoreCreate (env : Env) (n : NativeRepoTarget) (ss : SecretStore) (force : Bool) : Outcome :=
  match env.prepareRepo n.metaRepoCloneOpts "" with
  | .error err => ⟨some err, none, [.clone (some n.metaRepoCloneOpts)]⟩
  | .ok repofs =>
    let t0 : List Event := [.clone (some n.metaRepoCloneOpts)]
    match env.codec.marshalSecretStore ss with
    | .error err => ⟨some err, some repofs, t0⟩
    | .ok ssYaml =>
      let file := secretStorePath env.store (ss.annotation_of "squidflow.github.io/id")
      if ExistsOrDie repofs file && !force then
        ⟨some (.new ("secret store '" ++ ss.Name ++ "' already exists")), some repofs, t0⟩
      else
        let bulkWrites : List BulkWriteRequest :=
          [{ Filename := file, Data := JoinManifests [ssYaml],
             ErrMsg := "failed to create secret store file" }]
        let t1 := t0 ++ [.bulkWrite (bulkWrites.map BulkWriteRequest.Filename)]
        match BulkWrite repofs bulkWrites with
        | (repofs1, some err) => ⟨some err, some repofs1, t1⟩
        | (repofs1, none) =>
          let commitMsg := "chore: added secret store '" ++ ss.Name ++ "'"
          match env.Persist .meta repofs1 commitMsg with
          | some err => ⟨some err, some repofs1, t1 ++ [.persist .meta commitMsg]⟩
          | none => ⟨none, some repofs1, t1 ++ [.persist .meta commitMsg]⟩

/-- The writer's `SecretStoreDelete`. -/
def SecretStoreDelete (env : Env) (n : NativeRepoTarget) (secretStoreID : String) : Outcome :=
  match env.prepareRepo n.metaRepoCloneOpts "" with
  | .error err => ⟨some err, none, [.clone (some n.metaRepoCloneOpts)]⟩
  | .ok repofs =>
    let t0 : List Event := [.clone (some n.metaRepoCloneOpts)]
    let secretStorePath := secretStorePath env.store secretStoreID
    if !ExistsOrDie repofs secretStorePath then
      ⟨none, some repofs, t0⟩
    else
      match Remove repofs secretStorePath with
      | .error err =>
        ⟨some (Errorf_v "failed to delete secret store file: " err), some repofs, t0⟩
      | .ok repofs1 =>
        let commitMsg := "chore: deleted secret store '" ++ secretStoreID ++ "'"
        let t1 := t0 ++ [.remove secretStorePath, .persist .meta commitMsg]
        match env.Persist .meta repofs1 commitMsg with
        | some err =>
          ⟨some (Errorf_v "failed to push secret store deletion to repo: " err), some repofs1, t1⟩
        | none => ⟨none, some repofs1, t1⟩

/-- The body bound by `c.ShouldBindJSON` (`types.SecretStoreCreateReq`). -/
structure SecretStoreCreateReq where
  SecretStoreYaml : String
deriving DecidableEq, Repr

/-- What the create handler answers and what it asked of the writer. -/
structure HandlerOutcome where
  status : Nat
  /-- The `error` field of a failure body. -/
  error : Option String
  /-- The `ID` field of the success body. -/
  id : Option String
  /-- The secret store handed to the writer, when the writer was called. -/
  stored : Option SecretStore
  /-- The writer call, when it was made. -/
  writer : Option Outcome
deriving DecidableEq, Repr

/-- Lines 50 to 56 of the handler: the annotations map is created when nil, then
the three timestamps and the new identifier are stored in it. -/
def handler.SecretStoreCreate.annotated (env : Env) (want : SecretStore) : SecretStore :=
  let want := { want with Annotations := some (want.Annotations.getD []) }
  let want := want.annotate "squidflow.github.io/last-synced" env.now
  let want := want.annotate "squidflow.github.io/created-at" env.now
  let want := want.annotate "squidflow.github.io/updated-at" env.now
  want.annotate "squidflow.github.io/id" env.getNewId

/-- Lines 72 to 83 of the handler: the writer on the configured repository. -/
def handler.SecretStoreCreate.target (env : Env) : NativeRepoTarget :=
  let cloneOpts := env.Parse
    { Repo := env.viperGetString "application_repo.remote_url", URL := "", Revision := "",
      Path := "", CloneForWrite := true }
  { project := "", metaRepoCloneOpts := cloneOpts, tenantRepoCloneOpts := none }

/-- The handler `SecretStoreCreate` of `pkg/handler/secretstore.go`; `bound` is
the result of `c.ShouldBindJSON(&req)`. -/
def handler.SecretStoreCreate (env : Env) (bound : Except GoErr SecretStoreCreateReq) :
    HandlerOutcome :=
  match bound with
  | .error err => ⟨400, some ("Invalid request: " ++ err.Error), none, none, none⟩
  | .ok req =>
    match env.codec.unmarshalSecretStore req.SecretStoreYaml with
    | .error err => ⟨500, some ("Failed to unmarshal SecretStore: " ++ err.Error), none, none, none⟩
    | .ok want =>
      match want.Provider with
      | none => ⟨400, some "Provider configuration is required", none, none, none⟩
      | some provider =>
        match provider.Vault with
        | none => ⟨400, some "Only Vault provider is supported", none, none, none⟩
        | some _ =>
          if want.Annotations ≠ none ∧ want.annotation_of "squidflow.github.io/id" ≠ "" then
            ⟨400, some "id not allow set via client", none, none, none⟩
          else
            let want := handler.SecretStoreCreate.annotated env want
            let w := Squidflow.SecretStoreCreate env (handler.SecretStoreCreate.target env) want false
            match w.err with
            | some err =>
              ⟨500, some ("Failed to create external secret: " ++ err.Error), none, some want, some w⟩
            | none =>
              ⟨201, none, some (want.annotation_of "squidflow.github.io/id"), some want, some w⟩

/-! ## Application create -/

/-- The outcome of `RunAppCreate`: response, error, the two views and the trace.
With a shared repository the tenant view is the meta view. -/
structure AppCreateOutcome where
  resp : Option ApplicationCreatedResp
  err : Option GoErr
  metaView : Option FS
  tenantView : Option FS
  trace : List Event
deriving DecidableEq, Repr

/-- Lines 81 to 93 of `RunAppCreate`: the loop over the detected environments. -/
def RunAppCreate.dryRunManifests (src : AppSource) :
    List String → List ApplicationDryRunEnv → Except GoErr (List ApplicationDryRunEnv)
  | [], manifests => .ok manifests
  | e :: rest, manifests =>
    match src.Manifest e with
    | .error err => .error (Errorf_w ("failed to get manifest for environment " ++ e ++ ": ") err)
    | .ok manifest =>
      RunAppCreate.dryRunManifests src rest
        (manifests ++ [{ Environment := e, IsValid := true, Manifest := manifest,
                         ArgocdFile := "", Error := "" }])

/-- The response of a successful creation (lines 135 to 148 and 168 to 181). -/
def RunAppCreate.created : ApplicationCreatedResp :=
  { Success := true, Message := "application created", Total := 1,
    Environments := [{ Environment := "default", IsValid := true, Manifest := "",
                       ArgocdFile := "", Error := "" }] }

/-- RunAppCreate creates an application in the native GitOps repository structure. -/
def RunAppCreate (env : Env) (n : NativeRepoTarget) (opts : AppCreateOptions) : AppCreateOutcome :=
  let tenantRepoCloneOpts := n.tenantRepoCloneOpts.getD n.metaRepoCloneOpts
  match env.prepareRepo n.metaRepoCloneOpts opts.ProjectName with
  | .error err => ⟨none, some err, none, none, [.clone (some n.metaRepoCloneOpts)]⟩
  | .ok metaRepofs =>
    let differ : Bool := decide (n.metaRepoCloneOpts.Repo ≠ tenantRepoCloneOpts.Repo)
    let tenant : Except GoErr FS :=
      if differ then env.getRepo (some tenantRepoCloneOpts) else .ok metaRepofs
    let t0 : List Event :=
      if differ then [.clone (some n.metaRepoCloneOpts), .clone (some tenantRepoCloneOpts)]
      else [.clone (some n.metaRepoCloneOpts)]
    match tenant with
    | .error err => ⟨none, some err, some metaRepofs, none, t0⟩
    | .ok appsfs =>
      match env.setAppOptsDefaults metaRepofs opts with
      | .error err => ⟨none, some err, some metaRepofs, some appsfs, t0⟩
      | .ok appOpts =>
        if opts.DryRun then
          let envs := appOpts.AppSource.DetectEnvironments
          match RunAppCreate.dryRunManifests appOpts.AppSource envs [] with
          | .error err => ⟨none, some err, some metaRepofs, some appsfs, t0⟩
          | .ok manifests =>
            ⟨some { Success := true, Message := "dry run success", Total := envs.length,
                    Environments := manifests },
              none, some metaRepofs, some appsfs, t0⟩
        else
          match env.parseApp appOpts opts.ProjectName tenantRepoCloneOpts.URL
              tenantRepoCloneOpts.Revision tenantRepoCloneOpts.Path with
          | .error err =>
            ⟨none, some (Errorf_w "failed to parse application from flags: " err),
              some metaRepofs, some appsfs, t0⟩
          | .ok app =>
            let appsHandle : RepoHandle := if differ then .tenant else .meta
            let t1 := t0 ++ [.createFiles opts.ProjectName]
            match app.CreateFiles ⟨metaRepofs, appsfs⟩ .meta appsHandle opts.ProjectName with
            | (views, some err) =>
              let reported :=
                if errorsIs err env.ErrAppAlreadyInstalledOnProject then
                  Errorf_w ("application '" ++ app.Name ++ "' already exists in project '"
                    ++ opts.ProjectName ++ "': ") err
                else err
              ⟨none, some reported, some views.meta, some (views.get appsHandle), t1⟩
            | (views, none) =>
              if differ then
                let commitMsg := env.genCommitMsg ("chore: " ++ env.ActionTypeCreate)
                  env.ResourceNameApp appOpts.AppName opts.ProjectName views.tenant
                match env.Persist .tenant views.tenant commitMsg with
                | some err =>
                  ⟨none, some (Errorf_w "failed to push to apps repo: " err),
                    some views.meta, some views.tenant, t1 ++ [.persist .tenant commitMsg]⟩
                | none =>
                  ⟨some RunAppCreate.created, none, some views.meta, some views.tenant,
                    t1 ++ [.persist .tenant commitMsg]⟩
              else
                let commitMsg := env.genCommitMsg ("chore: " ++ env.ActionTypeCreate)
                  env.ResourceNameApp appOpts.AppName opts.ProjectName views.meta
                match env.Persist .meta views.meta commitMsg with
                | some err =>
                  ⟨none, some (Errorf_w "failed to push to gitops repo: " err),
                    some views.meta, some views.meta, t1 ++ [.persist .meta commitMsg]⟩
                | none =>
                  ⟨some RunAppCreate.created, none, some views.meta, some views.meta,
                    t1 ++ [.persist .meta commitMsg]⟩

/-! ## Application list, get and update -/

/-- The outcome of a read operation: the value, the error, the view and the trace. -/
structure ReadOutcome (α : Type) where
  value : Option α
  err : Option GoErr
  view : Option FS
  trace : List Event

/-- Modelled from the spec: `getConfigFileFromPath` is not under src/.  It reads
and parses the application descriptor `config.json` of the directory (the
layout `apps/<app>/.../<project>/config.json`). -/
def getConfigFileFromPath (c : Codec) (repofs : FS) (appPath : Path) : Except GoErr Config :=
  match readFile repofs (Join appPath ["config.json"]) with
  | none =>
    .error (.new ("failed to read file '" ++ "/".intercalate (Join appPath ["config.json"]) ++ "'"))
  | some text => c.unmarshalConfig text

/-- The response entity built from a config by `RunAppList` and `RunAppGet`. -/
def applicationOf (project now : String) (conf : Config) : types.Application :=
  { ApplicationSource :=
      { Repo := conf.SrcRepoURL, Path := conf.SrcPath, TargetRevision := conf.SrcTargetRevision },
    ApplicationInstantiation :=
      { ApplicationName := conf.UserGivenName, TenantName := project,
        AppCode := conf.annotation_of "squidflow.github.io/appcode",
        Description := conf.annotation_of "squidflow.github.io/description" },
    ApplicationTarget := [{ Cluster := "in-cluster", Namespace := conf.DestNamespace }],
    ApplicationRuntime :=
      { Status := "unknown", Health := "unknown", SyncStatus := "unknown", ArgoCDUrl := "",
        CreatedAt := now, CreatedBy := "", LastUpdatedAt := now, LastUpdatedBy := "" } }

/-- Lines 254 to 257 of `RunAppList`: the glob pattern, for the tenant options `tenant`. -/
def RunAppList.path (st : Store) (n : NativeRepoTarget) (tenant : CloneOptions) : Path :=
  if tenant.Repo ≠ n.metaRepoCloneOpts.Repo then
    Join [] [st.AppsDir, "*", n.project]
  else
    Join [] [st.AppsDir, "*", st.OverlaysDir, n.project]

/-- Lines 271 to 309 of `RunAppList`: the loop over the matches; the first
config that cannot be read ends the call. -/
def RunAppList.collect (c : Codec) (project now : String) (repofs : FS) :
    List Path → Except GoErr (List types.Application)
  | [] => .ok []
  | appPath :: rest =>
    match getConfigFileFromPath c repofs appPath with
    | .error err => .error err
    | .ok conf =>
      match RunAppList.collect c project now repofs rest with
      | .error err => .error err
      | .ok applications => .ok (applicationOf project now conf :: applications)

/-- RunAppList lists all applications in the native GitOps repository structure.
A nil `tenantRepoCloneOpts` makes the read of its `Repo` field panic. -/
def RunAppList (env : Env) (n : NativeRepoTarget) : ReadOutcome (List types.Application) :=
  match env.getRepo n.tenantRepoCloneOpts with
  | .error err => ⟨none, some err, none, [.clone n.tenantRepoCloneOpts]⟩
  | .ok repofs =>
    match n.tenantRepoCloneOpts with
    | none =>
      ⟨none, some (.new "panic: nil pointer dereference"), some repofs,
        [.clone n.tenantRepoCloneOpts]⟩
    | some tenant =>
      match RunAppList.collect env.codec n.project env.now repofs
          (Glob repofs (RunAppList.path env.store n tenant)) with
      | .error err => ⟨none, some err, some repofs, [.clone n.tenantRepoCloneOpts]⟩
      | .ok applications => ⟨some applications, none, some repofs, [.clone n.tenantRepoCloneOpts]⟩

/-- Lines 327 to 330 of `RunAppGet`: the directory read, for the tenant options `tenant`. -/
def RunAppGet.appPath (st : Store) (n : NativeRepoTarget) (tenant : CloneOptions)
    (appName : String) : Path :=
  if tenant.Repo ≠ n.metaRepoCloneOpts.Repo then
    Join [] [st.AppsDir, appName, n.project]
  else
    Join [] [st.AppsDir, appName, st.OverlaysDir, n.project]

/-- RunAppGet gets an application from the native GitOps repository structure.
A nil `tenantRepoCloneOpts` makes the read of its `Repo` field panic. -/
def RunAppGet (env : Env) (n : NativeRepoTarget) (appName : String) :
    ReadOutcome types.Application :=
  match env.getRepo n.tenantRepoCloneOpts with
  | .error err => ⟨none, some err, none, [.clone n.tenantRepoCloneOpts]⟩
  | .ok repofs =>
    match n.tenantRepoCloneOpts with
    | none =>
      ⟨none, some (.new "panic: nil pointer dereference"), some repofs,
        [.clone n.tenantRepoCloneOpts]⟩
    | some tenant =>
      match getConfigFileFromPath env.codec repofs (RunAppGet.appPath env.store n tenant appName) with
      | .error err => ⟨none, some err, some repofs, [.clone n.tenantRepoCloneOpts]⟩
      | .ok conf =>
        ⟨some (applicationOf n.project env.now conf), none, some repofs,
          [.clone n.tenantRepoCloneOpts]⟩

/-- RunAppUpdate updates an application in the native GitOps repository
structure: the body is `return nil`, for any update options. -/
def RunAppUpdate {UpdateOptions : Type} (_env : Env) (_n : NativeRepoTarget)
    (_opts : UpdateOptions) : Outcome :=
  ⟨none, none, []⟩

/-! ## The helm multi-environment variant -/

/-- The struct `helmMultiEnvApp`: the create options of its base, the name, and
the per-environment errors and manifests. -/
structure helmMultiEnvApp where
  baseApp : CreateOptions
  name : String
  err : List (String × GoErr)
  manifests : List (String × String)

/-- The method `helmMultiEnvApp.CreateFiles`: the body is `return nil`. -/
def helmMultiEnvApp.CreateFiles (_h : helmMultiEnvApp) (views : Views)
    (_repofs _appsfs : RepoHandle) (_projectName : String) : Views × Option GoErr :=
  (views, none)

/-- The method `helmMultiEnvApp.Manifests`. -/
def helmMultiEnvApp.Manifests (h : helmMultiEnvApp) : List (String × String) :=
  h.manifests

/-- The helm multi-environment variant seen through the `application.Application` interface. -/
def helmMultiEnvApp.toApplication (h : helmMultiEnvApp) : Application :=
  { Name := h.baseApp.AppName, CreateFiles := h.CreateFiles }

/-! ## Project delete -/

/-- Lines 1022 to 1055 of `DeleteFromProject`: the directory to remove, if any. -/
def DeleteFromProject.plan (st : Store) (repofs : FS) (appName projectName : String) :
    Except GoErr (Option Path) :=
  let appDir := Join [] [st.AppsDir, appName]
  let appOverlay := Join appDir [st.OverlaysDir]
  let dirToCheck := if ExistsOrDie repofs appOverlay then appOverlay else appDir
  match ReadDir repofs dirToCheck with
  | .error err => .error (Errorf_w ("failed to check projects in '" ++ appName ++ "': ") err)
  | .ok allProjects =>
    let found := allProjects.any (fun project => decide (project = projectName))
    if !found then
      .ok none
    else if allProjects.length = 1 then
      .ok (some appDir)
    else
      .ok (some (Join dirToCheck [projectName]))

/-- The function `DeleteFromProject`: the view it leaves and the removal it made. -/
def DeleteFromProject (st : Store) (repofs : FS) (appName projectName : String) :
    Except GoErr (FS × List Event) :=
  match DeleteFromProject.plan st repofs appName projectName with
  | .error err => .error err
  | .ok none => .ok (repofs, [])
  | .ok (some dirToRemove) =>
    match RemoveAll repofs dirToRemove with
    | .error err =>
      .error (Errorf_w ("failed to delete directory '" ++ "/".intercalate dirToRemove ++ "': ") err)
    | .ok repofs1 => .ok (repofs1, [.removeAll dirToRemove])

/-- Lines 909 to 914 of `RunProjectDelete`: the loop over the listed applications. -/
def RunProjectDelete.detachAll (st : Store) (projectName : String) :
    FS → List String → FS × List Event × Option GoErr
  | repofs, [] => (repofs, [], none)
  | repofs, app :: rest =>
    match DeleteFromProject st repofs app projectName with
    | .error err => (repofs, [], some err)
    | .ok (repofs1, evs) =>
      match RunProjectDelete.detachAll st projectName repofs1 rest with
      | (repofs2, evs2, err) => (repofs2, evs ++ evs2, err)

/-- The method `RunProjectDelete`: all the project delete logic is based on the meta repo. -/
def RunProjectDelete (env : Env) (n : NativeRepoTarget) (projectName : String) : Outcome :=
  match env.prepareRepo n.metaRepoCloneOpts projectName with
  | .error err => ⟨some err, none, [.clone (some n.metaRepoCloneOpts)]⟩
  | .ok repofs =>
    let t0 : List Event := [.clone (some n.metaRepoCloneOpts)]
    match ReadDir repofs (Join [] [env.store.AppsDir]) with
    | .error _ => ⟨some (.new "failed to list all applications"), some repofs, t0⟩
    | .ok allApps =>
      match RunProjectDelete.detachAll env.store projectName repofs allApps with
      | (repofs1, evs, some err) => ⟨some err, some repofs1, t0 ++ evs⟩
      | (repofs1, evs, none) =>
        let file := Join [] [env.store.ProjectsDir, projectName ++ ".yaml"]
        match Remove repofs1 file with
        | .error err =>
          ⟨some (Errorf_w ("failed to delete project '" ++ projectName ++ "': ") err),
            some repofs1, t0 ++ evs⟩
        | .ok repofs2 =>
          let commitMsg := "chore: deleted project '" ++ projectName ++ "'"
          let t1 := t0 ++ evs ++ [.remove file, .persist .meta commitMsg]
          match env.Persist .meta repofs2 commitMsg with
          | some err => ⟨some (Errorf_w "failed to push to repo: " err), some repofs2, t1⟩
          | none => ⟨none, some repofs2, t1⟩

/-! ## Secret store update, list and get -/

/-- Modelled from the spec: `repofs.ReadYamls` (package `pkg/fs`) is not under
src/.  It reads the file and parses it into the object; an absent file and a
document that does not parse are errors. -/
def ReadYamls (c : Codec) (repofs : FS) (file : Path) : Except GoErr SecretStore :=
  match readFile repofs file with
  | none => .error (.new ("file does not exist: " ++ "/".intercalate file))
  | some text => c.unmarshalSecretStore text

/-- The type `types.SecretStoreUpdateRequest`; a nil `Auth` is `none`. -/
structure SecretStoreUpdateRequest where
  Name : String := ""
  Path : String := ""
  Server : String := ""
  Auth : Option String := none
deriving DecidableEq, Repr

/-- An update of the Vault block `secretStore.Spec.Provider.Vault`; `none` is
the nil pointer dereference that the assignment makes when the provider or its
Vault block is nil. -/
def updateVault (ss : SecretStore) (f : VaultProvider → VaultProvider) : Option SecretStore :=
  match ss.Provider with
  | none => none
  | some provider =>
    match provider.Vault with
    | none => none
    | some vault => some { ss with Provider := some { provider with Vault := some (f vault) } }

/-- Lines 806 to 820 of `SecretStoreUpdate`: the fields present in the request
are applied and `updated-at` is stamped; `none` is a panic (nil pointer, or
assignment to an entry of a nil map). -/
def SecretStoreUpdate.apply_to (now : String) (req : SecretStoreUpdateRequest)
    (secretStore : SecretStore) : Option SecretStore :=
  let s1 := if req.Name ≠ "" then { secretStore with Name := req.Name } else secretStore
  let s2 := if req.Path ≠ "" then updateVault s1 (fun v => { v with Path := some req.Path }) else some s1
  let s3 := s2.bind (fun s =>
    match req.Auth with
    | some auth => updateVault s (fun v => { v with Auth := auth })
    | none => some s)
  let s4 := s3.bind (fun s =>
    if req.Server ≠ "" then updateVault s (fun v => { v with Server := req.Server }) else some s)
  s4.bind (fun s =>
    match s.Annotations with
    | none => none
    | some m => some { s with Annotations := some (mapSet m "squidflow.github.io/updated-at" now) })

/-- The outcome of `SecretStoreUpdate`: the returned store and error, whether the
call panicked, the view left by the write and the trace. -/
structure UpdateOutcome where
  value : Option SecretStore
  err : Option GoErr
  panicked : Bool
  view : Option FS
  trace : List Event
deriving DecidableEq, Repr

/-- The writer's `SecretStoreUpdate`: it reads on one clone and writes through
`SecretStoreCreate`, which clones again. -/
def SecretStoreUpdate (env : Env) (n : NativeRepoTarget) (id : String)
    (req : SecretStoreUpdateRequest) : UpdateOutcome :=
  match env.prepareRepo n.metaRepoCloneOpts "" with
  | .error err =>
    ⟨none, some (Errorf_w "failed to prepare repo: " err), false, none,
      [.clone (some n.metaRepoCloneOpts)]⟩
  | .ok repofs =>
    let t0 : List Event := [.clone (some n.metaRepoCloneOpts)]
    match ReadYamls env.codec repofs (secretStorePath env.store id) with
    | .error err =>
      ⟨none, some (Errorf_w "failed to read secret store: " err), false, some repofs, t0⟩
    | .ok secretStore =>
      match SecretStoreUpdate.apply_to env.now req secretStore with
      | none => ⟨none, none, true, some repofs, t0⟩
      | some updated =>
        let w := SecretStoreCreate env n updated true
        match w.err with
        | some err =>
          ⟨none, some (Errorf_w "failed to write secret store to repo: " err), false, w.view,
            t0 ++ w.trace⟩
        | none => ⟨some updated, none, false, w.view, t0 ++ w.trace⟩

/-- Lines 703 to 724 of `SecretStoreList`: the entries that parse and whose kind
is `SecretStore`, in the order of the matches; the others are skipped. -/
def SecretStoreList.collect (c : Codec) (repofs : FS) : List Path → List SecretStore
  | [] => []
  | file :: rest =>
    match ReadYamls c repofs file with
    | .error _ => SecretStoreList.collect c repofs rest
    | .ok secretStore =>
      if secretStore.Kind ≠ "SecretStore" then SecretStoreList.collect c repofs rest
      else secretStore :: SecretStoreList.collect c repofs rest

/-- The glob pattern of `SecretStoreList`. -/
def SecretStoreList.pattern (st : Store) : Path :=
  Join [] [st.BootsrtrapDir, st.ClusterResourcesDir, st.ClusterContextName, "ss-*.yaml"]

/-- The writer's `SecretStoreList`. -/
def SecretStoreList (env : Env) (n : NativeRepoTarget) : ReadOutcome (List SecretStore) :=
  match env.prepareRepo n.metaRepoCloneOpts "" with
  | .error err => ⟨none, some err, none, [.clone (some n.metaRepoCloneOpts)]⟩
  | .ok repofs =>
    ⟨some (SecretStoreList.collect env.codec repofs (Glob repofs (SecretStoreList.pattern env.store))),
      none, some repofs, [.clone (some n.metaRepoCloneOpts)]⟩

/-- The writer's `SecretStoreGet`. -/
def SecretStoreGet (env : Env) (n : NativeRepoTarget) (id : String) : ReadOutcome SecretStore :=
  match env.prepareRepo n.metaRepoCloneOpts "" with
  | .error err => ⟨none, some err, none, [.clone (some n.metaRepoCloneOpts)]⟩
  | .ok repofs =>
    match ReadYamls env.codec repofs (secretStorePath env.store id) with
    | .error err =>
      ⟨none, some (Errorf_v ("failed to read secret store " ++ id ++ ": ") err), some repofs,
        [.clone (some n.metaRepoCloneOpts)]⟩
    | .ok secretStore =>
      if secretStore.Kind ≠ "SecretStore" then
        ⟨none, some (.new ("invalid secret store kind: " ++ secretStore.Kind)), some repofs,
          [.clone (some n.metaRepoCloneOpts)]⟩
      else
        ⟨some secretStore, none, some repofs, [.clone (some n.metaRepoCloneOpts)]⟩

/-! ## Project list and get -/

/-- The type `types.TenantInfo`. -/
structure types.TenantInfo where
  Name : String
  Namespace : String
  DefaultCluster : String
  GitOpsRepo : String
deriving DecidableEq, Repr

/-- The type `types.ProjectDest`. -/
structure types.ProjectDest where
  Server : String
  Namespace : String
deriving DecidableEq, Repr

/-- The type `types.ProjectResource`. -/
structure types.ProjectResource where
  Group : String
  Kind : String
deriving DecidableEq, Repr

/-- The type `types.TenantDetailInfo`. -/
structure types.TenantDetailInfo where
  Name : String
  Namespace : String
  Description : String
  DefaultCluster : String
  CreatedBy : String
  CreatedAt : String
  GitOpsRepo : String
  SourceRepos : List String
  Destinations : List types.ProjectDest
  ClusterResourceWhitelist : List types.ProjectResource
  NamespaceResourceWhitelist : List types.ProjectResource
deriving DecidableEq, Repr

/-- The read `m[k]` on a map that may be nil. -/
def annotationOf (m : Option GoMap) (k : String) : String :=
  match m with
  | none => ""
  | some m => mapGet m k

/-- The variable `getProjectInfoFromFile`: both documents of the project file. -/
def getProjectInfoFromFile (c : Codec) (repofs : FS) (name : Path) :
    Except GoErr (AppProject × ApplicationSet) :=
  match readFile repofs name with
  | none => .error (.new ("file does not exist: " ++ "/".intercalate name))
  | some text => c.readProjectYamls text

/-- The read `appset.Spec.Generators[0].Git.RepoURL`; `none` is the panic of an
index out of range or of a nil `Git`. -/
def firstGeneratorRepoURL (appset : ApplicationSet) : Option String :=
  match appset.Spec.Generators with
  | [] => none
  | g :: _ =>
    match g.Git with
    | none => none
    | some git => some git.RepoURL

/-- The entry `RunProjectList` builds from a project file. -/
def RunProjectList.entry (st : Store) (proj : AppProject) (appset : ApplicationSet) :
    Option types.TenantInfo :=
  (firstGeneratorRepoURL appset).map (fun repoURL =>
    { Name := proj.objectMeta.Name,
      Namespace := proj.objectMeta.Namespace,
      DefaultCluster := annotationOf proj.objectMeta.Annotations st.DestServerAnnotation,
      GitOpsRepo := repoURL })

/-- Lines 943 to 956 of `RunProjectList`: the loop over the matches; the first
file that cannot be read ends the call with its error, and `none` is a panic. -/
def RunProjectList.collect (st : Store) (c : Codec) (repofs : FS) :
    List Path → Except GoErr (Option (List types.TenantInfo))
  | [] => .ok (some [])
  | name :: rest =>
    match getProjectInfoFromFile c repofs name with
    | .error err => .error err
    | .ok (proj, appset) =>
      match RunProjectList.entry st proj appset with
      | none => .ok none
      | some tenantInfo =>
        match RunProjectList.collect st c repofs rest with
        | .error err => .error err
        | .ok none => .ok none
        | .ok (some tenants) => .ok (some (tenantInfo :: tenants))

/-- The writer's `RunProjectList`; a panic is reported as an error. -/
def RunProjectList (env : Env) (n : NativeRepoTarget) : ReadOutcome (List types.TenantInfo) :=
  match env.prepareRepo (env.Parse n.metaRepoCloneOpts) "" with
  | .error err => ⟨none, some err, none, [.clone (some (env.Parse n.metaRepoCloneOpts))]⟩
  | .ok repofs =>
    let t0 : List Event := [.clone (some (env.Parse n.metaRepoCloneOpts))]
    match RunProjectList.collect env.store env.codec repofs
        (Glob repofs (Join [] [env.store.ProjectsDir, "*.yaml"])) with
    | .error err => ⟨none, some err, some repofs, t0⟩
    | .ok none => ⟨none, some (.new "panic: index out of range or nil pointer dereference"),
        some repofs, t0⟩
    | .ok (some tenants) => ⟨some tenants, none, some repofs, t0⟩

/-- The detail `RunProjectGet` builds from a project file. -/
def RunProjectGet.detail (st : Store) (proj : AppProject) (appset : ApplicationSet) :
    Option types.TenantDetailInfo :=
  (firstGeneratorRepoURL appset).map (fun repoURL =>
    { Name := proj.objectMeta.Name,
      Namespace := proj.objectMeta.Namespace,
      Description := annotationOf proj.objectMeta.Annotations "description",
      DefaultCluster := annotationOf proj.objectMeta.Annotations st.DestServerAnnotation,
      CreatedBy := annotationOf proj.objectMeta.Annotations "created-by",
      CreatedAt := proj.objectMeta.CreationTimestamp,
      GitOpsRepo := repoURL,
      SourceRepos := proj.Spec.SourceRepos,
      Destinations := proj.Spec.Destinations.map (fun dest =>
        { Server := dest.Server, Namespace := dest.Namespace }),
      ClusterResourceWhitelist := proj.Spec.ClusterResourceWhitelist.map (fun res =>
        { Group := res.Group, Kind := res.Kind }),
      NamespaceResourceWhitelist := proj.Spec.NamespaceResourceWhitelist.map (fun res =>
        { Group := res.Group, Kind := res.Kind }) })

/-- The writer's `RunProjectGet`; a panic is reported as an error. -/
def RunProjectGet (env : Env) (n : NativeRepoTarget) (projectName : String) :
    ReadOutcome types.TenantDetailInfo :=
  match env.prepareRepo n.metaRepoCloneOpts projectName with
  | .error err => ⟨none, some err, none, [.clone (some n.metaRepoCloneOpts)]⟩
  | .ok repofs =>
    let t0 : List Event := [.clone (some n.metaRepoCloneOpts)]
    let projectFile := Join [] [env.store.ProjectsDir, projectName ++ ".yaml"]
    if !ExistsOrDie repofs projectFile then
      ⟨none, some (.new ("project " ++ projectName ++ " not found")), some repofs, t0⟩
    else
      match getProjectInfoFromFile env.codec repofs projectFile with
      | .error err => ⟨none, some err, some repofs, t0⟩
      | .ok (proj, appset) =>
        match RunProjectGet.detail env.store proj appset with
        | none => ⟨none, some (.new "panic: index out of range or nil pointer dereference"),
            some repofs, t0⟩
        | some detail => ⟨some detail, none, some repofs, t0⟩

/-! ## Discovery patterns -/

/-- Modelled from the spec: the matcher of the git-file generator belongs to the
reconciler and is not under src/.  A descriptor path against a generator
pattern, segment by segment: the segment `**` matches one or more directory
levels, any other segment is a glob on one name. -/
def segMatch : List String → List String → Bool
  | [], names => names.isEmpty
  | pat :: pats, names =>
    if pat = "**" then
      match names with
      | [] => false
      | _ :: rest => rest.tails.any (fun t => segMatch pats t)
    else
      match names with
      | [] => false
      | name :: rest => globMatch pat.toList name.toList && segMatch pats rest

/-- The names of a path between its separators. -/
def pathNames (s : String) : List String :=
  ((splitSlash s.toList).filter (fun c => c ≠ [])).map String.mk

/-- Whether a text holds none of the glob characters `*`, `?`, `[` and the backslash. -/
def noGlobChars (s : String) : Bool :=
  s.toList.all (fun c => c ≠ '*' && c ≠ '?' && c ≠ '[' && c ≠ Char.ofNat 92)

/-- Whether a name is a single path segment: not empty, not `.` or `..`, without
separator and without glob character. -/
def isPlainName (s : String) : Bool :=
  s ≠ "" && s ≠ "." && s ≠ ".." && s.toList.all (fun c => c ≠ '/') && noGlobChars s

/-- The nodes of the view that `DeleteFromProject` keeps for the application:
all of them unless its plan names a directory to remove. -/
def DeleteFromProject.keeps (st : Store) (repofs : FS) (projectName appName : String)
    (e : Entry) : Bool :=
  match DeleteFromProject.plan st repofs appName projectName with
  | .ok (some dirToRemove) => !dirToRemove.isPrefixOf e.path
  | _ => true

/-! ## Examples used by the witnesses -/

/-- The layout of the specification: `apps`, `overlays`, `projects`, `bootstrap/cluster-resources`. -/
def exampleStore : Store :=
  { AppsDir := "apps", OverlaysDir := "overlays", ProjectsDir := "projects",
    BootsrtrapDir := "bootstrap", ClusterResourcesDir := "cluster-resources",
    ClusterContextName := "in-cluster", DestServer := "https://kubernetes.default.svc",
    DestServerAnnotation := "default-dest-server",
    LabelKeyAppManagedBy := "app.kubernetes.io/managed-by", LabelValueManagedBy := "squidflow" }

/-- A secret store as the create path stores it, under the identifier `abc`. -/
def storedSecretStore : SecretStore :=
  { Kind := "SecretStore", Name := "vault-store",
    Annotations := some [("squidflow.github.io/last-synced", "2023-12-31T00:00:00Z"),
                         ("squidflow.github.io/created-at", "2023-12-31T00:00:00Z"),
                         ("squidflow.github.io/updated-at", "2023-12-31T00:00:00Z"),
                         ("squidflow.github.io/id", "abc")],
    Provider := some { Vault := some { Server := "https://vault.example", Path := some "secret" } } }

/-- The secret store that the create handler hands to the writer for the
document `vault`, with the identifier `generated-id`. -/
def createdSecretStore : SecretStore :=
  { Kind := "SecretStore", Name := "vault-store",
    Annotations := some [("squidflow.github.io/last-synced", "2024-01-01T00:00:00Z"),
                         ("squidflow.github.io/created-at", "2024-01-01T00:00:00Z"),
                         ("squidflow.github.io/updated-at", "2024-01-01T00:00:00Z"),
                         ("squidflow.github.io/id", "generated-id")],
    Provider := some { Vault := some {} } }

/-- A parser that knows six documents: a Vault store without identifier, a
Vault store carrying a client-chosen identifier, a store without provider
carrying an identifier, the stored secret stores `abc` and `generated-id`, and
an object of another kind. -/
def exampleUnmarshal (yaml : String) : Except GoErr SecretStore :=
  if yaml = "vault" then
    .ok { Kind := "SecretStore", Name := "vault-store", Provider := some { Vault := some {} } }
  else if yaml = "vault-with-id" then
    .ok { Kind := "SecretStore", Name := "vault-store",
          Annotations := some [("squidflow.github.io/id", "client-id")],
          Provider := some { Vault := some {} } }
  else if yaml = "no-provider-with-id" then
    .ok { Kind := "SecretStore", Name := "plain",
          Annotations := some [("squidflow.github.io/id", "client-id")] }
  else if yaml = "stored" then
    .ok storedSecretStore
  else if yaml = "created" then
    .ok createdSecretStore
  else if yaml = "cluster-store" then
    .ok { Kind := "ClusterSecretStore", Name := "shared" }
  else
    .error (.new "yaml: cannot unmarshal")

/-- Serialisers that print the name and the namespace of the object. -/
def exampleCodec : Codec :=
  { marshalAppProject := fun p =>
      .ok ("kind: AppProject name: " ++ p.objectMeta.Name ++ " namespace: " ++ p.objectMeta.Namespace),
    marshalAppSet := fun a =>
      .ok ("kind: ApplicationSet name: " ++ a.objectMeta.Name ++ " namespace: " ++ a.objectMeta.Namespace),
    marshalClusterResConfig := fun c => .ok ("name: " ++ c.Name ++ " server: " ++ c.Server),
    clusterResReadmeTpl := "cluster \x7bCLUSTER\x7d",
    getDefaultAppLabels := fun l => l,
    marshalSecretStore := fun ss => .ok ("kind: SecretStore name: " ++ ss.Name),
    unmarshalSecretStore := exampleUnmarshal,
    unmarshalConfig := fun text => .ok { UserGivenName := text, DestNamespace := "default" },
    readProjectYamls := fun _ => .error (.new "yaml: cannot unmarshal") }

/-- Collaborators that always succeed on the view `fs`. -/
def exampleEnv (fs : FS) : Env :=
  { store := exampleStore,
    getRepo := fun _ => .ok fs,
    prepareRepo := fun _ _ => .ok fs,
    Persist := fun _ _ _ => none,
    getInstallationNamespace := fun _ => .ok "argocd",
    KubeContextToServer := fun _ => .ok "https://cluster.example",
    codec := exampleCodec,
    Doc := fun m => m,
    Root := fun _ => "/",
    now := "2024-01-01T00:00:00Z",
    getNewId := "generated-id",
    viperGetString := fun _ => "https://git.example/org/meta.git",
    Parse := fun o => o,
    setAppOptsDefaults := fun _ o => .ok o.AppOpts,
    parseApp := fun o _ _ _ _ => .ok { Name := o.AppName, CreateFiles := fun v _ _ _ => (v, none) },
    genCommitMsg := fun action resource appName _ _ => action ++ " " ++ resource ++ " '" ++ appName ++ "'",
    ActionTypeCreate := "create",
    ResourceNameApp := "app",
    ErrAppAlreadyInstalledOnProject := .new "application already installed on project" }

/-- One repository used as meta and tenant repository. -/
def exampleOpts : CloneOptions :=
  { Repo := "https://git.example/org/meta.git", URL := "https://git.example/org/meta.git",
    Revision := "main", Path := "", CloneForWrite := true }

/-- A writer scoped to project `teamA`. -/
def teamAWriter : NativeRepoTarget :=
  { project := "teamA", metaRepoCloneOpts := exampleOpts, tenantRepoCloneOpts := some exampleOpts }

/-- Application `foo` with the single overlay `teamA`. -/
def fooOneOverlay : FS :=
  [⟨["apps", "foo", "base", "kustomization.yaml"], some "base"⟩,
   ⟨["apps", "foo", "overlays", "teamA", "config.json"], some "a"⟩,
   ⟨["projects", "teamA.yaml"], some "teamA"⟩]

/-- Application `foo` with the overlays `teamA` and `teamB`. -/
def fooTwoOverlays : FS :=
  [⟨["apps", "foo", "base", "kustomization.yaml"], some "base"⟩,
   ⟨["apps", "foo", "overlays", "teamA", "config.json"], some "a"⟩,
   ⟨["apps", "foo", "overlays", "teamB", "config.json"], some "b"⟩,
   ⟨["projects", "teamA.yaml"], some "teamA"⟩]

/-- A bootstrapped repository without any project. -/
def bootstrappedRepo : FS :=
  [⟨["bootstrap", "argo-cd.yaml"], some "argocd"⟩,
   ⟨["projects", "README.md"], some "projects"⟩]

/-- A request to create project `teamA` on the default cluster. -/
def teamACreate (dryRun : Bool) : ProjectCreateOptions :=
  { ProjectName := "teamA", DestKubeServer := "", DestKubeContext := "", ProjectGitopsRepo := "",
    DryRun := dryRun, AddCmd := fun _ => none, Labels := none, Annotations := none }

/-- A dry-run request to create project `teamB` with a new destination cluster. -/
def teamBDryRun : ProjectCreateOptions :=
  { ProjectName := "teamB", DestKubeServer := "", DestKubeContext := "staging", ProjectGitopsRepo := "",
    DryRun := true, AddCmd := fun _ => none, Labels := none, Annotations := none }

/-- A bootstrapped repository holding the secret store `abc`. -/
def repoWithSecretStore : FS :=
  [⟨["bootstrap", "argo-cd.yaml"], some "argocd"⟩,
   ⟨["bootstrap", "cluster-resources", "in-cluster", "ss-abc.yaml"], some "kind: SecretStore"⟩]

/-- An application source with environments `dev` and `staging`: `dev` renders,
the rendering of `staging` fails. -/
def devStagingSource : AppSource :=
  { DetectEnvironments := ["dev", "staging"],
    Manifest := fun e => if e = "dev" then .ok "kind: Deployment" else .error (.new "render failed") }

/-- A dry-run request to create application `foo` in project `teamA` from `devStagingSource`. -/
def fooDryRun : AppCreateOptions :=
  { ProjectName := "teamA", DryRun := true,
    AppOpts :=
      { AppName := "foo", AppSpecifier := "https://git.example/org/apps.git/foo", AppType := "helm",
        DestNamespace := "default", DestServer := "", InstallationMode := "flatten",
        Environments := ["dev", "staging"], HelmManifestPath := "", Labels := none,
        Annotations := none, AppSource := devStagingSource } }

/-- A writer without project scope. -/
def unscopedWriter : NativeRepoTarget :=
  { project := "", metaRepoCloneOpts := exampleOpts, tenantRepoCloneOpts := some exampleOpts }

/-- A writer scoped to project `teamC`. -/
def teamCWriter : NativeRepoTarget :=
  { project := "teamC", metaRepoCloneOpts := exampleOpts, tenantRepoCloneOpts := some exampleOpts }

/-- A tenant repository reference with the remote URL of `exampleOpts` and another revision. -/
def tenantDevOpts : CloneOptions :=
  { Repo := "https://git.example/org/meta.git?ref=dev", URL := "https://git.example/org/meta.git",
    Revision := "dev", Path := "", CloneForWrite := true }

/-- A writer scoped to `teamA` whose tenant reference is `tenantDevOpts`. -/
def splitWriter : NativeRepoTarget :=
  { project := "teamA", metaRepoCloneOpts := exampleOpts, tenantRepoCloneOpts := some tenantDevOpts }

/-- Collaborators that always succeed: `prepareRepo` gives the meta view,
`getRepo` the tenant view. -/
def splitEnv (metaFs tenantFs : FS) : Env :=
  { exampleEnv metaFs with getRepo := fun _ => .ok tenantFs }

/-- A tenant repository in the split layout: `foo` is installed for `teamA` and
for a project named `overlays`. -/
def tenantWithOverlaysProject : FS :=
  [⟨["apps", "foo", "teamA", "config.json"], some "foo"⟩,
   ⟨["apps", "foo", "overlays", "config.json"], some "foo"⟩]

/-- A tenant repository in the split layout: `foo` is installed for `teamA`. -/
def tenantFooTeamA : FS :=
  [⟨["apps", "foo", "teamA", "config.json"], some "foo"⟩]

/-- A bootstrapped meta repository with project `teamA` and no application of its own. -/
def metaTeamA : FS :=
  [⟨["bootstrap", "argo-cd.yaml"], some "argocd"⟩,
   ⟨["apps", "README.md"], some "applications"⟩,
   ⟨["projects", "teamA.yaml"], some "teamA"⟩]

/-- A request to create application `foo` in project `teamA`, not a dry run. -/
def fooCreate : AppCreateOptions :=
  { fooDryRun with DryRun := false }

/-- A helm multi-environment application `foo`. -/
def fooHelmApp : helmMultiEnvApp :=
  { baseApp := fooDryRun.AppOpts, name := "foo", err := [], manifests := [("dev", "kind: Deployment")] }

/-- Collaborators as in `exampleEnv`, with a variant whose `CreateFiles` reports
the sentinel wrapped in a message and writes nothing. -/
def conflictEnv (fs : FS) : Env :=
  { exampleEnv fs with
    parseApp := fun o _ _ _ _ =>
      .ok { Name := o.AppName,
            CreateFiles := fun v _ _ _ =>
              (v, some (.wrap "app 'foo': application already installed on project"
                (.new "application already installed on project"))) } }

/-- A bootstrapped shared repository: `foo` has the overlays `teamA` and
`teamB`, `bar` has the single overlay `teamA`, `baz` has the single overlay `teamB`. -/
def metaThreeApps : FS :=
  [⟨["bootstrap", "argo-cd.yaml"], some "argocd"⟩,
   ⟨["apps", "foo", "overlays", "teamA", "config.json"], some "a"⟩,
   ⟨["apps", "foo", "overlays", "teamB", "config.json"], some "b"⟩,
   ⟨["apps", "bar", "base", "kustomization.yaml"], some "base"⟩,
   ⟨["apps", "bar", "overlays", "teamA", "config.json"], some "a"⟩,
   ⟨["apps", "baz", "overlays", "teamB", "config.json"], some "b"⟩,
   ⟨["projects", "teamA.yaml"], some "teamA"⟩,
   ⟨["projects", "teamB.yaml"], some "teamB"⟩]

/-- A bootstrapped repository holding three files named like secret stores: the
stored secret store `abc`, a file that does not parse and an object of another kind. -/
def repoWithMixedSecretStores : FS :=
  [⟨["bootstrap", "argo-cd.yaml"], some "argocd"⟩,
   ⟨["bootstrap", "cluster-resources", "in-cluster", "ss-abc.yaml"], some "stored"⟩,
   ⟨["bootstrap", "cluster-resources", "in-cluster", "ss-bad.yaml"], some "not yaml"⟩,
   ⟨["bootstrap", "cluster-resources", "in-cluster", "ss-shared.yaml"], some "cluster-store"⟩]

/-- A bootstrapped repository holding the secret store `generated-id`. -/
def repoWithCreatedSecretStore : FS :=
  [⟨["bootstrap", "argo-cd.yaml"], some "argocd"⟩,
   ⟨["bootstrap", "cluster-resources", "in-cluster", "ss-generated-id.yaml"], some "created"⟩]

/-- A bootstrapped repository holding two secret stores that were committed
without the create handler: `plain` has a Vault provider and no annotations,
`bare` has annotations and no provider. -/
def repoWithForeignSecretStores : FS :=
  [⟨["bootstrap", "argo-cd.yaml"], some "argocd"⟩,
   ⟨["bootstrap", "cluster-resources", "in-cluster", "ss-plain.yaml"], some "vault"⟩,
   ⟨["bootstrap", "cluster-resources", "in-cluster", "ss-bare.yaml"], some "no-provider-with-id"⟩]

/-- A request that renames the store and moves it to another Vault server. -/
def renameRequest : SecretStoreUpdateRequest :=
  { Name := "renamed", Server := "https://vault2.example" }

/-- The options `RunProjectCreate` generates the manifests of `teamA` from. -/
def teamAGenOptions : GenerateProjectOptions :=
  RunProjectCreate.genOptions teamAWriter (teamACreate false) "argocd" "https://kubernetes.default.svc"

/-- The codec `exampleCodec` with a parser that reads the project file of
`teamA` back as the two objects it was marshalled from. -/
def roundTripCodec : Codec :=
  { exampleCodec with
    readProjectYamls := fun text =>
      if text = "kind: AppProject name: teamA namespace: argocd\n---\nkind: ApplicationSet name: teamA namespace: argocd" then
        .ok (generateProjectManifests.project exampleStore teamAGenOptions,
          createAppSet.object exampleStore
            (generateProjectManifests.appSetOptions exampleStore exampleCodec teamAGenOptions))
      else
        .error (.new "yaml: cannot unmarshal") }

/-- Collaborators as in `exampleEnv`, with the codec `roundTripCodec`. -/
def roundTripEnv (fs : FS) : Env :=
  { exampleEnv fs with codec := roundTripCodec }

/-- The bootstrapped repository after the creation of project `teamA`. -/
def repoWithTeamA : FS :=
  bootstrappedRepo ++ [⟨["projects", "teamA.yaml"],
    some "kind: AppProject name: teamA namespace: argocd\n---\nkind: ApplicationSet name: teamA namespace: argocd"⟩]

/-! ## Lemmas on the filesystem view -/

theorem isPrefixOf_iff (p q : Path) : p.isPrefixOf q = true ↔ p <+: q := by
  simp

theorem isPrefixOf_eq_false_iff (p q : Path) : p.isPrefixOf q = false ↔ ¬ p <+: q := by
  constructor
  · intro h hp
    rw [(isPrefixOf_iff _ _).2 hp] at h
    cases h
  · intro h
    cases hb : p.isPrefixOf q
    · rfl
    · exact absurd ((isPrefixOf_iff _ _).1 hb) h

theorem find?_eq_of_agree {α : Type} (f g : α → Bool) (l : List α)
    (h : ∀ a ∈ l, f a = g a) : l.find? f = l.find? g := by
  induction l with
  | nil => rfl
  | cons a l ih =>
    have ha := h a (by simp)
    have ih1 := ih (fun b hb => h b (by simp [hb]))
    simp [List.find?, ha, ih1]

theorem ExistsOrDie_iff (fs : FS) (p : Path) :
    ExistsOrDie fs p = true ↔ ∃ e ∈ fs, p <+: e.path := by
  simp [ExistsOrDie, isPrefixOf_iff]

theorem ExistsOrDie_eq_false_iff (fs : FS) (p : Path) :
    ExistsOrDie fs p = false ↔ ∀ e ∈ fs, ¬ p <+: e.path := by
  simp [ExistsOrDie, isPrefixOf_iff]

theorem childName_eq_some_iff (p : Path) (e : Entry) (name : String) :
    childName p e = some name ↔ (p ++ [name]) <+: e.path := by
  unfold childName
  constructor
  · intro h
    split at h
    · rename_i hp
      obtain ⟨t, ht⟩ := (isPrefixOf_iff _ _).1 hp
      rw [← ht] at h ⊢
      simp at h
      cases t with
      | nil => simp at h
      | cons a t =>
        simp at h
        subst h
        exact ⟨t, by simp⟩
    · simp at h
  · rintro ⟨t, ht⟩
    have hp : p.isPrefixOf e.path = true := (isPrefixOf_iff _ _).2 ⟨name :: t, by simpa using ht⟩
    rw [if_pos hp, ← ht]
    simp

theorem mem_of_ReadDir (fs : FS) (p : Path) (names : List String)
    (h : ReadDir fs p = .ok names) (name : String) :
    name ∈ names ↔ ∃ e ∈ fs, (p ++ [name]) <+: e.path := by
  unfold ReadDir at h
  split at h
  · cases h
  · injection h with h
    subst h
    simp [List.mem_dedup, List.mem_filterMap, childName_eq_some_iff]

theorem Join_single (p : Path) (s : String) (h : s ≠ "") : Join p [s] = p ++ [s] := by
  simp [Join, h]

/-! ## Application delete: the collapse rule -/

theorem plan_of_single_overlay (st : Store) (project : String) (repofs : FS) (appName : String)
    (hone : ReadDir repofs (overlayContainer st repofs appName) = .ok [project]) :
    RunAppDelete.plan st project repofs appName
      = .ok (Join [] [st.AppsDir, appName], "chore: delete app '" ++ appName ++ "'") := by
  unfold RunAppDelete.plan
  by_cases hp : project = ""
  · simp [hp]
  · have hex : ExistsOrDie repofs (Join (overlayContainer st repofs appName) [project]) = true := by
      rw [Join_single _ _ hp]
      exact (ExistsOrDie_iff _ _).2 ((mem_of_ReadDir _ _ _ hone project).1 (by simp))
    simp [hp, hex, hone]

theorem not_exists_under_of_RemoveAll (fs fs1 : FS) (dir p : Path)
    (h : RemoveAll fs dir = .ok fs1) (hp : dir <+: p) : ExistsOrDie fs1 p = false := by
  unfold RemoveAll at h
  injection h with h
  subst h
  rw [ExistsOrDie_eq_false_iff]
  intro e he hpe
  have hnot := (List.mem_filter.1 he).2
  have hyes := (isPrefixOf_iff _ _).2 (hp.trans hpe)
  simp [hyes] at hnot

/-- C1: when the overlay container of the application (`apps/<app>/overlays` if
it exists, else `apps/<app>`) lists exactly one entry, the writer's project,
`RunAppDelete` removes the whole application directory: the view it leaves has
no path at or under `apps/<app>`, and the call returns no error as soon as the
push of that view is accepted. -/
theorem RunAppDelete_only_overlay_removes_app (env : Env) (n : NativeRepoTarget)
    (appName : String) (repofs : FS)
    (hclone : env.getRepo n.tenantRepoCloneOpts = .ok repofs)
    (happ : ExistsOrDie repofs (Join [] [env.store.AppsDir, appName]) = true)
    (hone : ReadDir repofs (overlayContainer env.store repofs appName) = .ok [n.project]) :
    ∃ repofs1, (RunAppDelete env n appName).view = some repofs1
      ∧ (∀ p, Join [] [env.store.AppsDir, appName] <+: p → ExistsOrDie repofs1 p = false)
      ∧ (RunAppDelete env n appName).trace
          = [.clone n.tenantRepoCloneOpts, .removeAll (Join [] [env.store.AppsDir, appName]),
             .persist .tenant ("chore: delete app '" ++ appName ++ "'")]
      ∧ (env.Persist .tenant repofs1 ("chore: delete app '" ++ appName ++ "'") = none →
          (RunAppDelete env n appName).err = none) := by
  obtain ⟨repofs1, h1⟩ : ∃ r, RemoveAll repofs (Join [] [env.store.AppsDir, appName]) = .ok r :=
    ⟨_, rfl⟩
  refine ⟨repofs1, ?_, fun p hp => not_exists_under_of_RemoveAll _ _ _ _ h1 hp, ?_, ?_⟩
  · unfold RunAppDelete
    simp only [hclone, happ, plan_of_single_overlay _ _ _ _ hone, h1]
    cases env.Persist .tenant repofs1 ("chore: delete app '" ++ appName ++ "'") <;> simp
  · unfold RunAppDelete
    simp only [hclone, happ, plan_of_single_overlay _ _ _ _ hone, h1]
    cases env.Persist .tenant repofs1 ("chore: delete app '" ++ appName ++ "'") <;> simp
  · intro hpush
    unfold RunAppDelete
    simp [hclone, happ, plan_of_single_overlay _ _ _ _ hone, h1, hpush]

theorem plan_ok_cases (st : Store) (project : String) (repofs : FS) (appName : String)
    (dir : Path) (msg : String)
    (h : RunAppDelete.plan st project repofs appName = .ok (dir, msg)) :
    (project = "" ∧ dir = Join [] [st.AppsDir, appName]
        ∧ msg = "chore: delete app '" ++ appName ++ "'")
    ∨ (project ≠ "" ∧ ∃ l, ReadDir repofs (overlayContainer st repofs appName) = .ok l
        ∧ ((l.length = 1 ∧ dir = Join [] [st.AppsDir, appName]
              ∧ msg = "chore: delete app '" ++ appName ++ "'")
          ∨ (l.length ≠ 1 ∧ dir = overlayContainer st repofs appName ++ [project]
              ∧ msg = "chore: delete app '" ++ appName ++ "'" ++ " from project '" ++ project ++ "'"))) := by
  unfold RunAppDelete.plan at h
  by_cases hp : project = ""
  · left
    simp [hp] at h
    exact ⟨hp, h.1.symm, h.2.symm⟩
  · right
    refine ⟨hp, ?_⟩
    simp only [hp, if_false] at h
    split at h
    · cases h
    · split at h
      · cases h
      · rename_i l hl
        refine ⟨l, hl, ?_⟩
        split at h
        · rename_i hlen
          injection h with h
          injection h with h1 h2
          exact Or.inl ⟨hlen, h1.symm, h2.symm⟩
        · rename_i hlen
          injection h with h
          injection h with h1 h2
          rw [Join_single _ _ hp] at h1
          exact Or.inr ⟨hlen, h1.symm, h2.symm⟩

theorem overlayContainer_cases (st : Store) (repofs : FS) (appName : String) :
    overlayContainer st repofs appName = Join [] [st.AppsDir, appName]
    ∨ overlayContainer st repofs appName = Join [] [st.AppsDir, appName] ++ [st.OverlaysDir] := by
  unfold overlayContainer
  by_cases ho : st.OverlaysDir = ""
  · left
    simp [Join, ho]
  · simp only [Join_single _ _ ho]
    split
    · exact Or.inr rfl
    · exact Or.inl rfl

theorem appDir_prefix_overlayContainer (st : Store) (repofs : FS) (appName : String) :
    Join [] [st.AppsDir, appName] <+: overlayContainer st repofs appName := by
  rcases overlayContainer_cases st repofs appName with h | h <;> rw [h]
  · exact List.prefix_append _ _

theorem projectDir_ne_appDir (st : Store) (repofs : FS) (appName project : String) :
    overlayContainer st repofs appName ++ [project] ≠ Join [] [st.AppsDir, appName] := by
  intro h
  have hlen := congrArg List.length h
  have hle := (appDir_prefix_overlayContainer st repofs appName).length_le
  simp at hlen
  omega

theorem plan_of_many_overlays (st : Store) (project : String) (repofs : FS) (appName : String)
    (names : List String) (hscope : project ≠ "")
    (hlist : ReadDir repofs (overlayContainer st repofs appName) = .ok names)
    (hmem : project ∈ names) (hmany : 1 < names.length) :
    RunAppDelete.plan st project repofs appName
      = .ok (overlayContainer st repofs appName ++ [project],
          "chore: delete app '" ++ appName ++ "'" ++ " from project '" ++ project ++ "'") := by
  unfold RunAppDelete.plan
  have hex : ExistsOrDie repofs (Join (overlayContainer st repofs appName) [project]) = true := by
    rw [Join_single _ _ hscope]
    exact (ExistsOrDie_iff _ _).2 ((mem_of_ReadDir _ _ _ hlist project).1 hmem)
  have hlen : names.length ≠ 1 := by omega
  rw [Join_single _ _ hscope] at hex
  simp [hscope, hex, hlist, hlen, Join_single _ _ hscope]

theorem sibling_not_under (c : Path) (p q : String) (x : Path) (hq : (c ++ [q]) <+: x)
    (hp : (c ++ [p]) <+: x) : q = p := by
  have h1 : (c ++ [q]) <+: (c ++ [p]) := List.prefix_of_prefix_length_le hq hp (by simp)
  have h2 := h1.eq_of_length (by simp)
  simpa using h2

theorem exists_other_of_listing (fs : FS) (c : Path) (names : List String) (project : String)
    (hlist : ReadDir fs c = .ok names) (hmany : 1 < names.length) :
    ∃ q ∈ names, q ≠ project := by
  have hnd : names.Nodup := by
    unfold ReadDir at hlist
    split at hlist
    · cases hlist
    · injection hlist with h
      subst h
      exact List.nodup_dedup _
  match names, hnd, hmany with
  | a :: b :: _, hnd, _ =>
    have hab : a ≠ b := by
      intro h
      simp [h] at hnd
    by_cases ha : a = project
    · exact ⟨b, by simp, fun hb => hab (ha.trans hb.symm)⟩
    · exact ⟨a, by simp, ha⟩

theorem exists_after_RemoveAll (fs : FS) (c : Path) (names : List String) (project : String)
    (hlist : ReadDir fs c = .ok names) (hmany : 1 < names.length) (p : Path)
    (hp : ¬ (c ++ [project]) <+: p) :
    ExistsOrDie (fs.filter (fun e => !(c ++ [project]).isPrefixOf e.path)) p = ExistsOrDie fs p := by
  rw [Bool.eq_iff_iff, ExistsOrDie_iff, ExistsOrDie_iff]
  constructor
  · rintro ⟨e, he, hpe⟩
    exact ⟨e, (List.mem_filter.1 he).1, hpe⟩
  · rintro ⟨e, he, hpe⟩
    by_cases hunder : (c ++ [project]) <+: e.path
    · rcases List.prefix_or_prefix_of_prefix hpe hunder with h | h
      · rcases List.prefix_concat_iff.1 h with h | h
        · exact absurd (h ▸ List.prefix_refl _) hp
        · obtain ⟨q, hq, hne⟩ := exists_other_of_listing fs c names project hlist hmany
          obtain ⟨e1, he1, hqe⟩ := (mem_of_ReadDir _ _ _ hlist q).1 hq
          refine ⟨e1, List.mem_filter.2 ⟨he1, ?_⟩, h.trans ((List.prefix_append c [q]).trans hqe)⟩
          have : ¬ (c ++ [project]) <+: e1.path := fun hu => hne (sibling_not_under c project q _ hqe hu)
          simpa using (isPrefixOf_eq_false_iff _ _).2 this
      · exact absurd h hp
    · exact ⟨e, List.mem_filter.2 ⟨he, by simpa using (isPrefixOf_eq_false_iff _ _).2 hunder⟩, hpe⟩

theorem readFile_after_RemoveAll (fs : FS) (d p : Path) (hp : ¬ d <+: p) :
    readFile (fs.filter (fun e => !d.isPrefixOf e.path)) p = readFile fs p := by
  unfold readFile
  rw [List.find?_filter]
  congr 1
  apply find?_eq_of_agree
  intro e _
  by_cases hpath : e.path = p
  · subst hpath
    simp [(isPrefixOf_eq_false_iff _ _).2 hp]
  · simp [hpath]

/-- Witness of C1: application `foo` whose only overlay is `teamA`. -/
theorem RunAppDelete_only_overlay_removes_app_witness :
    ∃ repofs1, (RunAppDelete (exampleEnv fooOneOverlay) teamAWriter "foo").view = some repofs1
      ∧ (∀ p, Join [] ["apps", "foo"] <+: p → ExistsOrDie repofs1 p = false)
      ∧ (RunAppDelete (exampleEnv fooOneOverlay) teamAWriter "foo").trace
          = [.clone (some exampleOpts), .removeAll (Join [] ["apps", "foo"]),
             .persist .tenant ("chore: delete app '" ++ "foo" ++ "'")]
      ∧ ((exampleEnv fooOneOverlay).Persist .tenant repofs1 ("chore: delete app '" ++ "foo" ++ "'") = none →
          (RunAppDelete (exampleEnv fooOneOverlay) teamAWriter "foo").err = none) :=
  RunAppDelete_only_overlay_removes_app (exampleEnv fooOneOverlay) teamAWriter "foo" fooOneOverlay
    rfl (by decide) (by rfl)

/-- C2: when the overlay container of the application lists more than one
entry, one of them the writer's (non-empty) project, `RunAppDelete` removes
exactly the subtree `<container>/<project>`: the view it leaves is the old one
without the nodes at or under that directory, every path outside it exists
exactly as before with the same content, the other overlays and `apps/<app>`
are still there, and the only possible error is a rejected push. -/
theorem RunAppDelete_many_overlays_removes_only_project (env : Env) (n : NativeRepoTarget)
    (appName : String) (repofs : FS) (names : List String)
    (hclone : env.getRepo n.tenantRepoCloneOpts = .ok repofs)
    (hscope : n.project ≠ "")
    (hlist : ReadDir repofs (overlayContainer env.store repofs appName) = .ok names)
    (hmem : n.project ∈ names) (hmany : 1 < names.length) :
    ∃ repofs1, (RunAppDelete env n appName).view = some repofs1
      ∧ repofs1 = repofs.filter
          (fun e => !(overlayContainer env.store repofs appName ++ [n.project]).isPrefixOf e.path)
      ∧ (∀ p, overlayContainer env.store repofs appName ++ [n.project] <+: p →
          ExistsOrDie repofs1 p = false)
      ∧ (∀ p, ¬ overlayContainer env.store repofs appName ++ [n.project] <+: p →
          ExistsOrDie repofs1 p = ExistsOrDie repofs p ∧ readFile repofs1 p = readFile repofs p)
      ∧ (∀ q ∈ names, q ≠ n.project →
          ExistsOrDie repofs1 (overlayContainer env.store repofs appName ++ [q]) = true)
      ∧ ExistsOrDie repofs1 (Join [] [env.store.AppsDir, appName]) = true
      ∧ (RunAppDelete env n appName).trace
          = [.clone n.tenantRepoCloneOpts,
             .removeAll (overlayContainer env.store repofs appName ++ [n.project]),
             .persist .tenant ("chore: delete app '" ++ appName ++ "'" ++ " from project '"
               ++ n.project ++ "'")]
      ∧ (env.Persist .tenant repofs1 ("chore: delete app '" ++ appName ++ "'" ++ " from project '"
            ++ n.project ++ "'") = none → (RunAppDelete env n appName).err = none) := by
  have hplan := plan_of_many_overlays env.store n.project repofs appName names hscope hlist hmem hmany
  have hpd : ∃ e ∈ repofs, (overlayContainer env.store repofs appName ++ [n.project]) <+: e.path :=
    (mem_of_ReadDir _ _ _ hlist _).1 hmem
  have happ : ExistsOrDie repofs (Join [] [env.store.AppsDir, appName]) = true := by
    obtain ⟨e, he, hpe⟩ := hpd
    exact (ExistsOrDie_iff _ _).2 ⟨e, he,
      (appDir_prefix_overlayContainer _ _ _).trans ((List.prefix_append _ _).trans hpe)⟩
  have hframe := exists_after_RemoveAll repofs (overlayContainer env.store repofs appName) names
    n.project hlist hmany
  refine ⟨_, ?_, rfl, fun p hp => not_exists_under_of_RemoveAll _ _ _ _ rfl hp,
    fun p hp => ⟨hframe p hp, readFile_after_RemoveAll _ _ _ hp⟩, ?_, ?_, ?_, ?_⟩
  · unfold RunAppDelete
    simp only [hclone, happ, hplan, RemoveAll]
    cases env.Persist .tenant _ _ <;> simp
  · intro q hq hne
    have hnot : ¬ overlayContainer env.store repofs appName ++ [n.project] <+:
        overlayContainer env.store repofs appName ++ [q] := by
      intro h
      have h2 := h.eq_of_length (by simp)
      simp at h2
      exact hne h2.symm
    rw [hframe _ hnot]
    exact (ExistsOrDie_iff _ _).2 ((mem_of_ReadDir _ _ _ hlist q).1 hq)
  · have hnot : ¬ overlayContainer env.store repofs appName ++ [n.project] <+:
        Join [] [env.store.AppsDir, appName] := by
      intro h
      have h1 := h.length_le
      have h2 := (appDir_prefix_overlayContainer env.store repofs appName).length_le
      simp at h1
      omega
    rw [hframe _ hnot]
    exact happ
  · unfold RunAppDelete
    simp only [hclone, happ, hplan, RemoveAll]
    cases env.Persist .tenant _ _ <;> simp
  · intro hpush
    unfold RunAppDelete
    simp only [hclone, happ, hplan, RemoveAll]
    simp [hpush]

/-- Witness of C2: application `foo` with overlays `teamA` and `teamB`; after
the delete scoped to `teamA` only `apps/foo/overlays/teamB` is left of the overlays. -/
theorem RunAppDelete_many_overlays_removes_only_project_witness :
    (RunAppDelete (exampleEnv fooTwoOverlays) teamAWriter "foo").view
        = some [⟨["apps", "foo", "base", "kustomization.yaml"], some "base"⟩,
                ⟨["apps", "foo", "overlays", "teamB", "config.json"], some "b"⟩,
                ⟨["projects", "teamA.yaml"], some "teamA"⟩]
      ∧ ∃ repofs1, (RunAppDelete (exampleEnv fooTwoOverlays) teamAWriter "foo").view = some repofs1
          ∧ ExistsOrDie repofs1 ["apps", "foo", "overlays", "teamB"] = true := by
  obtain ⟨r, hv, _, _, _, hsib, _⟩ :=
    RunAppDelete_many_overlays_removes_only_project (exampleEnv fooTwoOverlays) teamAWriter "foo"
      fooTwoOverlays ["teamA", "teamB"] rfl (by decide) (by rfl) (by decide) (by decide)
  exact ⟨by rfl, r, hv, hsib "teamB" (by decide) (by decide)⟩

/-- C3: a successful `RunAppDelete` makes one `Persist` call, after one
removal.  The removed directory is either `apps/<app>` or the project's
subdirectory of the overlay container; it is `apps/<app>` exactly for an
unscoped delete or a scoped delete whose container lists a single overlay.  The
commit message is `chore: delete app '<app>'` when the whole application
directory went, and carries the suffix ` from project '<project>'` exactly when
only the project's subdirectory was removed. -/
theorem RunAppDelete_commit_message (env : Env) (n : NativeRepoTarget) (appName : String)
    (hok : (RunAppDelete env n appName).err = none) :
    ∃ repofs dir, env.getRepo n.tenantRepoCloneOpts = .ok repofs
      ∧ (RunAppDelete env n appName).trace
          = [.clone n.tenantRepoCloneOpts, .removeAll dir,
             .persist .tenant
               (if dir = Join [] [env.store.AppsDir, appName] then
                  "chore: delete app '" ++ appName ++ "'"
                else
                  "chore: delete app '" ++ appName ++ "'" ++ " from project '" ++ n.project ++ "'")]
      ∧ (dir = Join [] [env.store.AppsDir, appName]
          ∨ dir = overlayContainer env.store repofs appName ++ [n.project])
      ∧ (dir = Join [] [env.store.AppsDir, appName] ↔
          (n.project = "" ∨ ∃ l, ReadDir repofs (overlayContainer env.store repofs appName) = .ok l
            ∧ l.length = 1)) := by
  unfold RunAppDelete at hok ⊢
  cases hclone : env.getRepo n.tenantRepoCloneOpts with
  | error err => simp [hclone] at hok
  | ok repofs =>
    simp only [hclone] at hok ⊢
    by_cases happ : ExistsOrDie repofs (Join [] [env.store.AppsDir, appName]) = true
    · simp only [happ] at hok ⊢
      cases hplan : RunAppDelete.plan env.store n.project repofs appName with
      | error err => simp [hplan] at hok
      | ok pr =>
        obtain ⟨dir, msg⟩ := pr
        simp only [hplan, RemoveAll] at hok ⊢
        cases hpush : env.Persist .tenant
            (repofs.filter (fun e => !dir.isPrefixOf e.path)) msg with
        | some err => simp [hpush] at hok
        | none =>
          refine ⟨repofs, dir, rfl, ?_⟩
          rcases plan_ok_cases _ _ _ _ _ _ hplan with ⟨hp, hdir, hmsg⟩ | ⟨hp, l, hl, h⟩
          · subst hdir hmsg
            simp [hp]
          · rcases h with ⟨hlen, hdir, hmsg⟩ | ⟨hlen, hdir, hmsg⟩
            · subst hdir hmsg
              simp [hl, hlen]
            · subst hdir hmsg
              simp [hl, hlen, hp, projectDir_ne_appDir]
    · simp [happ] at hok

/-- Witness of C3: the partial delete of `teamA` from `foo` commits with the suffix. -/
theorem RunAppDelete_commit_message_witness :
    (RunAppDelete (exampleEnv fooTwoOverlays) teamAWriter "foo").trace
        = [.clone (some exampleOpts), .removeAll ["apps", "foo", "overlays", "teamA"],
           .persist .tenant "chore: delete app 'foo' from project 'teamA'"]
      ∧ ∃ repofs dir, (exampleEnv fooTwoOverlays).getRepo teamAWriter.tenantRepoCloneOpts = .ok repofs
          ∧ (dir = Join [] [(exampleEnv fooTwoOverlays).store.AppsDir, "foo"]
              ∨ dir = overlayContainer (exampleEnv fooTwoOverlays).store repofs "foo"
                  ++ [teamAWriter.project]) := by
  obtain ⟨repofs, dir, h1, _, h3, _⟩ :=
    RunAppDelete_commit_message (exampleEnv fooTwoOverlays) teamAWriter "foo" (by rfl)
  exact ⟨by rfl, repofs, dir, h1, h3⟩

/-! ## Project create -/

/-- C7: a dry-run `RunProjectCreate` does nothing but obtain the repository: its
trace holds the clone only (no bulk write, no `Persist`, no `AddCmd.Execute`),
and the view after the call is the cloned view, whatever the destination
context and whether the call reports an error or not. -/
theorem RunProjectCreate_dry_run_no_effect (env : Env) (n : NativeRepoTarget)
    (opts : ProjectCreateOptions) (hdry : opts.DryRun = true) :
    (RunProjectCreate env n opts).trace = [.clone (some n.metaRepoCloneOpts)]
      ∧ (∀ ev ∈ (RunProjectCreate env n opts).trace,
          ev.isPersist = false ∧ ev.isMutation = false ∧ ∀ c, ev ≠ .addCluster c)
      ∧ (∀ repofs, env.prepareRepo n.metaRepoCloneOpts "" = .ok repofs →
          (RunProjectCreate env n opts).view = some repofs) := by
  have htrace : (RunProjectCreate env n opts).trace = [.clone (some n.metaRepoCloneOpts)] := by
    unfold RunProjectCreate
    simp only [hdry, ↓reduceIte]
    repeat' split
    all_goals rfl
  refine ⟨htrace, ?_, ?_⟩
  · intro ev hev
    rw [htrace] at hev
    simp at hev
    subst hev
    simp [Event.isPersist, Event.isMutation]
  · intro repofs hprep
    unfold RunProjectCreate
    simp only [hdry, hprep, ↓reduceIte]
    repeat' split
    all_goals rfl

/-- Witness of C7: a dry run for `teamB` with destination context `staging`. -/
theorem RunProjectCreate_dry_run_no_effect_witness :
    (RunProjectCreate (exampleEnv bootstrappedRepo) teamAWriter teamBDryRun).trace
        = [.clone (some teamAWriter.metaRepoCloneOpts)]
      ∧ (RunProjectCreate (exampleEnv bootstrappedRepo) teamAWriter teamBDryRun).view
        = some bootstrappedRepo :=
  ⟨(RunProjectCreate_dry_run_no_effect (exampleEnv bootstrappedRepo) teamAWriter teamBDryRun rfl).1,
   (RunProjectCreate_dry_run_no_effect (exampleEnv bootstrappedRepo) teamAWriter teamBDryRun rfl).2.2
     bootstrappedRepo rfl⟩

theorem WriteFile_of_not_exists (fs : FS) (p : Path) (data : String)
    (h : ExistsOrDie fs p = false) : WriteFile fs p data = .ok (fs ++ [⟨p, some data⟩]) := by
  rw [ExistsOrDie_eq_false_iff] at h
  unfold WriteFile
  have hany : fs.any (fun e => p.isPrefixOf e.path && (decide (e.path ≠ p) || e.data.isNone)) = false := by
    rw [List.any_eq_false]
    intro e he
    simp [(isPrefixOf_eq_false_iff _ _).2 (h e he)]
  have hfilter : fs.filter (fun e => decide (e.path ≠ p)) = fs := by
    rw [List.filter_eq_self]
    intro e he
    have hne : e.path ≠ p := fun heq => h e he (heq ▸ List.prefix_refl _)
    simpa using hne
  simp only [hany, hfilter, Bool.false_eq_true, ↓reduceIte]

theorem exists_of_WriteFile (fs fs1 : FS) (p : Path) (data : String)
    (h : WriteFile fs p data = .ok fs1) :
    ExistsOrDie fs1 p = true ∧ ∀ q, ExistsOrDie fs q = true → ExistsOrDie fs1 q = true := by
  unfold WriteFile at h
  split at h
  · cases h
  · injection h with h
    subst h
    refine ⟨(ExistsOrDie_iff _ _).2 ⟨⟨p, some data⟩, by simp, List.prefix_refl _⟩, ?_⟩
    intro q hq
    obtain ⟨e, he, hqe⟩ := (ExistsOrDie_iff _ _).1 hq
    by_cases hpath : e.path = p
    · exact (ExistsOrDie_iff _ _).2 ⟨⟨p, some data⟩, by simp, hpath ▸ hqe⟩
    · exact (ExistsOrDie_iff _ _).2 ⟨e, by simp [he, hpath], hqe⟩

theorem exists_of_BulkWrite (writes : List BulkWriteRequest) (fs fs1 : FS)
    (h : BulkWrite fs writes = (fs1, none)) :
    (∀ w ∈ writes, ExistsOrDie fs1 w.Filename = true)
      ∧ ∀ q, ExistsOrDie fs q = true → ExistsOrDie fs1 q = true := by
  induction writes generalizing fs with
  | nil =>
    simp [BulkWrite] at h
    subst h
    simp
  | cons w rest ih =>
    unfold BulkWrite at h
    split at h
    · simp at h
    · rename_i fs2 hw
      obtain ⟨hnew, hkeep⟩ := exists_of_WriteFile _ _ _ _ hw
      obtain ⟨hall, hmono⟩ := ih fs2 h
      refine ⟨?_, fun q hq => hmono q (hkeep q hq)⟩
      intro w1 hw1
      rcases List.mem_cons.1 hw1 with hw1 | hw1
      · subst hw1
        exact hmono _ hnew
      · exact hall w1 hw1

/-- C4: on a bootstrapped repository in which `projects/<p>.yaml` exists,
`RunProjectCreate` returns the error `project '<p>' already exists`, leaves the
view as it was cloned (the existing project file included) and its trace holds
the clone only: no write and no `Persist`.  Hence, once a first call that was
not a dry run has succeeded, any further call for the same name on the state it
left fails, again without a write or a `Persist`; on a bootstrapped state the
error it reports is the conflict. -/
theorem RunProjectCreate_existing_project_conflict (env : Env) (n : NativeRepoTarget)
    (opts : ProjectCreateOptions) (repofs : FS) (ns : String)
    (hprep : env.prepareRepo n.metaRepoCloneOpts "" = .ok repofs)
    (hboot : env.getInstallationNamespace repofs = .ok ns) :
    (ExistsOrDie repofs (Join [] [env.store.ProjectsDir, opts.ProjectName ++ ".yaml"]) = true →
        RunProjectCreate env n opts
          = ⟨some (.new ("project '" ++ opts.ProjectName ++ "' already exists")), some repofs,
              [.clone (some n.metaRepoCloneOpts)]⟩)
      ∧ (opts.DryRun = false → (RunProjectCreate env n opts).err = none →
          ∃ repofs1, (RunProjectCreate env n opts).view = some repofs1
            ∧ ExistsOrDie repofs1 (Join [] [env.store.ProjectsDir, opts.ProjectName ++ ".yaml"]) = true
            ∧ ∀ (env2 : Env) (opts2 : ProjectCreateOptions), env2.store = env.store →
                env2.prepareRepo n.metaRepoCloneOpts "" = .ok repofs1 →
                opts2.ProjectName = opts.ProjectName →
                (RunProjectCreate env2 n opts2).err ≠ none
                  ∧ (RunProjectCreate env2 n opts2).view = some repofs1
                  ∧ (RunProjectCreate env2 n opts2).trace = [.clone (some n.metaRepoCloneOpts)]
                  ∧ ∀ ns2, env2.getInstallationNamespace repofs1 = .ok ns2 →
                      (RunProjectCreate env2 n opts2).err
                        = some (.new ("project '" ++ opts.ProjectName ++ "' already exists"))) := by
  constructor
  · intro hex
    unfold RunProjectCreate
    simp [hprep, hboot, hex]
  · intro hdry hok
    have hfirst : ∃ repofs1, (RunProjectCreate env n opts).view = some repofs1
        ∧ ExistsOrDie repofs1 (Join [] [env.store.ProjectsDir, opts.ProjectName ++ ".yaml"]) = true := by
      unfold RunProjectCreate at hok ⊢
      simp only [hprep, hboot, hdry] at hok ⊢
      split at hok
      · simp at hok
      · rename_i hnex
        split at hok
        · simp at hok
        · rename_i server hserver
          split at hok
          · simp at hok
          · rename_i m hm
            simp only [Bool.false_eq_true, ↓reduceIte] at hok
            split at hok
            · simp at hok
            · rename_i hadd
              split at hok
              · simp at hok
              · rename_i repofs1 hbw
                have hfile := (exists_of_BulkWrite _ _ _ hbw).1
                  { Filename := Join [] [env.store.ProjectsDir, opts.ProjectName ++ ".yaml"],
                    Data := JoinManifests [m.projectYAML, m.appSetYAML],
                    ErrMsg := "failed to create project file" }
                  (by simp [RunProjectCreate.bulkWrites])
                refine ⟨repofs1, ?_, hfile⟩
                simp only [hnex, hserver, hm, Bool.false_eq_true, ↓reduceIte, hadd, hbw]
                split <;> rfl
    obtain ⟨repofs1, hview, hfile⟩ := hfirst
    refine ⟨repofs1, hview, hfile, ?_⟩
    intro env2 opts2 hstore hprep2 hname
    rw [← hstore] at hfile
    unfold RunProjectCreate
    simp only [hprep2, hname]
    cases hboot2 : env2.getInstallationNamespace repofs1 with
    | error err => simp
    | ok ns2 => simp [hfile]

/-- Witness of C4: creating `teamA` where `projects/teamA.yaml` exists is a
conflict; and after a first successful creation on a fresh repository the file exists. -/
theorem RunProjectCreate_existing_project_conflict_witness :
    RunProjectCreate (exampleEnv fooOneOverlay) teamAWriter (teamACreate false)
        = ⟨some (.new "project 'teamA' already exists"), some fooOneOverlay,
            [.clone (some exampleOpts)]⟩
      ∧ ∃ repofs1,
          (RunProjectCreate (exampleEnv bootstrappedRepo) teamAWriter (teamACreate false)).view
            = some repofs1
          ∧ ExistsOrDie repofs1 ["projects", "teamA.yaml"] = true := by
  refine ⟨(RunProjectCreate_existing_project_conflict (exampleEnv fooOneOverlay) teamAWriter
    (teamACreate false) fooOneOverlay "argocd" rfl rfl).1 (by decide), ?_⟩
  obtain ⟨r, hv, hf, _⟩ := (RunProjectCreate_existing_project_conflict (exampleEnv bootstrappedRepo)
    teamAWriter (teamACreate false) bootstrappedRepo "argocd" rfl rfl).2 rfl (by rfl)
  exact ⟨r, hv, hf⟩

theorem generateProjectManifests_ok (st : Store) (c : Codec) (o : GenerateProjectOptions)
    (m : ProjectManifests) (h : generateProjectManifests st c o = .ok m) :
    c.marshalAppProject (generateProjectManifests.project st o) = .ok m.projectYAML
      ∧ c.marshalAppSet (createAppSet.object st (generateProjectManifests.appSetOptions st c o))
          = .ok m.appSetYAML := by
  unfold generateProjectManifests createAppSet at h
  split at h
  · cases h
  · rename_i py hpy
    split at h
    · cases h
    · rename_i ay hay
      split at h
      · cases h
      · injection h with h
        subst h
        exact ⟨hpy, hay⟩

theorem readFile_append_new (fs : FS) (p : Path) (data : String)
    (h : ExistsOrDie fs p = false) : readFile (fs ++ [⟨p, some data⟩]) p = some data := by
  rw [ExistsOrDie_eq_false_iff] at h
  unfold readFile
  have hnone : fs.find? (fun e => decide (e.path = p) && e.data.isSome) = none := by
    rw [List.find?_eq_none]
    intro e he
    have hne : e.path ≠ p := fun heq => h e he (heq ▸ List.prefix_refl _)
    simp [hne]
  simp [List.find?_append, hnone]

/-- C10: on a bootstrapped repository (installation namespace `ns`) without
`projects/<p>.yaml`, `RunProjectCreate` with an empty destination context and no
dry run, when the manifests marshal and the push is accepted, returns no error
after exactly one bulk write of the single file `projects/<p>.yaml` and exactly
one `Persist` with message `chore: added project '<p>'`.  The view it leaves is
the cloned one plus that file, whose content is the marshalled AppProject, the
document separator and the marshalled ApplicationSet; both objects carry the
namespace `ns`. -/
theorem RunProjectCreate_writes_project_file (env : Env) (n : NativeRepoTarget)
    (opts : ProjectCreateOptions) (repofs : FS) (ns : String) (m : ProjectManifests)
    (hprep : env.prepareRepo n.metaRepoCloneOpts "" = .ok repofs)
    (hboot : env.getInstallationNamespace repofs = .ok ns)
    (hnew : ExistsOrDie repofs (Join [] [env.store.ProjectsDir, opts.ProjectName ++ ".yaml"]) = false)
    (hctx : opts.DestKubeContext = "") (hdry : opts.DryRun = false)
    (hgen : generateProjectManifests env.store env.codec
      (RunProjectCreate.genOptions n opts ns
        (if opts.DestKubeServer = "" then env.store.DestServer else opts.DestKubeServer)) = .ok m)
    (hpush : env.Persist .meta
      (repofs ++ [⟨Join [] [env.store.ProjectsDir, opts.ProjectName ++ ".yaml"],
        some (m.projectYAML ++ "\n---\n" ++ m.appSetYAML)⟩])
      ("chore: added project '" ++ opts.ProjectName ++ "'") = none) :
    RunProjectCreate env n opts
        = ⟨none,
           some (repofs ++ [⟨Join [] [env.store.ProjectsDir, opts.ProjectName ++ ".yaml"],
             some (m.projectYAML ++ "\n---\n" ++ m.appSetYAML)⟩]),
           [.clone (some n.metaRepoCloneOpts),
            .bulkWrite [Join [] [env.store.ProjectsDir, opts.ProjectName ++ ".yaml"]],
            .persist .meta ("chore: added project '" ++ opts.ProjectName ++ "'")]⟩
      ∧ readFile (repofs ++ [⟨Join [] [env.store.ProjectsDir, opts.ProjectName ++ ".yaml"],
            some (m.projectYAML ++ "\n---\n" ++ m.appSetYAML)⟩])
          (Join [] [env.store.ProjectsDir, opts.ProjectName ++ ".yaml"])
          = some (m.projectYAML ++ "\n---\n" ++ m.appSetYAML)
      ∧ ∃ (project : AppProject) (appSet : ApplicationSet),
          env.codec.marshalAppProject project = .ok m.projectYAML
            ∧ env.codec.marshalAppSet appSet = .ok m.appSetYAML
            ∧ project.typeMeta.Kind = "AppProject" ∧ appSet.typeMeta.Kind = "ApplicationSet"
            ∧ project.objectMeta.Name = opts.ProjectName ∧ appSet.objectMeta.Name = opts.ProjectName
            ∧ project.objectMeta.Namespace = ns ∧ appSet.objectMeta.Namespace = ns := by
  have hserver : RunProjectCreate.destServer env opts
      = .ok (if opts.DestKubeServer = "" then env.store.DestServer else opts.DestKubeServer) := by
    unfold RunProjectCreate.destServer
    split <;> simp [hctx]
  have hjoin : JoinManifests [m.projectYAML, m.appSetYAML]
      = m.projectYAML ++ "\n---\n" ++ m.appSetYAML := by
    simp [JoinManifests, String.intercalate, String.intercalate.go]
  have hbw : BulkWrite repofs (RunProjectCreate.bulkWrites env.store repofs opts m)
      = (repofs ++ [⟨Join [] [env.store.ProjectsDir, opts.ProjectName ++ ".yaml"],
          some (m.projectYAML ++ "\n---\n" ++ m.appSetYAML)⟩], none) := by
    simp [RunProjectCreate.bulkWrites, hctx, BulkWrite, WriteFile_of_not_exists _ _ _ hnew, hjoin]
  refine ⟨?_, readFile_append_new _ _ _ hnew, _, _, (generateProjectManifests_ok _ _ _ _ hgen).1,
    (generateProjectManifests_ok _ _ _ _ hgen).2, rfl, rfl, rfl, rfl, rfl, rfl⟩
  unfold RunProjectCreate
  simp only [hprep, hboot, hnew, hserver, hgen, hdry, hctx, hbw, hpush]
  simp [RunProjectCreate.bulkWrites, hctx]

/-- Witness of C10: `CreateProject` of `teamA` without destination context on a
bootstrapped repository writes `projects/teamA.yaml` and commits `chore: added project 'teamA'`. -/
theorem RunProjectCreate_writes_project_file_witness :
    RunProjectCreate (exampleEnv bootstrappedRepo) teamAWriter (teamACreate false)
      = ⟨none,
         some (bootstrappedRepo ++ [⟨["projects", "teamA.yaml"],
           some ("kind: AppProject name: teamA namespace: argocd" ++ "\n---\n"
             ++ "kind: ApplicationSet name: teamA namespace: argocd")⟩]),
         [.clone (some exampleOpts), .bulkWrite [["projects", "teamA.yaml"]],
          .persist .meta "chore: added project 'teamA'"]⟩ :=
  (RunProjectCreate_writes_project_file (exampleEnv bootstrappedRepo) teamAWriter (teamACreate false)
    bootstrappedRepo "argocd"
    ⟨"kind: AppProject name: teamA namespace: argocd",
     "kind: ApplicationSet name: teamA namespace: argocd",
     exampleCodec.clusterResReadmeTpl.replace "\x7bCLUSTER\x7d" "https://kubernetes.default.svc",
     "name:  server: https://kubernetes.default.svc"⟩
    rfl rfl (by decide) rfl rfl (by rfl) rfl).1

/-! ## Secret stores -/

theorem mapGet_mapSet (m : GoMap) (k v : String) : mapGet (mapSet m k v) k = v := by
  unfold mapGet mapSet
  have hnone : (m.filter (fun kv => decide (kv.1 ≠ k))).find? (fun kv => decide (kv.1 = k)) = none := by
    rw [List.find?_eq_none]
    intro kv hkv
    have := (List.mem_filter.1 hkv).2
    simpa using this
  rw [List.find?_append, hnone]
  simp

theorem annotation_of_annotate (ss : SecretStore) (k v : String) :
    (ss.annotate k v).annotation_of k = v := by
  simp [SecretStore.annotate, SecretStore.annotation_of, mapGet_mapSet]

theorem SecretStoreCreate_written_files (env : Env) (n : NativeRepoTarget) (ss : SecretStore)
    (force : Bool) (files : List Path)
    (h : Event.bulkWrite files ∈ (SecretStoreCreate env n ss force).trace) :
    files = [secretStorePath env.store (ss.annotation_of "squidflow.github.io/id")] := by
  unfold SecretStoreCreate at h
  cases hprep : env.prepareRepo n.metaRepoCloneOpts "" with
  | error err => simp [hprep] at h
  | ok repofs =>
    cases hm : env.codec.marshalSecretStore ss with
    | error err => simp [hprep, hm] at h
    | ok y =>
      simp only [hprep, hm] at h
      split at h
      · simp at h
      · split at h
        · simpa using h
        · split at h <;> simpa using h

theorem handler_writer_call (env : Env) (bound : Except GoErr SecretStoreCreateReq) (w : Outcome)
    (hw : (handler.SecretStoreCreate env bound).writer = some w) :
    ∃ want, (handler.SecretStoreCreate env bound).stored
          = some (handler.SecretStoreCreate.annotated env want)
      ∧ w = SecretStoreCreate env (handler.SecretStoreCreate.target env)
          (handler.SecretStoreCreate.annotated env want) false := by
  unfold handler.SecretStoreCreate at hw ⊢
  cases bound with
  | error err => simp at hw
  | ok req =>
    simp only [] at hw ⊢
    cases hparse : env.codec.unmarshalSecretStore req.SecretStoreYaml with
    | error err => simp [hparse] at hw
    | ok want =>
      simp only [hparse] at hw ⊢
      cases hp : want.Provider with
      | none => simp [hp] at hw
      | some provider =>
        simp only [hp] at hw ⊢
        cases hv : provider.Vault with
        | none => simp [hv] at hw
        | some v =>
          simp only [hv] at hw ⊢
          split at hw
          · simp at hw
          · rename_i hcond
            simp only [hcond, ↓reduceIte]
            refine ⟨want, ?_⟩
            cases herr : (SecretStoreCreate env (handler.SecretStoreCreate.target env)
                (handler.SecretStoreCreate.annotated env want) false).err with
            | some err =>
              simp only [herr] at hw ⊢
              exact ⟨trivial, (Option.some.inj hw).symm⟩
            | none =>
              simp only [herr] at hw ⊢
              exact ⟨trivial, (Option.some.inj hw).symm⟩

/-- C5: a create request whose SecretStore document carries a non-empty
`squidflow.github.io/id` annotation is answered with status 400 and the writer
is never called (no clone, no filesystem access, no push).  And for every
request at all: when the handler does call the writer, the secret store it
hands over carries the identifier from `getNewId()`, and the only file a bulk
write can touch is `ss-<that identifier>.yaml`. -/
theorem handler_SecretStoreCreate_rejects_client_id (env : Env) (req : SecretStoreCreateReq)
    (want : SecretStore)
    (hparse : env.codec.unmarshalSecretStore req.SecretStoreYaml = .ok want)
    (hid : want.annotation_of "squidflow.github.io/id" ≠ "") :
    (handler.SecretStoreCreate env (.ok req)).status = 400
      ∧ (handler.SecretStoreCreate env (.ok req)).writer = none
      ∧ (handler.SecretStoreCreate env (.ok req)).stored = none
      ∧ ∀ (bound : Except GoErr SecretStoreCreateReq) (w : Outcome),
          (handler.SecretStoreCreate env bound).writer = some w →
          (∃ ss, (handler.SecretStoreCreate env bound).stored = some ss
              ∧ ss.annotation_of "squidflow.github.io/id" = env.getNewId)
            ∧ ∀ files, Event.bulkWrite files ∈ w.trace →
                files = [secretStorePath env.store env.getNewId] := by
  have hann : want.Annotations ≠ none := by
    intro h
    simp [SecretStore.annotation_of, h] at hid
  have hreject : ∃ msg, handler.SecretStoreCreate env (.ok req)
      = ⟨400, some msg, none, none, none⟩ := by
    unfold handler.SecretStoreCreate
    simp only [hparse]
    cases hp : want.Provider with
    | none => exact ⟨_, rfl⟩
    | some provider =>
      simp only []
      cases hv : provider.Vault with
      | none => exact ⟨_, rfl⟩
      | some v =>
        simp only [hann, hid, ne_eq, not_false_eq_true, and_self, ↓reduceIte]
        exact ⟨_, rfl⟩
  obtain ⟨msg, hreject⟩ := hreject
  refine ⟨by rw [hreject], by rw [hreject], by rw [hreject], ?_⟩
  intro bound w hw
  obtain ⟨want0, hstored, hwriter⟩ := handler_writer_call env bound w hw
  refine ⟨⟨_, hstored, ?_⟩, ?_⟩
  · simp [handler.SecretStoreCreate.annotated, annotation_of_annotate]
  · intro files hfiles
    rw [hwriter] at hfiles
    have hf := SecretStoreCreate_written_files _ _ _ _ _ hfiles
    simpa [handler.SecretStoreCreate.annotated, annotation_of_annotate] using hf

/-- Witness of C5: a Vault store document that carries the identifier `client-id`. -/
theorem handler_SecretStoreCreate_rejects_client_id_witness :
    (handler.SecretStoreCreate (exampleEnv bootstrappedRepo) (.ok ⟨"vault-with-id"⟩)).status = 400
      ∧ (handler.SecretStoreCreate (exampleEnv bootstrappedRepo) (.ok ⟨"vault-with-id"⟩)).writer = none :=
  ⟨(handler_SecretStoreCreate_rejects_client_id (exampleEnv bootstrappedRepo) ⟨"vault-with-id"⟩
      { Kind := "SecretStore", Name := "vault-store",
        Annotations := some [("squidflow.github.io/id", "client-id")],
        Provider := some { Vault := some {} } } rfl (by decide)).1,
   (handler_SecretStoreCreate_rejects_client_id (exampleEnv bootstrappedRepo) ⟨"vault-with-id"⟩
      { Kind := "SecretStore", Name := "vault-store",
        Annotations := some [("squidflow.github.io/id", "client-id")],
        Provider := some { Vault := some {} } } rfl (by decide)).2.1⟩

theorem not_exists_of_Remove (fs fs1 : FS) (p : Path) (h : Remove fs p = .ok fs1) :
    ExistsOrDie fs1 p = false := by
  unfold Remove at h
  split at h
  · cases h
  · split at h
    · cases h
    · rename_i hchildren
      injection h with h
      subst h
      rw [ExistsOrDie_eq_false_iff]
      intro e he hpe
      obtain ⟨he1, hne⟩ := List.mem_filter.1 he
      have hne1 : e.path ≠ p := by simpa using hne
      apply hchildren
      rw [List.any_eq_true]
      exact ⟨e, he1, by simp [(isPrefixOf_iff _ _).2 hpe, hne1]⟩

theorem SecretStoreDelete_of_absent (env : Env) (n : NativeRepoTarget) (id : String) (repofs : FS)
    (hprep : env.prepareRepo n.metaRepoCloneOpts "" = .ok repofs)
    (habsent : ExistsOrDie repofs (secretStorePath env.store id) = false) :
    SecretStoreDelete env n id = ⟨none, some repofs, [.clone (some n.metaRepoCloneOpts)]⟩ := by
  unfold SecretStoreDelete
  simp [hprep, habsent]

/-- C6: when `bootstrap/cluster-resources/<context>/ss-<id>.yaml` does not
exist, `SecretStoreDelete(id)` returns no error, leaves the view as cloned and
its trace holds the clone only (nothing removed, no `Persist`).  Consequently,
after any successful `SecretStoreDelete(id)` the file is absent from the view
it leaves, and a second `SecretStoreDelete(id)` on that state succeeds again,
changes nothing and does not call `Persist`. -/
theorem SecretStoreDelete_absent_is_success (env : Env) (n : NativeRepoTarget) (id : String)
    (repofs : FS) (hprep : env.prepareRepo n.metaRepoCloneOpts "" = .ok repofs) :
    (ExistsOrDie repofs (secretStorePath env.store id) = false →
        SecretStoreDelete env n id = ⟨none, some repofs, [.clone (some n.metaRepoCloneOpts)]⟩)
      ∧ ((SecretStoreDelete env n id).err = none →
          ∃ repofs1, (SecretStoreDelete env n id).view = some repofs1
            ∧ ExistsOrDie repofs1 (secretStorePath env.store id) = false
            ∧ ∀ env2 : Env, env2.store = env.store →
                env2.prepareRepo n.metaRepoCloneOpts "" = .ok repofs1 →
                SecretStoreDelete env2 n id
                  = ⟨none, some repofs1, [.clone (some n.metaRepoCloneOpts)]⟩) := by
  refine ⟨SecretStoreDelete_of_absent env n id repofs hprep, ?_⟩
  intro hok
  have hfirst : ∃ repofs1, (SecretStoreDelete env n id).view = some repofs1
      ∧ ExistsOrDie repofs1 (secretStorePath env.store id) = false := by
    by_cases hex : ExistsOrDie repofs (secretStorePath env.store id) = true
    · unfold SecretStoreDelete at hok ⊢
      simp only [hprep, hex] at hok ⊢
      cases hrm : Remove repofs (secretStorePath env.store id) with
      | error err => simp [hrm] at hok
      | ok repofs1 =>
        refine ⟨repofs1, ?_, not_exists_of_Remove _ _ _ hrm⟩
        simp only [Bool.not_true, Bool.false_eq_true, ↓reduceIte]
        split <;> rfl
    · have habsent : ExistsOrDie repofs (secretStorePath env.store id) = false := by
        simpa using hex
      exact ⟨repofs, by rw [SecretStoreDelete_of_absent env n id repofs hprep habsent], habsent⟩
  obtain ⟨repofs1, hview, habsent⟩ := hfirst
  refine ⟨repofs1, hview, habsent, ?_⟩
  intro env2 hstore hprep2
  rw [← hstore] at habsent
  exact SecretStoreDelete_of_absent env2 n id repofs1 hprep2 habsent

/-- Witness of C6: deleting the secret store `abc` twice, and deleting the
unknown identifier `zzz`. -/
theorem SecretStoreDelete_absent_is_success_witness :
    SecretStoreDelete (exampleEnv repoWithSecretStore) teamAWriter "zzz"
        = ⟨none, some repoWithSecretStore, [.clone (some exampleOpts)]⟩
      ∧ ∃ repofs1, (SecretStoreDelete (exampleEnv repoWithSecretStore) teamAWriter "abc").view
            = some repofs1
          ∧ SecretStoreDelete (exampleEnv repofs1) teamAWriter "abc"
            = ⟨none, some repofs1, [.clone (some exampleOpts)]⟩ := by
  refine ⟨(SecretStoreDelete_absent_is_success (exampleEnv repoWithSecretStore) teamAWriter "zzz"
    repoWithSecretStore rfl).1 (by decide), ?_⟩
  obtain ⟨r, hv, _, h2⟩ := (SecretStoreDelete_absent_is_success (exampleEnv repoWithSecretStore)
    teamAWriter "abc" repoWithSecretStore rfl).2 (by rfl)
  exact ⟨r, hv, h2 (exampleEnv r) rfl rfl⟩

/-! ## Application create -/

/-- C8: a dry-run `RunAppCreate` obtains the repositories and nothing else: every
event of its trace is a clone (no `CreateFiles`, no write, no `Persist` on
either repository), the meta view after the call is the cloned meta view and
the tenant view, when there is one, is the cloned tenant view (the meta view
itself for a shared repository), whether rendering succeeds or fails. -/
theorem RunAppCreate_dry_run_no_effect (env : Env) (n : NativeRepoTarget)
    (opts : AppCreateOptions) (hdry : opts.DryRun = true) :
    (∀ ev ∈ (RunAppCreate env n opts).trace, ∃ o, ev = Event.clone o)
      ∧ (∀ ev ∈ (RunAppCreate env n opts).trace, ev.isPersist = false ∧ ev.isMutation = false)
      ∧ (∀ metaRepofs, env.prepareRepo n.metaRepoCloneOpts opts.ProjectName = .ok metaRepofs →
          (RunAppCreate env n opts).metaView = some metaRepofs
            ∧ ∀ appsfs, (RunAppCreate env n opts).tenantView = some appsfs →
                appsfs = metaRepofs
                  ∨ env.getRepo (some (n.tenantRepoCloneOpts.getD n.metaRepoCloneOpts)) = .ok appsfs) := by
  have hshape : (RunAppCreate env n opts).trace = [.clone (some n.metaRepoCloneOpts)]
      ∨ (RunAppCreate env n opts).trace = [.clone (some n.metaRepoCloneOpts),
          .clone (some (n.tenantRepoCloneOpts.getD n.metaRepoCloneOpts))] := by
    unfold RunAppCreate
    simp only [hdry, ↓reduceIte]
    repeat' split
    all_goals simp
  have htrace : ∀ ev ∈ (RunAppCreate env n opts).trace, ∃ o, ev = Event.clone o := by
    intro ev hev
    rcases hshape with h | h
    · rw [h] at hev
      simp at hev
      exact ⟨_, hev⟩
    · rw [h] at hev
      simp at hev
      rcases hev with h1 | h1
      · exact ⟨_, h1⟩
      · exact ⟨_, h1⟩
  refine ⟨htrace, ?_, ?_⟩
  · intro ev hev
    obtain ⟨o, ho⟩ := htrace ev hev
    subst ho
    exact ⟨rfl, rfl⟩
  · intro metaRepofs hprep
    unfold RunAppCreate
    simp only [hdry, hprep, ↓reduceIte]
    by_cases hdiff : n.metaRepoCloneOpts.Repo ≠ (n.tenantRepoCloneOpts.getD n.metaRepoCloneOpts).Repo
    · simp only [decide_eq_true hdiff, ↓reduceIte]
      cases hget : env.getRepo (some (n.tenantRepoCloneOpts.getD n.metaRepoCloneOpts)) with
      | error err => simp
      | ok appsfs =>
        simp only []
        repeat' split
        all_goals simp
    · simp only [decide_eq_false hdiff, Bool.false_eq_true, ↓reduceIte]
      repeat' split
      all_goals simp

/-- Witness of C8: a dry run for application `foo`; the view is as cloned and
the only event is the clone. -/
theorem RunAppCreate_dry_run_no_effect_witness :
    (RunAppCreate (exampleEnv bootstrappedRepo) teamAWriter fooDryRun).metaView
        = some bootstrappedRepo
      ∧ ∀ ev ∈ (RunAppCreate (exampleEnv bootstrappedRepo) teamAWriter fooDryRun).trace,
          ev.isPersist = false ∧ ev.isMutation = false :=
  ⟨((RunAppCreate_dry_run_no_effect (exampleEnv bootstrappedRepo) teamAWriter fooDryRun rfl).2.2
      bootstrappedRepo rfl).1,
   (RunAppCreate_dry_run_no_effect (exampleEnv bootstrappedRepo) teamAWriter fooDryRun rfl).2.1⟩

/-- C9 (the code at the input of the specification's scenario): with
environments `[dev, staging]`, `dev` rendering and `staging` failing, the
dry-run `RunAppCreate` returns no response at all and the error
`failed to get manifest for environment staging: render failed`: the first
failing environment aborts the call, and the manifest of `dev` is dropped. -/
theorem RunAppCreate_dry_run_aborts_on_failed_environment :
    RunAppCreate (exampleEnv bootstrappedRepo) teamAWriter fooDryRun
      = ⟨none,
         some (.wrap "failed to get manifest for environment staging: render failed"
           (.new "render failed")),
         some bootstrappedRepo, some bootstrappedRepo, [.clone (some exampleOpts)]⟩ := by
  rfl

/-! ## Application delete: unscoped delete and not-found -/

theorem exists_after_filter_of_incomparable (fs : FS) (d p : Path) (hp : ¬ d <+: p)
    (hanc : ¬ p <+: d) :
    ExistsOrDie (fs.filter (fun e => !d.isPrefixOf e.path)) p = ExistsOrDie fs p := by
  rw [Bool.eq_iff_iff, ExistsOrDie_iff, ExistsOrDie_iff]
  constructor
  · rintro ⟨e, he, hpe⟩
    exact ⟨e, (List.mem_filter.1 he).1, hpe⟩
  · rintro ⟨e, he, hpe⟩
    refine ⟨e, List.mem_filter.2 ⟨he, ?_⟩, hpe⟩
    have hnot : ¬ d <+: e.path := by
      intro hde
      rcases List.prefix_or_prefix_of_prefix hpe hde with h | h
      · exact hanc h
      · exact hp h
    simpa using (isPrefixOf_eq_false_iff _ _).2 hnot

/-- C11: when `apps/<app>` exists and the writer has no project scope,
`RunAppDelete` removes the whole directory `apps/<app>`, whatever it holds: the
view it leaves is the old one without the nodes at or under `apps/<app>`.  No
path at or under it is left, every node outside it is kept with its content,
every path that is neither under it nor one of its ancestors exists exactly as
before, an ancestor stays as soon as it holds a node outside `apps/<app>`, and
there is one removal and one `Persist`, with the bare message. -/
theorem RunAppDelete_unscoped_removes_app (env : Env) (n : NativeRepoTarget)
    (appName : String) (repofs : FS)
    (hclone : env.getRepo n.tenantRepoCloneOpts = .ok repofs)
    (happ : ExistsOrDie repofs (Join [] [env.store.AppsDir, appName]) = true)
    (hscope : n.project = "") :
    ∃ repofs1, (RunAppDelete env n appName).view = some repofs1
      ∧ repofs1 = repofs.filter
          (fun e => !(Join [] [env.store.AppsDir, appName]).isPrefixOf e.path)
      ∧ (∀ p, Join [] [env.store.AppsDir, appName] <+: p → ExistsOrDie repofs1 p = false)
      ∧ (∀ e, e ∈ repofs1 ↔ e ∈ repofs ∧ ¬ Join [] [env.store.AppsDir, appName] <+: e.path)
      ∧ (∀ p, ¬ Join [] [env.store.AppsDir, appName] <+: p →
          readFile repofs1 p = readFile repofs p)
      ∧ (∀ p, ¬ Join [] [env.store.AppsDir, appName] <+: p →
          ¬ p <+: Join [] [env.store.AppsDir, appName] →
          ExistsOrDie repofs1 p = ExistsOrDie repofs p)
      ∧ (∀ p, (∃ e ∈ repofs, p <+: e.path ∧ ¬ Join [] [env.store.AppsDir, appName] <+: e.path) →
          ExistsOrDie repofs1 p = true)
      ∧ (RunAppDelete env n appName).trace
          = [.clone n.tenantRepoCloneOpts, .removeAll (Join [] [env.store.AppsDir, appName]),
             .persist .tenant ("chore: delete app '" ++ appName ++ "'")]
      ∧ (env.Persist .tenant repofs1 ("chore: delete app '" ++ appName ++ "'") = none →
          (RunAppDelete env n appName).err = none) := by
  have hplan : RunAppDelete.plan env.store n.project repofs appName
      = .ok (Join [] [env.store.AppsDir, appName], "chore: delete app '" ++ appName ++ "'") := by
    unfold RunAppDelete.plan
    simp [hscope]
  have hmem : ∀ e, e ∈ repofs.filter
      (fun e => !(Join [] [env.store.AppsDir, appName]).isPrefixOf e.path)
      ↔ e ∈ repofs ∧ ¬ Join [] [env.store.AppsDir, appName] <+: e.path := by
    intro e
    rw [List.mem_filter]
    constructor
    · rintro ⟨he, hne⟩
      exact ⟨he, (isPrefixOf_eq_false_iff _ _).1 (by simpa using hne)⟩
    · rintro ⟨he, hne⟩
      exact ⟨he, by simpa using (isPrefixOf_eq_false_iff _ _).2 hne⟩
  refine ⟨_, ?_, rfl, fun p hp => not_exists_under_of_RemoveAll _ _ _ _ rfl hp, hmem,
    fun p hp => readFile_after_RemoveAll _ _ _ hp,
    fun p hp hanc => exists_after_filter_of_incomparable _ _ _ hp hanc, ?_, ?_, ?_⟩
  · unfold RunAppDelete
    simp only [hclone, happ, hplan, RemoveAll]
    cases env.Persist .tenant _ _ <;> simp
  · rintro p ⟨e, he, hpe, hout⟩
    exact (ExistsOrDie_iff _ _).2 ⟨e, (hmem e).2 ⟨he, hout⟩, hpe⟩
  · unfold RunAppDelete
    simp only [hclone, happ, hplan, RemoveAll]
    cases env.Persist .tenant _ _ <;> simp
  · intro hpush
    unfold RunAppDelete
    simp only [hclone, happ, hplan, RemoveAll]
    simp [hpush]

/-- Witness of C11: the unscoped delete of `foo` with two overlays leaves only
the project file. -/
theorem RunAppDelete_unscoped_removes_app_witness :
    (RunAppDelete (exampleEnv fooTwoOverlays) unscopedWriter "foo").view
        = some [⟨["projects", "teamA.yaml"], some "teamA"⟩]
      ∧ ∃ repofs1, (RunAppDelete (exampleEnv fooTwoOverlays) unscopedWriter "foo").view = some repofs1
          ∧ (∀ p, Join [] ["apps", "foo"] <+: p → ExistsOrDie repofs1 p = false)
          ∧ (RunAppDelete (exampleEnv fooTwoOverlays) unscopedWriter "foo").trace
            = [.clone (some exampleOpts), .removeAll (Join [] ["apps", "foo"]),
               .persist .tenant ("chore: delete app '" ++ "foo" ++ "'")] := by
  obtain ⟨r, hv, _, hnone, _, _, _, _, ht, _⟩ :=
    RunAppDelete_unscoped_removes_app (exampleEnv fooTwoOverlays) unscopedWriter "foo"
      fooTwoOverlays rfl (by decide) rfl
  exact ⟨by rfl, r, hv, hnone, ht⟩

/-- C12: when `apps/<app>` is absent, `RunAppDelete` returns the error
`application '<app>' not found`; when it exists and the writer's non-empty
project is not a child of the overlay container, it returns
`application '<app>' not found in project '<project>'`.  In both cases the view
is left as cloned and the trace holds the clone only: nothing is removed and
`Persist` is not called. -/
theorem RunAppDelete_not_found (env : Env) (n : NativeRepoTarget) (appName : String)
    (repofs : FS) (hclone : env.getRepo n.tenantRepoCloneOpts = .ok repofs) :
    (ExistsOrDie repofs (Join [] [env.store.AppsDir, appName]) = false →
        RunAppDelete env n appName
          = ⟨some (.new ("application '" ++ appName ++ "' not found")), some repofs,
              [.clone n.tenantRepoCloneOpts]⟩)
      ∧ (ExistsOrDie repofs (Join [] [env.store.AppsDir, appName]) = true →
          n.project ≠ "" →
          ExistsOrDie repofs (overlayContainer env.store repofs appName ++ [n.project]) = false →
          RunAppDelete env n appName
            = ⟨some (.new ("application '" ++ appName ++ "' not found in project '"
                ++ n.project ++ "'")), some repofs, [.clone n.tenantRepoCloneOpts]⟩) := by
  constructor
  · intro habsent
    unfold RunAppDelete
    simp [hclone, habsent]
  · intro happ hscope hchild
    have hplan : RunAppDelete.plan env.store n.project repofs appName
        = .error (.new ("application '" ++ appName ++ "' not found in project '"
            ++ n.project ++ "'")) := by
      unfold RunAppDelete.plan
      simp [hscope, Join_single _ _ hscope, hchild]
    unfold RunAppDelete
    simp [hclone, happ, hplan]

/-- Witness of C12: application `bar` is absent, and `foo` has no overlay for `teamC`. -/
theorem RunAppDelete_not_found_witness :
    RunAppDelete (exampleEnv fooTwoOverlays) teamAWriter "bar"
        = ⟨some (.new "application 'bar' not found"), some fooTwoOverlays,
            [.clone (some exampleOpts)]⟩
      ∧ RunAppDelete (exampleEnv fooTwoOverlays) teamCWriter "foo"
        = ⟨some (.new "application 'foo' not found in project 'teamC'"), some fooTwoOverlays,
            [.clone (some exampleOpts)]⟩ :=
  ⟨(RunAppDelete_not_found (exampleEnv fooTwoOverlays) teamAWriter "bar" fooTwoOverlays rfl).1
      (by decide),
   (RunAppDelete_not_found (exampleEnv fooTwoOverlays) teamCWriter "foo" fooTwoOverlays rfl).2
      (by decide) (by decide) (by decide)⟩

/-! ## Application list and get: the layout rule -/

theorem globMatch_star (cs : List Char) : globMatch ['*'] cs = true := by
  simp only [globMatch, ↓reduceIte, List.any_eq_true]
  exact ⟨[], by simp, rfl⟩

theorem globMatch_self (ps : List Char) : globMatch ps ps = true := by
  induction ps with
  | nil => rfl
  | cons c ps ih =>
    unfold globMatch
    split
    · rw [List.any_eq_true]
      exact ⟨ps, by simp, ih⟩
    · simp [ih]

theorem mem_Glob (fs : FS) (pattern q : Path) :
    q ∈ Glob fs pattern ↔ (∃ e ∈ fs, e.path.take pattern.length = q) ∧ matchPath pattern q = true := by
  simp [Glob, List.mem_dedup, List.mem_filter]

theorem matchPath_length (pattern q : Path) (h : matchPath pattern q = true) :
    pattern.length = q.length := by
  induction pattern generalizing q with
  | nil =>
    cases q with
    | nil => rfl
    | cons a q => simp [matchPath] at h
  | cons a pattern ih =>
    cases q with
    | nil => simp [matchPath] at h
    | cons b q =>
      simp only [matchPath, Bool.and_eq_true] at h
      simp [ih q h.2]

theorem mem_Glob_of_exists (fs : FS) (pattern q : Path) (hex : ExistsOrDie fs q = true)
    (hm : matchPath pattern q = true) : q ∈ Glob fs pattern := by
  rw [mem_Glob]
  refine ⟨?_, hm⟩
  obtain ⟨e, he, t, ht⟩ := (ExistsOrDie_iff _ _).1 hex
  refine ⟨e, he, ?_⟩
  rw [matchPath_length _ _ hm, ← ht]
  simp

theorem matchPath_layout (apps appName rest1 rest2 : String) (ha : appName ≠ "") :
    matchPath (Join [] [apps, "*", rest1, rest2]) (Join [] [apps, appName, rest1, rest2]) = true := by
  have hstar : ("*" : String) ≠ "" := by decide
  have hs : globMatch ['*'] appName.data = true := globMatch_star _
  by_cases h1 : apps = "" <;> by_cases h2 : rest1 = "" <;> by_cases h3 : rest2 = "" <;>
    simp [Join, h1, h2, h3, ha, hstar, matchPath, hs, globMatch_self]

/-- C15: `RunAppList` globs `apps/*/overlays/<p>` and `RunAppGet(a)` reads
`apps/<a>/overlays/<p>` when the tenant and meta references have the same
`Repo`, and they use `apps/*/<p>` and `apps/<a>/<p>` when the `Repo` strings
differ; both operations read the cloned tenant view at these paths; and for a
non-empty application name the directory `RunAppGet(a)` reads is one of the
matches of `RunAppList`'s glob whenever it exists. -/
theorem RunAppList_RunAppGet_same_layout (env : Env) (n : NativeRepoTarget)
    (tenant : CloneOptions) (repofs : FS)
    (htenant : n.tenantRepoCloneOpts = some tenant)
    (hclone : env.getRepo n.tenantRepoCloneOpts = .ok repofs) :
    (tenant.Repo = n.metaRepoCloneOpts.Repo →
        RunAppList.path env.store n tenant
            = Join [] [env.store.AppsDir, "*", env.store.OverlaysDir, n.project]
          ∧ ∀ a, RunAppGet.appPath env.store n tenant a
            = Join [] [env.store.AppsDir, a, env.store.OverlaysDir, n.project])
      ∧ (tenant.Repo ≠ n.metaRepoCloneOpts.Repo →
          RunAppList.path env.store n tenant = Join [] [env.store.AppsDir, "*", n.project]
            ∧ ∀ a, RunAppGet.appPath env.store n tenant a
              = Join [] [env.store.AppsDir, a, n.project])
      ∧ (RunAppList env n).value
          = (RunAppList.collect env.codec n.project env.now repofs
              (Glob repofs (RunAppList.path env.store n tenant))).toOption
      ∧ (∀ a, (RunAppGet env n a).value
          = ((getConfigFileFromPath env.codec repofs
              (RunAppGet.appPath env.store n tenant a)).toOption).map
                (applicationOf n.project env.now))
      ∧ (∀ a, a ≠ "" → ExistsOrDie repofs (RunAppGet.appPath env.store n tenant a) = true →
          RunAppGet.appPath env.store n tenant a
            ∈ Glob repofs (RunAppList.path env.store n tenant)) := by
  rw [htenant] at hclone
  refine ⟨?_, ?_, ?_, ?_, ?_⟩
  · intro h
    simp [RunAppList.path, RunAppGet.appPath, h]
  · intro h
    simp [RunAppList.path, RunAppGet.appPath, h]
  · unfold RunAppList
    simp only [htenant, hclone]
    cases hc : RunAppList.collect env.codec n.project env.now repofs
      (Glob repofs (RunAppList.path env.store n tenant)) <;> simp [Except.toOption]
  · intro a
    unfold RunAppGet
    simp only [htenant, hclone]
    cases hc : getConfigFileFromPath env.codec repofs (RunAppGet.appPath env.store n tenant a) <;>
      simp [Except.toOption]
  · intro a ha hex
    apply mem_Glob_of_exists _ _ _ hex
    unfold RunAppList.path RunAppGet.appPath
    split
    · have := matchPath_layout env.store.AppsDir a "" n.project ha
      simpa [Join] using this
    · exact matchPath_layout env.store.AppsDir a env.store.OverlaysDir n.project ha

/-- Witness of C15: with one repository, `foo` is read at `apps/foo/overlays/teamA`,
which is a match of the glob `apps/*/overlays/teamA`. -/
theorem RunAppList_RunAppGet_same_layout_witness :
    RunAppGet.appPath exampleStore teamAWriter exampleOpts "foo" = ["apps", "foo", "overlays", "teamA"]
      ∧ RunAppGet.appPath (exampleEnv fooTwoOverlays).store teamAWriter exampleOpts "foo"
          ∈ Glob fooTwoOverlays (RunAppList.path (exampleEnv fooTwoOverlays).store teamAWriter exampleOpts) :=
  ⟨by decide,
   (RunAppList_RunAppGet_same_layout (exampleEnv fooTwoOverlays) teamAWriter exampleOpts
      fooTwoOverlays rfl rfl).2.2.2.2 "foo" (by decide) (by decide)⟩

/-- C14 (the code at a failing input): with different meta and tenant
references, `foo` installed for `teamA` at `apps/foo/teamA` and for a project
named `overlays` at `apps/foo/overlays`, `RunAppGet("foo")` on the writer
scoped to `teamA` finds the application at `apps/foo/teamA`, while
`RunAppDelete("foo")` on the same state looks under `apps/foo/overlays`,
returns `application 'foo' not found in project 'teamA'` and removes nothing. -/
theorem RunAppDelete_misses_application_RunAppGet_finds :
    RunAppGet.appPath exampleStore splitWriter tenantDevOpts "foo" = ["apps", "foo", "teamA"]
      ∧ (RunAppGet (splitEnv metaTeamA tenantWithOverlaysProject) splitWriter "foo").err = none
      ∧ (RunAppGet (splitEnv metaTeamA tenantWithOverlaysProject) splitWriter "foo").value
          = some (applicationOf "teamA" "2024-01-01T00:00:00Z"
              { UserGivenName := "foo", DestNamespace := "default" })
      ∧ overlayContainer exampleStore tenantWithOverlaysProject "foo" = ["apps", "foo", "overlays"]
      ∧ RunAppDelete (splitEnv metaTeamA tenantWithOverlaysProject) splitWriter "foo"
          = ⟨some (.new "application 'foo' not found in project 'teamA'"),
             some tenantWithOverlaysProject, [.clone (some tenantDevOpts)]⟩ := by
  refine ⟨by decide, by rfl, by rfl, by decide, by rfl⟩

/-! ## Repository identity -/

/-- C16 (counterexample): the meta reference `exampleOpts` and the tenant
reference `tenantDevOpts` have the same remote URL and differ in revision, yet
the writer treats them as different repositories: `RunAppList` globs
`apps/*/teamA`, `RunAppGet` reads `apps/foo/teamA`, and `RunAppCreate` clones
the tenant repository separately and commits to it. -/
theorem identity_not_by_remote_URL :
    exampleOpts.URL = tenantDevOpts.URL
      ∧ exampleOpts.Revision ≠ tenantDevOpts.Revision
      ∧ RunAppList.path exampleStore splitWriter tenantDevOpts = ["apps", "*", "teamA"]
      ∧ RunAppGet.appPath exampleStore splitWriter tenantDevOpts "foo" = ["apps", "foo", "teamA"]
      ∧ (RunAppCreate (splitEnv metaTeamA tenantFooTeamA) splitWriter fooCreate).trace
          = [.clone (some exampleOpts), .clone (some tenantDevOpts), .createFiles "teamA",
             .persist .tenant "chore: create app 'foo'"] := by
  refine ⟨by decide, by decide, by decide, by decide, by rfl⟩

/-- C16 (amended): the writer decides repository identity by the `Repo` string
of the references.  For a writer with a tenant reference whose `Repo` equals
that of the meta reference, `RunAppList` reads the matches of
`apps/*/overlays/<p>`, `RunAppGet(a)` reads `apps/<a>/overlays/<p>`, and
`RunAppCreate` works on one shared view, clones the meta repository only and
never persists on the tenant handle; when the `Repo` strings differ,
`RunAppList` reads the matches of `apps/*/<p>`, `RunAppGet(a)` reads
`apps/<a>/<p>`, and `RunAppCreate` clones the tenant repository as well and
never persists on the meta handle.  Without a tenant reference `RunAppCreate`
takes the meta reference in its place, while `RunAppList` and `RunAppGet`
return no value (they dereference the nil reference). -/
theorem identity_by_Repo_string (env : Env) (n : NativeRepoTarget) (opts : AppCreateOptions) :
    (∀ tenant, n.tenantRepoCloneOpts = some tenant →
      (tenant.Repo = n.metaRepoCloneOpts.Repo →
          (∀ repofs, env.getRepo (some tenant) = .ok repofs →
              (RunAppList env n).value
                  = (RunAppList.collect env.codec n.project env.now repofs
                      (Glob repofs
                        (Join [] [env.store.AppsDir, "*", env.store.OverlaysDir, n.project]))).toOption
                ∧ ∀ a, (RunAppGet env n a).value
                  = ((getConfigFileFromPath env.codec repofs
                      (Join [] [env.store.AppsDir, a, env.store.OverlaysDir, n.project])).toOption).map
                        (applicationOf n.project env.now))
            ∧ (RunAppCreate env n opts).tenantView = (RunAppCreate env n opts).metaView
            ∧ (∀ msg, Event.persist .tenant msg ∉ (RunAppCreate env n opts).trace)
            ∧ (∀ ev ∈ (RunAppCreate env n opts).trace, ∀ o, ev = Event.clone o →
                o = some n.metaRepoCloneOpts))
        ∧ (tenant.Repo ≠ n.metaRepoCloneOpts.Repo →
            (∀ repofs, env.getRepo (some tenant) = .ok repofs →
                (RunAppList env n).value
                    = (RunAppList.collect env.codec n.project env.now repofs
                        (Glob repofs (Join [] [env.store.AppsDir, "*", n.project]))).toOption
                  ∧ ∀ a, (RunAppGet env n a).value
                    = ((getConfigFileFromPath env.codec repofs
                        (Join [] [env.store.AppsDir, a, n.project])).toOption).map
                          (applicationOf n.project env.now))
              ∧ (∀ msg, Event.persist .meta msg ∉ (RunAppCreate env n opts).trace)
              ∧ (∀ metaRepofs,
                  env.prepareRepo n.metaRepoCloneOpts opts.ProjectName = .ok metaRepofs →
                  Event.clone (some tenant) ∈ (RunAppCreate env n opts).trace)))
      ∧ (n.tenantRepoCloneOpts = none →
          (RunAppList env n).value = none
            ∧ (∀ a, (RunAppGet env n a).value = none)
            ∧ (RunAppCreate env n opts).tenantView = (RunAppCreate env n opts).metaView
            ∧ (∀ msg, Event.persist .tenant msg ∉ (RunAppCreate env n opts).trace)
            ∧ (∀ ev ∈ (RunAppCreate env n opts).trace, ∀ o, ev = Event.clone o →
                o = some n.metaRepoCloneOpts)) := by
  have hshared : (n.tenantRepoCloneOpts.getD n.metaRepoCloneOpts).Repo = n.metaRepoCloneOpts.Repo →
      (RunAppCreate env n opts).tenantView = (RunAppCreate env n opts).metaView
        ∧ (∀ msg, Event.persist .tenant msg ∉ (RunAppCreate env n opts).trace)
        ∧ (∀ ev ∈ (RunAppCreate env n opts).trace, ∀ o, ev = Event.clone o →
            o = some n.metaRepoCloneOpts) := by
    intro hsame
    have hd : decide (n.metaRepoCloneOpts.Repo ≠ (n.tenantRepoCloneOpts.getD n.metaRepoCloneOpts).Repo)
        = false := decide_eq_false (fun h => h hsame.symm)
    refine ⟨?_, ?_, ?_⟩
    · unfold RunAppCreate
      simp only [hd, Bool.false_eq_true, ↓reduceIte]
      repeat' split
      all_goals rfl
    · intro msg
      unfold RunAppCreate
      simp only [hd, Bool.false_eq_true, ↓reduceIte]
      repeat' split
      all_goals simp
    · intro ev hev o ho
      subst ho
      revert hev
      unfold RunAppCreate
      simp only [hd, Bool.false_eq_true, ↓reduceIte]
      repeat' split
      all_goals simp
  have hsplit : (n.tenantRepoCloneOpts.getD n.metaRepoCloneOpts).Repo ≠ n.metaRepoCloneOpts.Repo →
      (∀ msg, Event.persist .meta msg ∉ (RunAppCreate env n opts).trace)
        ∧ (∀ metaRepofs, env.prepareRepo n.metaRepoCloneOpts opts.ProjectName = .ok metaRepofs →
            Event.clone (some (n.tenantRepoCloneOpts.getD n.metaRepoCloneOpts))
              ∈ (RunAppCreate env n opts).trace) := by
    intro hdiff
    have hd : decide (n.metaRepoCloneOpts.Repo ≠ (n.tenantRepoCloneOpts.getD n.metaRepoCloneOpts).Repo)
        = true := decide_eq_true (fun h => hdiff h.symm)
    refine ⟨?_, ?_⟩
    · intro msg
      unfold RunAppCreate
      simp only [hd, ↓reduceIte]
      repeat' split
      all_goals simp
    · intro metaRepofs hprep
      unfold RunAppCreate
      simp only [hd, hprep, ↓reduceIte]
      repeat' split
      all_goals simp
  have hreads : ∀ tenant repofs, n.tenantRepoCloneOpts = some tenant →
      env.getRepo (some tenant) = .ok repofs →
      (RunAppList env n).value
          = (RunAppList.collect env.codec n.project env.now repofs
              (Glob repofs (RunAppList.path env.store n tenant))).toOption
        ∧ ∀ a, (RunAppGet env n a).value
          = ((getConfigFileFromPath env.codec repofs
              (RunAppGet.appPath env.store n tenant a)).toOption).map
                (applicationOf n.project env.now) := by
    intro tenant repofs htenant hclone
    rw [← htenant] at hclone
    constructor
    · unfold RunAppList
      simp only [htenant] at hclone ⊢
      simp only [hclone]
      cases hc : RunAppList.collect env.codec n.project env.now repofs
        (Glob repofs (RunAppList.path env.store n tenant)) <;> simp [Except.toOption]
    · intro a
      unfold RunAppGet
      simp only [htenant] at hclone ⊢
      simp only [hclone]
      cases hc : getConfigFileFromPath env.codec repofs (RunAppGet.appPath env.store n tenant a) <;>
        simp [Except.toOption]
  constructor
  · intro tenant htenant
    have hg : n.tenantRepoCloneOpts.getD n.metaRepoCloneOpts = tenant := by
      rw [htenant]
      rfl
    constructor
    · intro hsame
      refine ⟨?_, hshared (by rw [hg]; exact hsame)⟩
      intro repofs hclone
      have h := hreads tenant repofs htenant hclone
      have hp1 : RunAppList.path env.store n tenant
          = Join [] [env.store.AppsDir, "*", env.store.OverlaysDir, n.project] := by
        simp [RunAppList.path, hsame]
      have hp2 : ∀ a, RunAppGet.appPath env.store n tenant a
          = Join [] [env.store.AppsDir, a, env.store.OverlaysDir, n.project] := by
        intro a
        simp [RunAppGet.appPath, hsame]
      rw [hp1] at h
      refine ⟨h.1, fun a => ?_⟩
      rw [← hp2 a]
      exact h.2 a
    · intro hdiff
      have hs := hsplit (by rw [hg]; exact hdiff)
      rw [hg] at hs
      refine ⟨?_, hs.1, hs.2⟩
      intro repofs hclone
      have h := hreads tenant repofs htenant hclone
      have hp1 : RunAppList.path env.store n tenant = Join [] [env.store.AppsDir, "*", n.project] := by
        simp [RunAppList.path, hdiff]
      have hp2 : ∀ a, RunAppGet.appPath env.store n tenant a
          = Join [] [env.store.AppsDir, a, n.project] := by
        intro a
        simp [RunAppGet.appPath, hdiff]
      rw [hp1] at h
      refine ⟨h.1, fun a => ?_⟩
      rw [← hp2 a]
      exact h.2 a
  · intro hnil
    have hg : n.tenantRepoCloneOpts.getD n.metaRepoCloneOpts = n.metaRepoCloneOpts := by
      rw [hnil]
      rfl
    refine ⟨?_, ?_, hshared (by rw [hg])⟩
    · unfold RunAppList
      cases hc : env.getRepo n.tenantRepoCloneOpts with
      | error err => rfl
      | ok repofs => simp only [hnil]
    · intro a
      unfold RunAppGet
      cases hc : env.getRepo n.tenantRepoCloneOpts with
      | error err => rfl
      | ok repofs => simp only [hnil]

/-- Witness of C16 (amended): one repository for both references, and two
references with different `Repo` strings. -/
theorem identity_by_Repo_string_witness :
    (∀ a, (RunAppGet (exampleEnv fooTwoOverlays) teamAWriter a).value
        = ((getConfigFileFromPath exampleCodec fooTwoOverlays
            (Join [] ["apps", a, "overlays", "teamA"])).toOption).map
              (applicationOf "teamA" "2024-01-01T00:00:00Z"))
      ∧ (∀ a, (RunAppGet (splitEnv metaTeamA tenantFooTeamA) splitWriter a).value
        = ((getConfigFileFromPath exampleCodec tenantFooTeamA
            (Join [] ["apps", a, "teamA"])).toOption).map
              (applicationOf "teamA" "2024-01-01T00:00:00Z")) :=
  ⟨((((identity_by_Repo_string (exampleEnv fooTwoOverlays) teamAWriter fooCreate).1
      exampleOpts rfl).1 rfl).1 fooTwoOverlays rfl).2,
   ((((identity_by_Repo_string (splitEnv metaTeamA tenantFooTeamA) splitWriter fooCreate).1
      tenantDevOpts rfl).2 (by decide)).1 tenantFooTeamA rfl).2⟩

/-! ## Application create: commit and conflict -/

/-- C17: a `RunAppCreate` that is not a dry run and returns no error calls
`Persist` exactly once: on the tenant repository when the `Repo` strings of the
meta and tenant references differ, on the shared meta repository when they
are the same, and in either case never on the other handle. -/
theorem RunAppCreate_persists_once (env : Env) (n : NativeRepoTarget) (opts : AppCreateOptions)
    (hdry : opts.DryRun = false) (hok : (RunAppCreate env n opts).err = none) :
    ∃ msg, (RunAppCreate env n opts).trace.filter Event.isPersist
        = [.persist (if n.metaRepoCloneOpts.Repo ≠ (n.tenantRepoCloneOpts.getD n.metaRepoCloneOpts).Repo
            then RepoHandle.tenant else RepoHandle.meta) msg] := by
  unfold RunAppCreate at hok ⊢
  simp only [hdry, Bool.false_eq_true, ↓reduceIte] at hok ⊢
  by_cases hdiff : n.metaRepoCloneOpts.Repo ≠ (n.tenantRepoCloneOpts.getD n.metaRepoCloneOpts).Repo
  · simp only [decide_eq_true hdiff, ↓reduceIte, hdiff] at hok ⊢
    repeat' split at hok
    all_goals first | (simp at hok; done) | skip
    all_goals simp_all [List.filter, Event.isPersist]
  · simp only [decide_eq_false hdiff, Bool.false_eq_true, ↓reduceIte, hdiff] at hok ⊢
    repeat' split at hok
    all_goals first | (simp at hok; done) | skip
    all_goals simp_all [List.filter, Event.isPersist]

/-- Witness of C17: a shared repository commits on the meta handle, a split one on the tenant handle. -/
theorem RunAppCreate_persists_once_witness :
    (∃ msg, (RunAppCreate (exampleEnv bootstrappedRepo) teamAWriter fooCreate).trace.filter
        Event.isPersist
        = [.persist (if teamAWriter.metaRepoCloneOpts.Repo
              ≠ (teamAWriter.tenantRepoCloneOpts.getD teamAWriter.metaRepoCloneOpts).Repo
            then RepoHandle.tenant else RepoHandle.meta) msg])
      ∧ (RunAppCreate (exampleEnv bootstrappedRepo) teamAWriter fooCreate).trace
          = [.clone (some exampleOpts), .createFiles "teamA", .persist .meta "chore: create app 'foo'"]
      ∧ (RunAppCreate (splitEnv metaTeamA tenantFooTeamA) splitWriter fooCreate).trace
          = [.clone (some exampleOpts), .clone (some tenantDevOpts), .createFiles "teamA",
             .persist .tenant "chore: create app 'foo'"] :=
  ⟨RunAppCreate_persists_once (exampleEnv bootstrappedRepo) teamAWriter fooCreate rfl (by rfl),
   by rfl, by rfl⟩

theorem errorsIs_Errorf_w (pre : String) (err target : GoErr) (h : errorsIs err target = true) :
    errorsIs (Errorf_w pre err) target = true := by
  simp [Errorf_w, errorsIs, h]

theorem RunAppCreate_conflict_outcome (env : Env) (n : NativeRepoTarget)
    (opts : AppCreateOptions) (metaRepofs appsfs : FS) (appOpts : CreateOptions)
    (app : Application) (views : Views) (cause : GoErr)
    (hdry : opts.DryRun = false)
    (hprep : env.prepareRepo n.metaRepoCloneOpts opts.ProjectName = .ok metaRepofs)
    (htenant : (if n.metaRepoCloneOpts.Repo ≠ (n.tenantRepoCloneOpts.getD n.metaRepoCloneOpts).Repo
        then env.getRepo (some (n.tenantRepoCloneOpts.getD n.metaRepoCloneOpts))
        else .ok metaRepofs) = .ok appsfs)
    (hdefaults : env.setAppOptsDefaults metaRepofs opts = .ok appOpts)
    (hparse : env.parseApp appOpts opts.ProjectName
        (n.tenantRepoCloneOpts.getD n.metaRepoCloneOpts).URL
        (n.tenantRepoCloneOpts.getD n.metaRepoCloneOpts).Revision
        (n.tenantRepoCloneOpts.getD n.metaRepoCloneOpts).Path = .ok app)
    (hfiles : app.CreateFiles ⟨metaRepofs, appsfs⟩ .meta
        (if n.metaRepoCloneOpts.Repo ≠ (n.tenantRepoCloneOpts.getD n.metaRepoCloneOpts).Repo
          then RepoHandle.tenant else RepoHandle.meta) opts.ProjectName = (views, some cause))
    (hconflict : errorsIs cause env.ErrAppAlreadyInstalledOnProject = true) :
    ∃ t0 : List Event, (∀ ev ∈ t0, ∃ o, ev = Event.clone o)
      ∧ RunAppCreate env n opts
        = ⟨none,
           some (Errorf_w ("application '" ++ app.Name ++ "' already exists in project '"
              ++ opts.ProjectName ++ "': ") cause),
           some views.meta,
           some (views.get (if n.metaRepoCloneOpts.Repo
              ≠ (n.tenantRepoCloneOpts.getD n.metaRepoCloneOpts).Repo
              then RepoHandle.tenant else RepoHandle.meta)),
           t0 ++ [.createFiles opts.ProjectName]⟩ := by
  by_cases hdiff : n.metaRepoCloneOpts.Repo ≠ (n.tenantRepoCloneOpts.getD n.metaRepoCloneOpts).Repo
  · rw [if_pos hdiff] at htenant hfiles
    refine ⟨[.clone (some n.metaRepoCloneOpts),
      .clone (some (n.tenantRepoCloneOpts.getD n.metaRepoCloneOpts))], ?_, ?_⟩
    · intro ev hev
      simp only [List.mem_cons, List.mem_singleton, List.not_mem_nil, or_false] at hev
      rcases hev with hev | hev <;> exact ⟨_, hev⟩
    · unfold RunAppCreate
      simp only [hprep, decide_eq_true hdiff, ↓reduceIte, htenant, hdefaults, hdry, hparse, hfiles,
        hconflict, Bool.false_eq_true, if_pos hdiff]
  · rw [if_neg hdiff] at htenant hfiles
    injection htenant with htenant
    subst htenant
    refine ⟨[.clone (some n.metaRepoCloneOpts)], ?_, ?_⟩
    · intro ev hev
      simp only [List.mem_singleton] at hev
      exact ⟨_, hev⟩
    · unfold RunAppCreate
      simp only [hprep, decide_eq_false hdiff, ↓reduceIte, hdefaults, hdry, hparse, hfiles,
        hconflict, Bool.false_eq_true, if_neg hdiff]

/-- C18: when `RunAppCreate` is not a dry run and the variant's `CreateFiles`
returns an error that is or wraps `ErrAppAlreadyInstalledOnProject`, the call
returns no response and the error
`application '<app>' already exists in project '<project>': <cause>`, which
still matches the sentinel under `errors.Is`; the trace ends with the
`CreateFiles` call and holds no `Persist` on either repository. -/
theorem RunAppCreate_already_installed (env : Env) (n : NativeRepoTarget)
    (opts : AppCreateOptions) (metaRepofs appsfs : FS) (appOpts : CreateOptions)
    (app : Application) (views : Views) (cause : GoErr)
    (hdry : opts.DryRun = false)
    (hprep : env.prepareRepo n.metaRepoCloneOpts opts.ProjectName = .ok metaRepofs)
    (htenant : (if n.metaRepoCloneOpts.Repo ≠ (n.tenantRepoCloneOpts.getD n.metaRepoCloneOpts).Repo
        then env.getRepo (some (n.tenantRepoCloneOpts.getD n.metaRepoCloneOpts))
        else .ok metaRepofs) = .ok appsfs)
    (hdefaults : env.setAppOptsDefaults metaRepofs opts = .ok appOpts)
    (hparse : env.parseApp appOpts opts.ProjectName
        (n.tenantRepoCloneOpts.getD n.metaRepoCloneOpts).URL
        (n.tenantRepoCloneOpts.getD n.metaRepoCloneOpts).Revision
        (n.tenantRepoCloneOpts.getD n.metaRepoCloneOpts).Path = .ok app)
    (hfiles : app.CreateFiles ⟨metaRepofs, appsfs⟩ .meta
        (if n.metaRepoCloneOpts.Repo ≠ (n.tenantRepoCloneOpts.getD n.metaRepoCloneOpts).Repo
          then RepoHandle.tenant else RepoHandle.meta) opts.ProjectName = (views, some cause))
    (hconflict : errorsIs cause env.ErrAppAlreadyInstalledOnProject = true) :
    (RunAppCreate env n opts).resp = none
      ∧ (RunAppCreate env n opts).err
          = some (Errorf_w ("application '" ++ app.Name ++ "' already exists in project '"
              ++ opts.ProjectName ++ "': ") cause)
      ∧ (∀ e, (RunAppCreate env n opts).err = some e →
          errorsIs e env.ErrAppAlreadyInstalledOnProject = true
            ∧ e.Error = "application '" ++ app.Name ++ "' already exists in project '"
                ++ opts.ProjectName ++ "': " ++ cause.Error)
      ∧ (∀ ev ∈ (RunAppCreate env n opts).trace, ev.isPersist = false)
      ∧ (RunAppCreate env n opts).trace.getLast? = some (.createFiles opts.ProjectName) := by
  obtain ⟨t0, ht0, hout⟩ := RunAppCreate_conflict_outcome env n opts metaRepofs appsfs appOpts app
    views cause hdry hprep htenant hdefaults hparse hfiles hconflict
  rw [hout]
  refine ⟨rfl, rfl, ?_, ?_, ?_⟩
  · intro e he
    injection he with he
    subst he
    exact ⟨errorsIs_Errorf_w _ _ _ hconflict, rfl⟩
  · intro ev hev
    simp only [List.mem_append, List.mem_singleton] at hev
    rcases hev with hev | hev
    · obtain ⟨o, ho⟩ := ht0 ev hev
      subst ho
      rfl
    · subst hev
      rfl
  · simp

/-- Witness of C18: the variant reports the sentinel wrapped in its own message. -/
theorem RunAppCreate_already_installed_witness :
    (RunAppCreate (conflictEnv fooOneOverlay) teamAWriter fooCreate).resp = none
      ∧ (∀ ev ∈ (RunAppCreate (conflictEnv fooOneOverlay) teamAWriter fooCreate).trace,
          ev.isPersist = false)
      ∧ (RunAppCreate (conflictEnv fooOneOverlay) teamAWriter fooCreate).err
          = some (.wrap ("application 'foo' already exists in project 'teamA': "
                ++ "app 'foo': application already installed on project")
              (.wrap "app 'foo': application already installed on project"
                (.new "application already installed on project"))) := by
  obtain ⟨h1, _, _, h4, _⟩ := RunAppCreate_already_installed (conflictEnv fooOneOverlay) teamAWriter
    fooCreate fooOneOverlay fooOneOverlay fooCreate.AppOpts
    { Name := "foo",
      CreateFiles := fun v _ _ _ =>
        (v, some (.wrap "app 'foo': application already installed on project"
          (.new "application already installed on project"))) }
    ⟨fooOneOverlay, fooOneOverlay⟩
    (.wrap "app 'foo': application already installed on project"
      (.new "application already installed on project"))
    rfl rfl rfl rfl rfl rfl (by decide)
  exact ⟨h1, h4, by rfl⟩

/-! ## Stubs: the helm variant's `CreateFiles` and `RunAppUpdate` -/

/-- C19 (the code on every input): `helmMultiEnvApp.CreateFiles` returns nil and
leaves both views as they are, whether or not the target directory of the
(application, project) pair exists; in particular on a view where
`apps/foo/overlays/teamA` already exists it reports no conflict, and on a view
without it it creates no file.  `RunAppCreate` with this variant then commits
an unchanged tree and answers `application created`. -/
theorem helmMultiEnvApp_CreateFiles_does_nothing :
    (∀ (h : helmMultiEnvApp) (views : Views) (repofs appsfs : RepoHandle) (projectName : String),
        h.CreateFiles views repofs appsfs projectName = (views, none))
      ∧ ExistsOrDie fooOneOverlay ["apps", "foo", "overlays", "teamA"] = true
      ∧ fooHelmApp.CreateFiles ⟨fooOneOverlay, fooOneOverlay⟩ .meta .meta "teamA"
          = (⟨fooOneOverlay, fooOneOverlay⟩, none)
      ∧ ExistsOrDie bootstrappedRepo ["apps", "foo"] = false
      ∧ fooHelmApp.CreateFiles ⟨bootstrappedRepo, bootstrappedRepo⟩ .meta .meta "teamA"
          = (⟨bootstrappedRepo, bootstrappedRepo⟩, none) :=
  ⟨fun _ _ _ _ _ => rfl, by decide, rfl, by decide, rfl⟩

/-- C20 (counterexample): `RunAppUpdate` returns nil, not an error. -/
theorem RunAppUpdate_returns_nil :
    (RunAppUpdate (exampleEnv fooOneOverlay) teamAWriter "rename foo").err = none := by
  rfl

/-- C20 (amended): for every update options, `RunAppUpdate` returns nil and does
nothing: no clone, no view, no write and no `Persist` (its trace is empty). -/
theorem RunAppUpdate_is_a_no_op {UpdateOptions : Type} (env : Env) (n : NativeRepoTarget)
    (opts : UpdateOptions) :
    RunAppUpdate env n opts = ⟨none, none, []⟩
      ∧ (RunAppUpdate env n opts).err = none
      ∧ (RunAppUpdate env n opts).trace = [] :=
  ⟨rfl, rfl, rfl⟩

/-! ## Project delete -/

theorem filterMap_filter_of_kept (fs : FS) (keep : Entry → Bool) (c : Path)
    (hkeep : ∀ e ∈ fs, c <+: e.path → keep e = true) :
    (fs.filter keep).filterMap (childName c) = fs.filterMap (childName c) := by
  induction fs with
  | nil => rfl
  | cons e fs ih =>
    have ih1 := ih (fun x hx => hkeep x (List.mem_cons_of_mem _ hx))
    by_cases hk : keep e = true
    · simp [List.filter_cons, hk, List.filterMap_cons, ih1]
    · have hnot : ¬ c <+: e.path := fun h => hk (hkeep e (List.mem_cons_self _ _) h)
      have hchild : childName c e = none := by
        unfold childName
        rw [if_neg]
        rw [isPrefixOf_iff]
        exact hnot
      simp [List.filter_cons, hk, List.filterMap_cons, ih1, hchild]

theorem filter_agree_under (fs : FS) (keep : Entry → Bool) (d c : Path)
    (hkeep : ∀ e ∈ fs, d <+: e.path → keep e = true) (hc : d <+: c) :
    ExistsOrDie (fs.filter keep) c = ExistsOrDie fs c
      ∧ ReadDir (fs.filter keep) c = ReadDir fs c := by
  have hex : ExistsOrDie (fs.filter keep) c = ExistsOrDie fs c := by
    rw [Bool.eq_iff_iff, ExistsOrDie_iff, ExistsOrDie_iff]
    constructor
    · rintro ⟨e, he, hce⟩
      exact ⟨e, (List.mem_filter.1 he).1, hce⟩
    · rintro ⟨e, he, hce⟩
      exact ⟨e, List.mem_filter.2 ⟨he, hkeep e he (hc.trans hce)⟩, hce⟩
  refine ⟨hex, ?_⟩
  unfold ReadDir
  rw [hex, filterMap_filter_of_kept fs keep c (fun e he hce => hkeep e he (hc.trans hce))]

theorem appDir_prefix_overlay (st : Store) (appName : String) :
    Join [] [st.AppsDir, appName] <+: Join (Join [] [st.AppsDir, appName]) [st.OverlaysDir] := by
  unfold Join
  exact List.prefix_append _ _

theorem plan_of_filter (st : Store) (fs : FS) (keep : Entry → Bool) (appName projectName : String)
    (hkeep : ∀ e ∈ fs, Join [] [st.AppsDir, appName] <+: e.path → keep e = true) :
    DeleteFromProject.plan st (fs.filter keep) appName projectName
        = DeleteFromProject.plan st fs appName projectName
      ∧ overlayContainer st (fs.filter keep) appName = overlayContainer st fs appName := by
  have hov := (filter_agree_under fs keep _ _ hkeep (appDir_prefix_overlay st appName)).1
  have hcont : overlayContainer st (fs.filter keep) appName = overlayContainer st fs appName := by
    unfold overlayContainer
    simp only [hov]
  refine ⟨?_, hcont⟩
  have hread := (filter_agree_under fs keep _ _ hkeep
    (appDir_prefix_overlayContainer st fs appName)).2
  unfold DeleteFromProject.plan
  unfold overlayContainer at hread
  simp only [hov, hread]

theorem DeleteFromProject_plan_eq (st : Store) (fs : FS) (appName projectName : String) :
    DeleteFromProject.plan st fs appName projectName
      = match ReadDir fs (overlayContainer st fs appName) with
        | .error err => .error (Errorf_w ("failed to check projects in '" ++ appName ++ "': ") err)
        | .ok allProjects =>
          if !(allProjects.any (fun project => decide (project = projectName))) then .ok none
          else if allProjects.length = 1 then .ok (some (Join [] [st.AppsDir, appName]))
          else .ok (some (Join (overlayContainer st fs appName) [projectName])) := by
  rfl

theorem plan_target_under (st : Store) (fs : FS) (appName projectName : String) (d : Path)
    (h : DeleteFromProject.plan st fs appName projectName = .ok (some d)) :
    Join [] [st.AppsDir, appName] <+: d := by
  rw [DeleteFromProject_plan_eq] at h
  split at h
  · cases h
  · split at h
    · cases h
    · split at h
      · injection h with h
        injection h with h
        subst h
        exact List.prefix_refl _
      · injection h with h
        injection h with h
        subst h
        have hc := appDir_prefix_overlayContainer st fs appName
        exact hc.trans (by unfold Join; exact List.prefix_append _ _)

theorem appDir_eq (st : Store) (appName : String) (ha : appName ≠ "") :
    Join [] [st.AppsDir, appName] = Join [] [st.AppsDir] ++ [appName] := by
  by_cases h : st.AppsDir = "" <;> simp [Join, h, ha]

theorem appDir_incomparable (st : Store) (a b : String) (x : Path) (ha : a ≠ "") (hb : b ≠ "")
    (hax : Join [] [st.AppsDir, a] <+: x) (hbx : Join [] [st.AppsDir, b] <+: x) : a = b := by
  rw [appDir_eq st a ha] at hax
  rw [appDir_eq st b hb] at hbx
  exact sibling_not_under _ _ _ _ hax hbx

theorem keeps_of_not_under (st : Store) (fs : FS) (projectName appName : String) (e : Entry)
    (h : ¬ Join [] [st.AppsDir, appName] <+: e.path) :
    DeleteFromProject.keeps st fs projectName appName e = true := by
  unfold DeleteFromProject.keeps
  split
  · rename_i d hd
    have hunder := plan_target_under st fs appName projectName d hd
    have hnot : ¬ d <+: e.path := fun hde => h (hunder.trans hde)
    simpa using (isPrefixOf_eq_false_iff _ _).2 hnot
  · rfl

theorem DeleteFromProject_result (st : Store) (fs fs1 : FS) (appName projectName : String)
    (evs : List Event) (h : DeleteFromProject st fs appName projectName = .ok (fs1, evs)) :
    fs1 = fs.filter (DeleteFromProject.keeps st fs projectName appName)
      ∧ ∀ ev ∈ evs, ∃ d, ev = Event.removeAll d := by
  unfold DeleteFromProject at h
  split at h
  · cases h
  · rename_i hplan
    injection h with h
    injection h with h1 h2
    subst h1 h2
    refine ⟨?_, by simp⟩
    symm
    rw [List.filter_eq_self]
    intro e _
    simp [DeleteFromProject.keeps, hplan]
  · rename_i d hplan
    simp only [RemoveAll] at h
    injection h with h
    injection h with h1 h2
    subst h1 h2
    refine ⟨?_, by simp⟩
    apply List.filter_congr
    intro e _
    simp [DeleteFromProject.keeps, hplan]

theorem keeps_of_filter (st : Store) (fs : FS) (keep : Entry → Bool) (appName projectName : String)
    (hkeep : ∀ e ∈ fs, Join [] [st.AppsDir, appName] <+: e.path → keep e = true) (e : Entry) :
    DeleteFromProject.keeps st (fs.filter keep) projectName appName e
      = DeleteFromProject.keeps st fs projectName appName e := by
  unfold DeleteFromProject.keeps
  rw [(plan_of_filter st fs keep appName projectName hkeep).1]

theorem detachAll_result (st : Store) (projectName : String) (apps : List String) (fs fs1 : FS)
    (evs : List Event) (hnd : apps.Nodup) (hne : ∀ a ∈ apps, a ≠ "")
    (h : RunProjectDelete.detachAll st projectName fs apps = (fs1, evs, none)) :
    fs1 = fs.filter (fun e => apps.all (fun a => DeleteFromProject.keeps st fs projectName a e))
      ∧ ∀ ev ∈ evs, ∃ d, ev = Event.removeAll d := by
  induction apps generalizing fs fs1 evs with
  | nil =>
    simp only [RunProjectDelete.detachAll, Prod.mk.injEq] at h
    obtain ⟨h1, h2, _⟩ := h
    subst h1 h2
    simp
  | cons a rest ih =>
    unfold RunProjectDelete.detachAll at h
    cases hdel : DeleteFromProject st fs a projectName with
    | error err => simp [hdel] at h
    | ok pr =>
      obtain ⟨fs2, evs2⟩ := pr
      simp only [hdel] at h
      cases hrest : RunProjectDelete.detachAll st projectName fs2 rest with
      | mk fs3 tl =>
        obtain ⟨evs3, err3⟩ := tl
        simp only [hrest, Prod.mk.injEq] at h
        obtain ⟨h1, h2, h3⟩ := h
        subst h1 h2 h3
        obtain ⟨hfs2, hev2⟩ := DeleteFromProject_result st fs fs2 a projectName evs2 hdel
        have hnd1 := (List.nodup_cons.1 hnd)
        obtain ⟨hfs3, hev3⟩ := ih fs2 fs3 evs3 hnd1.2
          (fun b hb => hne b (List.mem_cons_of_mem _ hb)) hrest
        refine ⟨?_, ?_⟩
        · rw [hfs3, hfs2, List.filter_filter]
          apply List.filter_congr
          intro e he
          have hsame : ∀ b ∈ rest,
              DeleteFromProject.keeps st
                  (fs.filter (DeleteFromProject.keeps st fs projectName a)) projectName b e
                = DeleteFromProject.keeps st fs projectName b e := by
            intro b hb
            apply keeps_of_filter
            intro x _ hbx
            apply keeps_of_not_under
            intro hax
            have hab := appDir_incomparable st a b x.path (hne a (List.mem_cons_self _ _))
              (hne b (List.mem_cons_of_mem _ hb)) hax hbx
            exact hnd1.1 (hab ▸ hb)
          have hall : rest.all (fun b => DeleteFromProject.keeps st
                (fs.filter (DeleteFromProject.keeps st fs projectName a)) projectName b e)
              = rest.all (fun b => DeleteFromProject.keeps st fs projectName b e) := by
            rw [Bool.eq_iff_iff, List.all_eq_true, List.all_eq_true]
            constructor
            · intro hx b hb
              rw [← hsame b hb]
              exact hx b hb
            · intro hx b hb
              rw [hsame b hb]
              exact hx b hb
          rw [hall, List.all_cons, Bool.and_comm]
        · intro ev hev
          rcases List.mem_append.1 hev with hev | hev
          · exact hev2 ev hev
          · exact hev3 ev hev

theorem RunProjectDelete_success (env : Env) (n : NativeRepoTarget) (projectName : String)
    (repofs : FS) (hprep : env.prepareRepo n.metaRepoCloneOpts projectName = .ok repofs)
    (hok : (RunProjectDelete env n projectName).err = none) :
    ∃ apps repofs1 evs repofs2,
      ReadDir repofs (Join [] [env.store.AppsDir]) = .ok apps
        ∧ RunProjectDelete.detachAll env.store projectName repofs apps = (repofs1, evs, none)
        ∧ Remove repofs1 (Join [] [env.store.ProjectsDir, projectName ++ ".yaml"]) = .ok repofs2
        ∧ (RunProjectDelete env n projectName).view = some repofs2
        ∧ (RunProjectDelete env n projectName).trace
            = [.clone (some n.metaRepoCloneOpts)] ++ evs
                ++ [.remove (Join [] [env.store.ProjectsDir, projectName ++ ".yaml"]),
                    .persist .meta ("chore: deleted project '" ++ projectName ++ "'")] := by
  unfold RunProjectDelete at hok ⊢
  simp only [hprep] at hok ⊢
  cases happs : ReadDir repofs (Join [] [env.store.AppsDir]) with
  | error err => simp [happs] at hok
  | ok apps =>
    simp only [happs] at hok ⊢
    cases hdet : RunProjectDelete.detachAll env.store projectName repofs apps with
    | mk repofs1 tl =>
      obtain ⟨evs, err⟩ := tl
      cases err with
      | some e => simp [hdet] at hok
      | none =>
        simp only [hdet] at hok ⊢
        cases hrm : Remove repofs1 (Join [] [env.store.ProjectsDir, projectName ++ ".yaml"]) with
        | error e => simp [hrm] at hok
        | ok repofs2 =>
          simp only [hrm] at hok ⊢
          cases hpush : env.Persist .meta repofs2 ("chore: deleted project '" ++ projectName ++ "'") with
          | some e => simp [hpush] at hok
          | none => exact ⟨apps, repofs1, evs, repofs2, rfl, hdet, hrm, rfl, rfl⟩

theorem Remove_result (fs fs1 : FS) (p : Path) (h : Remove fs p = .ok fs1) :
    fs1 = fs.filter (fun e => decide (e.path ≠ p)) := by
  unfold Remove at h
  split at h
  · cases h
  · split at h
    · cases h
    · injection h with h
      exact h.symm

theorem file_not_under_appDir (st : Store) (appName fileName : String) (ha : appName ≠ "")
    (hlayout : st.AppsDir ≠ "" ∧ st.AppsDir ≠ st.ProjectsDir) :
    ¬ Join [] [st.AppsDir, appName] <+: Join [] [st.ProjectsDir, fileName] := by
  intro h
  have hlen := h.length_le
  by_cases hp : st.ProjectsDir = "" <;> by_cases hf : fileName = ""
  · simp [Join, hp, hf, hlayout.1, ha] at hlen
  · simp [Join, hp, hf, hlayout.1, ha] at hlen
  · simp [Join, hp, hf, hlayout.1, ha] at hlen
  · simp only [Join, List.nil_append, hp, hf, hlayout.1, ha, ne_eq, not_false_eq_true,
      decide_True, List.filter_cons_of_pos, List.filter_nil] at h
    obtain ⟨t, ht⟩ := h
    simp at ht
    exact hlayout.2 ht.1

theorem keeps_eq_of_plan (st : Store) (fs : FS) (projectName appName : String) (d : Path)
    (h : DeleteFromProject.plan st fs appName projectName = .ok (some d)) (e : Entry) :
    DeleteFromProject.keeps st fs projectName appName e = !d.isPrefixOf e.path := by
  simp [DeleteFromProject.keeps, h]

theorem plan_of_absent (st : Store) (fs : FS) (appName projectName : String)
    (h : ExistsOrDie fs (overlayContainer st fs appName ++ [projectName]) = false) (e : Entry) :
    DeleteFromProject.keeps st fs projectName appName e = true := by
  unfold DeleteFromProject.keeps
  rw [DeleteFromProject_plan_eq]
  cases hread : ReadDir fs (overlayContainer st fs appName) with
  | error err => rfl
  | ok names =>
    have hnot : projectName ∉ names := by
      intro hmem
      have hex := (ExistsOrDie_iff _ _).2 ((mem_of_ReadDir _ _ _ hread projectName).1 hmem)
      rw [h] at hex
      cases hex
    have hany : names.any (fun project => decide (project = projectName)) = false := by
      rw [List.any_eq_false]
      intro x hx
      have hne : x ≠ projectName := fun hxp => hnot (hxp ▸ hx)
      simpa using hne
    simp [hany]

theorem plan_of_only (st : Store) (fs : FS) (appName projectName : String)
    (h : ReadDir fs (overlayContainer st fs appName) = .ok [projectName]) :
    DeleteFromProject.plan st fs appName projectName
      = .ok (some (Join [] [st.AppsDir, appName])) := by
  rw [DeleteFromProject_plan_eq, h]
  simp

theorem plan_of_many (st : Store) (fs : FS) (appName projectName : String) (names : List String)
    (hname : projectName ≠ "")
    (h : ReadDir fs (overlayContainer st fs appName) = .ok names) (hmem : projectName ∈ names)
    (hmany : 1 < names.length) :
    DeleteFromProject.plan st fs appName projectName
      = .ok (some (overlayContainer st fs appName ++ [projectName])) := by
  rw [DeleteFromProject_plan_eq, h]
  have hany : names.any (fun project => decide (project = projectName)) = true := by
    rw [List.any_eq_true]
    exact ⟨projectName, hmem, by simp⟩
  have hlen : names.length ≠ 1 := by omega
  simp [hany, hlen, Join_single _ _ hname]

theorem ReadDir_of_exists (fs : FS) (c : Path) (h : ExistsOrDie fs c = true) :
    ∃ names, ReadDir fs c = .ok names := by
  unfold ReadDir
  simp [h]

theorem overlay_not_under_projectDir (st : Store) (fs : FS) (appName projectName : String)
    (hex : ExistsOrDie fs (overlayContainer st fs appName ++ [projectName]) = true) :
    ¬ overlayContainer st fs appName ++ [projectName]
        <+: Join (Join [] [st.AppsDir, appName]) [st.OverlaysDir] := by
  intro h
  have hlen := h.length_le
  have hc := (appDir_prefix_overlayContainer st fs appName).length_le
  have hov : (Join (Join [] [st.AppsDir, appName]) [st.OverlaysDir]).length
      ≤ (Join [] [st.AppsDir, appName]).length + 1 := by
    by_cases ho : st.OverlaysDir = "" <;> simp [Join, ho]
  simp only [List.length_append, List.length_singleton] at hlen
  have heq := h.eq_of_length (by simp only [List.length_append, List.length_singleton]; omega)
  have hexov : ExistsOrDie fs (Join (Join [] [st.AppsDir, appName]) [st.OverlaysDir]) = true := by
    rw [← heq]
    exact hex
  have hcont : overlayContainer st fs appName
      = Join (Join [] [st.AppsDir, appName]) [st.OverlaysDir] := by
    unfold overlayContainer
    simp [hexov]
  rw [hcont] at hlen
  omega

theorem overlayContainer_congr (st : Store) (g fs : FS) (appName : String)
    (h : ExistsOrDie g (Join (Join [] [st.AppsDir, appName]) [st.OverlaysDir])
      = ExistsOrDie fs (Join (Join [] [st.AppsDir, appName]) [st.OverlaysDir])) :
    overlayContainer st g appName = overlayContainer st fs appName := by
  unfold overlayContainer
  simp only [h]

theorem no_overlay_after_detach (st : Store) (fs : FS) (appName projectName : String)
    (hname : projectName ≠ "") :
    ExistsOrDie (fs.filter (DeleteFromProject.keeps st fs projectName appName))
      (overlayContainer st (fs.filter (DeleteFromProject.keeps st fs projectName appName)) appName
        ++ [projectName]) = false := by
  by_cases hex : ExistsOrDie fs (overlayContainer st fs appName ++ [projectName]) = true
  · have hc : ExistsOrDie fs (overlayContainer st fs appName) = true := by
      obtain ⟨e, he, hpe⟩ := (ExistsOrDie_iff _ _).1 hex
      exact (ExistsOrDie_iff _ _).2 ⟨e, he, (List.prefix_append _ _).trans hpe⟩
    obtain ⟨names, hread⟩ := ReadDir_of_exists _ _ hc
    have hmem : projectName ∈ names :=
      (mem_of_ReadDir _ _ _ hread projectName).2 ((ExistsOrDie_iff _ _).1 hex)
    by_cases hlen : names.length = 1
    · have hnames : names = [projectName] := by
        match names, hlen, hmem with
        | [x], _, hmem =>
          simp at hmem
          rw [hmem]
      rw [hnames] at hread
      have hplan := plan_of_only st fs appName projectName hread
      have hg : fs.filter (DeleteFromProject.keeps st fs projectName appName)
          = fs.filter (fun e => !(Join [] [st.AppsDir, appName]).isPrefixOf e.path) :=
        List.filter_congr (fun e _ => keeps_eq_of_plan st fs projectName appName _ hplan e)
      rw [hg]
      have hgone := not_exists_under_of_RemoveAll fs _ (Join [] [st.AppsDir, appName]) _ rfl
        (appDir_prefix_overlay st appName)
      have hcont : overlayContainer st
          (fs.filter (fun e => !(Join [] [st.AppsDir, appName]).isPrefixOf e.path)) appName
          = Join [] [st.AppsDir, appName] := by
        unfold overlayContainer
        simp only [hgone, Bool.false_eq_true, ↓reduceIte]
      rw [hcont]
      exact not_exists_under_of_RemoveAll fs _ (Join [] [st.AppsDir, appName]) _ rfl
        (List.prefix_append _ _)
    · have hmany : 1 < names.length := by
        have hpos : 0 < names.length := List.length_pos_of_mem hmem
        omega
      have hplan := plan_of_many st fs appName projectName names hname hread hmem hmany
      have hg : fs.filter (DeleteFromProject.keeps st fs projectName appName)
          = fs.filter (fun e => !(overlayContainer st fs appName ++ [projectName]).isPrefixOf e.path) :=
        List.filter_congr (fun e _ => keeps_eq_of_plan st fs projectName appName _ hplan e)
      rw [hg]
      have hov := exists_after_RemoveAll fs (overlayContainer st fs appName) names projectName
        hread hmany _ (overlay_not_under_projectDir st fs appName projectName hex)
      have hcont : overlayContainer st
          (fs.filter (fun e => !(overlayContainer st fs appName ++ [projectName]).isPrefixOf e.path))
            appName = overlayContainer st fs appName :=
        overlayContainer_congr st _ fs appName hov
      rw [hcont]
      exact not_exists_under_of_RemoveAll fs _ _ _ rfl (List.prefix_refl _)
  · have habsent : ExistsOrDie fs (overlayContainer st fs appName ++ [projectName]) = false := by
      simpa using hex
    have hg : fs.filter (DeleteFromProject.keeps st fs projectName appName) = fs := by
      rw [List.filter_eq_self]
      intro e _
      exact plan_of_absent st fs appName projectName habsent e
    rw [hg]
    exact habsent

theorem ReadDir_nodup (fs : FS) (c : Path) (names : List String) (h : ReadDir fs c = .ok names) :
    names.Nodup := by
  unfold ReadDir at h
  split at h
  · cases h
  · injection h with h
    subst h
    exact List.nodup_dedup _

theorem listed_name_ne_empty (fs : FS) (c : Path) (names : List String)
    (h : ReadDir fs c = .ok names) (hwf : ∀ e ∈ fs, "" ∉ e.path) (a : String) (ha : a ∈ names) :
    a ≠ "" := by
  obtain ⟨e, he, t, ht⟩ := (mem_of_ReadDir _ _ _ h a).1 ha
  intro hempty
  apply hwf e he
  rw [← ht, hempty]
  simp

theorem appsDir_prefix_appDir (st : Store) (appName : String) :
    Join [] [st.AppsDir] <+: Join [] [st.AppsDir, appName] := by
  by_cases h : st.AppsDir = "" <;> by_cases ha : appName = "" <;> simp [Join, h, ha]

theorem mem_after_project_delete (st : Store) (projectName : String) (fs fs1 fs2 : FS)
    (apps : List String) (evs : List Event)
    (happs : ReadDir fs (Join [] [st.AppsDir]) = .ok apps)
    (hwf : ∀ e ∈ fs, "" ∉ e.path)
    (hdet : RunProjectDelete.detachAll st projectName fs apps = (fs1, evs, none))
    (hrm : Remove fs1 (Join [] [st.ProjectsDir, projectName ++ ".yaml"]) = .ok fs2) (e : Entry) :
    e ∈ fs2 ↔ e ∈ fs ∧ e.path ≠ Join [] [st.ProjectsDir, projectName ++ ".yaml"]
      ∧ ∀ b ∈ apps, DeleteFromProject.keeps st fs projectName b e = true := by
  have h1 := (detachAll_result st projectName apps fs fs1 evs (ReadDir_nodup _ _ _ happs)
    (listed_name_ne_empty _ _ _ happs hwf) hdet).1
  rw [Remove_result _ _ _ hrm, h1, List.mem_filter, List.mem_filter]
  simp only [List.all_eq_true, decide_eq_true_eq]
  constructor
  · rintro ⟨⟨he, hall⟩, hne⟩
    exact ⟨he, hne, hall⟩
  · rintro ⟨he, hne, hall⟩
    exact ⟨⟨he, hall⟩, hne⟩

theorem mem_under_app_after_project_delete (st : Store) (projectName : String) (fs fs1 fs2 : FS)
    (apps : List String) (evs : List Event)
    (happs : ReadDir fs (Join [] [st.AppsDir]) = .ok apps)
    (hwf : ∀ e ∈ fs, "" ∉ e.path)
    (hlayout : st.AppsDir ≠ "" ∧ st.AppsDir ≠ st.ProjectsDir)
    (hdet : RunProjectDelete.detachAll st projectName fs apps = (fs1, evs, none))
    (hrm : Remove fs1 (Join [] [st.ProjectsDir, projectName ++ ".yaml"]) = .ok fs2)
    (a : String) (ha : a ≠ "") (e : Entry) (hunder : Join [] [st.AppsDir, a] <+: e.path) :
    e ∈ fs2 ↔ e ∈ fs ∧ DeleteFromProject.keeps st fs projectName a e = true := by
  rw [mem_after_project_delete st projectName fs fs1 fs2 apps evs happs hwf hdet hrm e]
  constructor
  · rintro ⟨he, _, hall⟩
    refine ⟨he, hall a ?_⟩
    rw [appDir_eq st a ha] at hunder
    exact (mem_of_ReadDir _ _ _ happs a).2 ⟨e, he, hunder⟩
  · rintro ⟨he, hk⟩
    refine ⟨he, ?_, ?_⟩
    · intro hfile
      rw [hfile] at hunder
      exact file_not_under_appDir st a _ ha hlayout hunder
    · intro b hb
      by_cases hab : b = a
      · rw [hab]
        exact hk
      · apply keeps_of_not_under
        intro hbx
        exact hab (appDir_incomparable st b a e.path
          (listed_name_ne_empty _ _ _ happs hwf b hb) ha hbx hunder)

/-- C13 (counterexample): with a tenant repository of its own, application `foo`
is stored for `teamA` at `apps/foo/teamA` in the tenant repository.
`RunProjectDelete("teamA")` succeeds, clones and persists the meta repository
only, and the tenant repository still holds the overlay of `foo` for `teamA`,
which `RunAppGet("foo")` keeps finding. -/
theorem RunProjectDelete_leaves_tenant_overlay :
    (RunProjectDelete (splitEnv metaTeamA tenantFooTeamA) splitWriter "teamA").err = none
      ∧ (RunProjectDelete (splitEnv metaTeamA tenantFooTeamA) splitWriter "teamA").trace
          = [.clone (some exampleOpts), .remove ["projects", "teamA.yaml"],
             .persist .meta "chore: deleted project 'teamA'"]
      ∧ (splitEnv metaTeamA tenantFooTeamA).getRepo splitWriter.tenantRepoCloneOpts
          = .ok tenantFooTeamA
      ∧ ExistsOrDie tenantFooTeamA ["apps", "foo", "teamA"] = true
      ∧ (RunAppGet (splitEnv metaTeamA tenantFooTeamA) splitWriter "foo").err = none := by
  refine ⟨by rfl, by rfl, rfl, by decide, by rfl⟩

/-- C13 (amended): on a meta repository view whose paths have no empty
component, with a named apps directory other than the projects directory, a
successful `RunProjectDelete(p)` for a non-empty `p` leaves a meta view in
which `projects/<p>.yaml` is absent and no application has `p` in its overlay
container (`apps/<a>/overlays` when it exists, otherwise `apps/<a>`).  An
application without `p` in its container keeps all its nodes; one whose
container lists `p` alone is removed entirely; one whose container lists `p`
among several entries loses exactly the subtree `<container>/<p>`; outside the
apps directory only the project file goes.  `Persist` is called once, on the
meta repository, with message `chore: deleted project '<p>'`, and only the
meta repository is cloned. -/
theorem RunProjectDelete_detaches_in_meta_repo (env : Env) (n : NativeRepoTarget)
    (projectName : String) (repofs : FS)
    (hprep : env.prepareRepo n.metaRepoCloneOpts projectName = .ok repofs)
    (hname : projectName ≠ "")
    (hlayout : env.store.AppsDir ≠ "" ∧ env.store.AppsDir ≠ env.store.ProjectsDir)
    (hwf : ∀ e ∈ repofs, "" ∉ e.path)
    (hok : (RunProjectDelete env n projectName).err = none) :
    ∃ repofs1, (RunProjectDelete env n projectName).view = some repofs1
      ∧ ExistsOrDie repofs1 (Join [] [env.store.ProjectsDir, projectName ++ ".yaml"]) = false
      ∧ (∀ a, a ≠ "" →
          ExistsOrDie repofs1 (overlayContainer env.store repofs1 a ++ [projectName]) = false)
      ∧ (∀ a, a ≠ "" →
          ExistsOrDie repofs (overlayContainer env.store repofs a ++ [projectName]) = false →
          ∀ e, Join [] [env.store.AppsDir, a] <+: e.path → (e ∈ repofs1 ↔ e ∈ repofs))
      ∧ (∀ a, a ≠ "" →
          ReadDir repofs (overlayContainer env.store repofs a) = .ok [projectName] →
          ∀ q, Join [] [env.store.AppsDir, a] <+: q → ExistsOrDie repofs1 q = false)
      ∧ (∀ a names, a ≠ "" →
          ReadDir repofs (overlayContainer env.store repofs a) = .ok names →
          projectName ∈ names → 1 < names.length →
          ∀ e, Join [] [env.store.AppsDir, a] <+: e.path →
            (e ∈ repofs1 ↔ e ∈ repofs
              ∧ ¬ overlayContainer env.store repofs a ++ [projectName] <+: e.path))
      ∧ (∀ e, ¬ Join [] [env.store.AppsDir] <+: e.path →
          (e ∈ repofs1 ↔ e ∈ repofs
            ∧ e.path ≠ Join [] [env.store.ProjectsDir, projectName ++ ".yaml"]))
      ∧ (RunProjectDelete env n projectName).trace.filter Event.isPersist
          = [.persist .meta ("chore: deleted project '" ++ projectName ++ "'")]
      ∧ (∀ ev ∈ (RunProjectDelete env n projectName).trace, ∀ o, ev = Event.clone o →
          o = some n.metaRepoCloneOpts) := by
  obtain ⟨apps, fs1, evs, fs2, happs, hdet, hrm, hview, htrace⟩ :=
    RunProjectDelete_success env n projectName repofs hprep hok
  have hevs := (detachAll_result env.store projectName apps repofs fs1 evs
    (ReadDir_nodup _ _ _ happs) (listed_name_ne_empty _ _ _ happs hwf) hdet).2
  have hmem := mem_after_project_delete env.store projectName repofs fs1 fs2 apps evs happs hwf
    hdet hrm
  have happ := mem_under_app_after_project_delete env.store projectName repofs fs1 fs2 apps evs
    happs hwf hlayout hdet hrm
  refine ⟨fs2, hview, not_exists_of_Remove _ _ _ hrm, ?_, ?_, ?_, ?_, ?_, ?_, ?_⟩
  · intro a ha
    have hagree : ∀ c, Join [] [env.store.AppsDir, a] <+: c →
        ExistsOrDie fs2 c
          = ExistsOrDie (repofs.filter (DeleteFromProject.keeps env.store repofs projectName a)) c := by
      intro c hc
      rw [Bool.eq_iff_iff, ExistsOrDie_iff, ExistsOrDie_iff]
      constructor
      · rintro ⟨e, he, hce⟩
        exact ⟨e, List.mem_filter.2 ((happ a ha e (hc.trans hce)).1 he), hce⟩
      · rintro ⟨e, he, hce⟩
        exact ⟨e, (happ a ha e (hc.trans hce)).2 (List.mem_filter.1 he), hce⟩
    rw [overlayContainer_congr env.store fs2 _ a (hagree _ (appDir_prefix_overlay env.store a)),
      hagree _ ((appDir_prefix_overlayContainer env.store _ a).trans (List.prefix_append _ _))]
    exact no_overlay_after_detach env.store repofs a projectName hname
  · intro a ha habsent e hunder
    rw [happ a ha e hunder]
    constructor
    · exact fun h => h.1
    · exact fun h => ⟨h, plan_of_absent env.store repofs a projectName habsent e⟩
  · intro a ha honly q hq
    rw [ExistsOrDie_eq_false_iff]
    intro e he hqe
    have hk := ((happ a ha e (hq.trans hqe)).1 he).2
    rw [keeps_eq_of_plan _ _ _ _ _ (plan_of_only env.store repofs a projectName honly) e,
      (isPrefixOf_iff _ _).2 (hq.trans hqe)] at hk
    cases hk
  · intro a names ha hread hmemp hmany e hunder
    rw [happ a ha e hunder,
      keeps_eq_of_plan _ _ _ _ _ (plan_of_many env.store repofs a projectName names hname hread
        hmemp hmany) e]
    constructor
    · rintro ⟨he, hk⟩
      exact ⟨he, (isPrefixOf_eq_false_iff _ _).1 (by simpa using hk)⟩
    · rintro ⟨he, hk⟩
      exact ⟨he, by simpa using (isPrefixOf_eq_false_iff _ _).2 hk⟩
  · intro e hout
    rw [hmem e]
    constructor
    · exact fun h => ⟨h.1, h.2.1⟩
    · rintro ⟨he, hne⟩
      refine ⟨he, hne, fun b _ => ?_⟩
      apply keeps_of_not_under
      exact fun hb => hout ((appsDir_prefix_appDir env.store b).trans hb)
  · rw [htrace]
    have hnone : evs.filter Event.isPersist = [] := by
      rw [List.filter_eq_nil_iff]
      intro ev hev
      obtain ⟨d, hd⟩ := hevs ev hev
      subst hd
      simp [Event.isPersist]
    simp [List.filter_append, hnone, List.filter, Event.isPersist]
  · intro ev hev o ho
    subst ho
    rw [htrace] at hev
    rcases List.mem_append.1 hev with hev1 | hev1
    · rcases List.mem_append.1 hev1 with hev2 | hev2
      · rw [List.mem_singleton] at hev2
        injection hev2
      · obtain ⟨d, hd⟩ := hevs _ hev2
        cases hd
    · simp at hev1

/-- Witness of C13 (amended): deleting `teamA` from a shared repository where
`foo` has overlays `teamA` and `teamB`, `bar` only `teamA` and `baz` only `teamB`. -/
theorem RunProjectDelete_detaches_in_meta_repo_witness :
    (RunProjectDelete (exampleEnv metaThreeApps) teamAWriter "teamA").view
        = some [⟨["bootstrap", "argo-cd.yaml"], some "argocd"⟩,
                ⟨["apps", "foo", "overlays", "teamB", "config.json"], some "b"⟩,
                ⟨["apps", "baz", "overlays", "teamB", "config.json"], some "b"⟩,
                ⟨["projects", "teamB.yaml"], some "teamB"⟩]
      ∧ ∃ repofs1, (RunProjectDelete (exampleEnv metaThreeApps) teamAWriter "teamA").view
            = some repofs1
          ∧ ExistsOrDie repofs1
              (Join [] [(exampleEnv metaThreeApps).store.ProjectsDir, "teamA" ++ ".yaml"]) = false
          ∧ (∀ a, a ≠ "" →
              ExistsOrDie repofs1
                (overlayContainer (exampleEnv metaThreeApps).store repofs1 a ++ ["teamA"]) = false)
          ∧ (RunProjectDelete (exampleEnv metaThreeApps) teamAWriter "teamA").trace.filter
              Event.isPersist
              = [.persist .meta ("chore: deleted project '" ++ "teamA" ++ "'")] := by
  obtain ⟨r, hv, hfile, hnone, _, _, _, _, hp, _⟩ :=
    RunProjectDelete_detaches_in_meta_repo (exampleEnv metaThreeApps) teamAWriter "teamA"
      metaThreeApps rfl (by decide) (by decide) (by decide) (by rfl)
  exact ⟨by rfl, r, hv, hfile, hnone, hp⟩

theorem readFile_of_WriteFile (fs fs1 : FS) (p : Path) (data : String)
    (h : WriteFile fs p data = .ok fs1) :
    readFile fs1 p = some data ∧ ∀ q, q ≠ p → readFile fs1 q = readFile fs q := by
  unfold WriteFile at h
  split at h
  · cases h
  · injection h with h
    subst h
    constructor
    · unfold readFile
      have hnone : (fs.filter (fun e => decide (e.path ≠ p))).find?
          (fun e => decide (e.path = p) && e.data.isSome) = none := by
        rw [List.find?_eq_none]
        intro e he
        have hne : e.path ≠ p := by simpa using (List.mem_filter.1 he).2
        simp [hne]
      rw [List.find?_append, hnone]
      simp
    · intro q hq
      unfold readFile
      have hlast : ([⟨p, some data⟩] : FS).find? (fun e => decide (e.path = q) && e.data.isSome)
          = none := by
        simp [List.find?, Ne.symm hq]
      have hsame : (fs.filter (fun e => decide (e.path ≠ p))).find?
          (fun e => decide (e.path = q) && e.data.isSome)
          = fs.find? (fun e => decide (e.path = q) && e.data.isSome) := by
        rw [List.find?_filter]
        apply find?_eq_of_agree
        intro e _
        by_cases heq : e.path = q
        · have hep : e.path ≠ p := fun h1 => hq (heq ▸ h1)
          simp [heq, hep, hq]
        · simp [heq]
      rw [List.find?_append, hsame, hlast]
      simp

/-- C21: once the clone and the marshalling have succeeded, `SecretStoreCreate`
returns the conflict outcome (error `secret store '<name>' already exists`, the
view as cloned, no write and no Persist) if and only if `ss-<id>.yaml` exists
and `force` is false.  Otherwise it makes one bulk write of that single file
and, when the file can be written, one Persist with message
`chore: added secret store '<name>'` whose verdict is the result of the call;
the file then holds the marshalled store and every other file is unchanged. -/
theorem SecretStoreCreate_conflict_iff_exists_and_not_force (env : Env) (n : NativeRepoTarget)
    (ss : SecretStore) (force : Bool) (repofs : FS) (ssYaml : String)
    (hprep : env.prepareRepo n.metaRepoCloneOpts "" = .ok repofs)
    (hm : env.codec.marshalSecretStore ss = .ok ssYaml) :
    (SecretStoreCreate env n ss force
        = ⟨some (.new ("secret store '" ++ ss.Name ++ "' already exists")), some repofs,
            [.clone (some n.metaRepoCloneOpts)]⟩
      ↔ (ExistsOrDie repofs (secretStorePath env.store (ss.annotation_of "squidflow.github.io/id"))
            = true ∧ force = false))
    ∧ ((ExistsOrDie repofs (secretStorePath env.store (ss.annotation_of "squidflow.github.io/id"))
            = false ∨ force = true) →
        ∀ repofs1,
          WriteFile repofs (secretStorePath env.store (ss.annotation_of "squidflow.github.io/id"))
              ssYaml = .ok repofs1 →
          SecretStoreCreate env n ss force
              = ⟨env.Persist .meta repofs1 ("chore: added secret store '" ++ ss.Name ++ "'"),
                  some repofs1,
                  [.clone (some n.metaRepoCloneOpts),
                   .bulkWrite [secretStorePath env.store (ss.annotation_of "squidflow.github.io/id")],
                   .persist .meta ("chore: added secret store '" ++ ss.Name ++ "'")]⟩
            ∧ readFile repofs1 (secretStorePath env.store (ss.annotation_of "squidflow.github.io/id"))
                = some ssYaml
            ∧ ∀ q, q ≠ secretStorePath env.store (ss.annotation_of "squidflow.github.io/id") →
                readFile repofs1 q = readFile repofs q) := by
  have hjoin : JoinManifests [ssYaml] = ssYaml := rfl
  constructor
  · constructor
    · intro h
      by_contra hnot
      have hcond : (ExistsOrDie repofs
          (secretStorePath env.store (ss.annotation_of "squidflow.github.io/id")) && !force) = false := by
        cases hex : ExistsOrDie repofs
            (secretStorePath env.store (ss.annotation_of "squidflow.github.io/id")) <;>
          cases hf : force <;> simp_all
      have htrace := congrArg Outcome.trace h
      unfold SecretStoreCreate at htrace
      simp only [hprep, hm, hcond, Bool.false_eq_true, ↓reduceIte] at htrace
      split at htrace <;> try split at htrace
      all_goals simp at htrace
    · rintro ⟨hex, hf⟩
      unfold SecretStoreCreate
      simp [hprep, hm, hex, hf]
  · intro hor repofs1 hw
    have hcond : (ExistsOrDie repofs
        (secretStorePath env.store (ss.annotation_of "squidflow.github.io/id")) && !force) = false := by
      rcases hor with hex | hf
      · simp [hex]
      · simp [hf]
    obtain ⟨hread, hframe⟩ := readFile_of_WriteFile _ _ _ _ hw
    refine ⟨?_, hread, hframe⟩
    have hbulk : BulkWrite repofs
        [{ Filename := secretStorePath env.store (ss.annotation_of "squidflow.github.io/id"),
           Data := JoinManifests [ssYaml], ErrMsg := "failed to create secret store file" }]
        = (repofs1, none) := by
      simp [BulkWrite, hjoin, hw]
    unfold SecretStoreCreate
    simp only [hprep, hm, hcond, Bool.false_eq_true, ↓reduceIte, hbulk]
    cases hp : env.Persist .meta repofs1 ("chore: added secret store '" ++ ss.Name ++ "'") <;>
      simp [hp]

theorem SecretStoreCreate_conflict_iff_exists_and_not_force_witness :
    (SecretStoreCreate (exampleEnv repoWithSecretStore) teamAWriter storedSecretStore false
        = ⟨some (.new ("secret store '" ++ storedSecretStore.Name ++ "' already exists")),
            some repoWithSecretStore, [.clone (some teamAWriter.metaRepoCloneOpts)]⟩
      ↔ (ExistsOrDie repoWithSecretStore
            (secretStorePath (exampleEnv repoWithSecretStore).store
              (storedSecretStore.annotation_of "squidflow.github.io/id")) = true ∧ false = false))
    ∧ ExistsOrDie repoWithSecretStore
        (secretStorePath exampleStore "abc") = true :=
  ⟨(SecretStoreCreate_conflict_iff_exists_and_not_force (exampleEnv repoWithSecretStore) teamAWriter
      storedSecretStore false repoWithSecretStore "kind: SecretStore name: vault-store" rfl rfl).1,
    by decide⟩

theorem handler_writer_call_vault (env : Env) (bound : Except GoErr SecretStoreCreateReq)
    (w : Outcome) (hw : (handler.SecretStoreCreate env bound).writer = some w) :
    ∃ req want provider vault, bound = .ok req
      ∧ env.codec.unmarshalSecretStore req.SecretStoreYaml = .ok want
      ∧ want.Provider = some provider ∧ provider.Vault = some vault := by
  unfold handler.SecretStoreCreate at hw
  cases bound with
  | error err => simp at hw
  | ok req =>
    simp only [] at hw
    cases hparse : env.codec.unmarshalSecretStore req.SecretStoreYaml with
    | error err => simp [hparse] at hw
    | ok want =>
      simp only [hparse] at hw
      cases hp : want.Provider with
      | none => simp [hp] at hw
      | some provider =>
        simp only [hp] at hw
        cases hv : provider.Vault with
        | none => simp [hv] at hw
        | some v => exact ⟨req, want, provider, v, rfl, hparse, hp, hv⟩

/-- C24: a create request whose SecretStore document has no provider block, or a
provider block without a Vault provider, is answered with status 400 (`Provider
configuration is required`, respectively `Only Vault provider is supported`) and
the writer is never called: no secret store is annotated, no clone options are
built, no repository is accessed.  And for every request at all: when the
handler does call the writer, the parsed document has a provider block with a
Vault provider. -/
theorem handler_SecretStoreCreate_requires_vault (env : Env) (req : SecretStoreCreateReq)
    (want : SecretStore)
    (hparse : env.codec.unmarshalSecretStore req.SecretStoreYaml = .ok want)
    (hno : want.Provider = none ∨ ∃ provider, want.Provider = some provider ∧ provider.Vault = none) :
    (handler.SecretStoreCreate env (.ok req)
        = ⟨400, some (if want.Provider = none then "Provider configuration is required"
                      else "Only Vault provider is supported"), none, none, none⟩)
      ∧ ∀ (bound : Except GoErr SecretStoreCreateReq) (w : Outcome),
          (handler.SecretStoreCreate env bound).writer = some w →
          ∃ req1 want1 provider vault, bound = .ok req1
            ∧ env.codec.unmarshalSecretStore req1.SecretStoreYaml = .ok want1
            ∧ want1.Provider = some provider ∧ provider.Vault = some vault := by
  constructor
  · unfold handler.SecretStoreCreate
    simp only [hparse]
    rcases hno with hp | ⟨provider, hp, hv⟩
    · simp [hp]
    · simp [hp, hv]
  · intro bound w hw
    exact handler_writer_call_vault env bound w hw

/-- Witness of C24: a document without provider block. -/
theorem handler_SecretStoreCreate_requires_vault_witness :
    handler.SecretStoreCreate (exampleEnv bootstrappedRepo) (.ok ⟨"no-provider-with-id"⟩)
      = ⟨400, some "Provider configuration is required", none, none, none⟩ :=
  (handler_SecretStoreCreate_requires_vault (exampleEnv bootstrappedRepo) ⟨"no-provider-with-id"⟩
      { Kind := "SecretStore", Name := "plain",
        Annotations := some [("squidflow.github.io/id", "client-id")] } rfl (Or.inl rfl)).1

/-- C25: whenever `generateProjectManifests` succeeds on options `o`, the
ApplicationSet document it returns is the marshalling of an ApplicationSet with
exactly two generators, both git-file generators requeued every 20 seconds with
one file pattern each: the first watches
`path.Join(InstallationPath, apps, "**", o.Name, "config.json")` and has the
empty template, the second watches
`path.Join(InstallationPath, apps, "**", o.Name, "config_dir.json")` and its
template has a directory source with `Recurse = true`; and the AppProject
document it returns is the marshalling of an AppProject with source repos
`["*"]` and the single destination with server `*` and namespace `*`. -/
theorem generateProjectManifests_two_git_file_generators (st : Store) (c : Codec)
    (o : GenerateProjectOptions) (m : ProjectManifests)
    (h : generateProjectManifests st c o = .ok m) :
    ∃ (project : AppProject) (appSet : ApplicationSet) (g1 g2 : GitGenerator),
      c.marshalAppProject project = .ok m.projectYAML
        ∧ c.marshalAppSet appSet = .ok m.appSetYAML
        ∧ appSet.Spec.Generators = [{ Git := some g1 }, { Git := some g2 }]
        ∧ g1.RequeueAfterSeconds = some 20 ∧ g2.RequeueAfterSeconds = some 20
        ∧ g1.Files = [{ Path := pathJoin [o.InstallationPath, st.AppsDir, "**", o.Name, "config.json"] }]
        ∧ g2.Files
            = [{ Path := pathJoin [o.InstallationPath, st.AppsDir, "**", o.Name, "config_dir.json"] }]
        ∧ g1.Template = {}
        ∧ g2.Template.Spec.Source
            = some { Directory := some { Recurse := true, Exclude := "\x7b\x7b exclude \x7d\x7d",
                                         Include := "\x7b\x7b include \x7d\x7d" } }
        ∧ project.Spec.SourceRepos = ["*"]
        ∧ project.Spec.Destinations = [{ Server := "*", Namespace := "*" }] :=
  ⟨generateProjectManifests.project st o,
   createAppSet.object st (generateProjectManifests.appSetOptions st c o), _, _,
   (generateProjectManifests_ok st c o m h).1, (generateProjectManifests_ok st c o m h).2,
   rfl, rfl, rfl, rfl, rfl, rfl, rfl, rfl, rfl⟩

/-- Witness of C25: project `teamA` under the installation path `gitops/`; the
patterns are cleaned by `path.Join`. -/
theorem generateProjectManifests_two_git_file_generators_witness :
    ∃ (appSet : ApplicationSet) (g1 g2 : GitGenerator),
      exampleCodec.marshalAppSet appSet = .ok "kind: ApplicationSet name: teamA namespace: argocd"
        ∧ appSet.Spec.Generators = [{ Git := some g1 }, { Git := some g2 }]
        ∧ g1.Files = [{ Path := "gitops/apps/**/teamA/config.json" }]
        ∧ g2.Files = [{ Path := "gitops/apps/**/teamA/config_dir.json" }] :=
  match generateProjectManifests_two_git_file_generators exampleStore exampleCodec
      { teamAGenOptions with InstallationPath := "gitops/" }
      ⟨"kind: AppProject name: teamA namespace: argocd",
       "kind: ApplicationSet name: teamA namespace: argocd",
       exampleCodec.clusterResReadmeTpl.replace "\x7bCLUSTER\x7d" "https://kubernetes.default.svc",
       "name:  server: https://kubernetes.default.svc"⟩ (by rfl) with
  | ⟨_, appSet, g1, g2, _, ha, hg, _, _, hf1, hf2, _⟩ =>
    ⟨appSet, g1, g2, ha, hg, hf1.trans (by decide), hf2.trans (by decide)⟩

/-! ## The two implementations of the collapse rule -/

theorem plans_agree (st : Store) (project : String) (fs : FS) (appName : String)
    (hscope : project ≠ "")
    (hchild : ExistsOrDie fs (overlayContainer st fs appName ++ [project]) = true) :
    ∃ dir msg, RunAppDelete.plan st project fs appName = .ok (dir, msg)
      ∧ DeleteFromProject.plan st fs appName project = .ok (some dir) := by
  obtain ⟨e, he, hpe⟩ := (ExistsOrDie_iff _ _).1 hchild
  have hcont : ExistsOrDie fs (overlayContainer st fs appName) = true :=
    (ExistsOrDie_iff _ _).2 ⟨e, he, (List.prefix_append _ _).trans hpe⟩
  obtain ⟨names, hnames⟩ := ReadDir_of_exists _ _ hcont
  have hmem : project ∈ names := (mem_of_ReadDir _ _ _ hnames project).2 ⟨e, he, hpe⟩
  by_cases hlen : names.length = 1
  · obtain ⟨x, hx⟩ := List.length_eq_one.1 hlen
    have hxp : project = x := by simpa [hx] using hmem
    rw [hx, ← hxp] at hnames
    exact ⟨_, _, plan_of_single_overlay st project fs appName hnames,
      plan_of_only st fs appName project hnames⟩
  · have hpos : 0 < names.length := List.length_pos_of_mem hmem
    have hmany : 1 < names.length := by omega
    exact ⟨_, _, plan_of_many_overlays st project fs appName names hscope hnames hmem hmany,
      plan_of_many st fs appName project names hscope hnames hmem hmany⟩

theorem DeleteFromProject_of_not_child (st : Store) (fs : FS) (appName projectName : String)
    (hcont : ExistsOrDie fs (overlayContainer st fs appName) = true)
    (hchild : ExistsOrDie fs (overlayContainer st fs appName ++ [projectName]) = false) :
    DeleteFromProject st fs appName projectName = .ok (fs, []) := by
  obtain ⟨names, hnames⟩ := ReadDir_of_exists _ _ hcont
  have hnot : projectName ∉ names := by
    intro hmem
    obtain ⟨e, he, hpe⟩ := (mem_of_ReadDir _ _ _ hnames projectName).1 hmem
    have := (ExistsOrDie_iff _ _).2 ⟨e, he, hpe⟩
    simp [hchild] at this
  have hany : names.any (fun project => decide (project = projectName)) = false := by
    rw [List.any_eq_false]
    intro x hx
    have hne : x ≠ projectName := fun h => hnot (h ▸ hx)
    simp [hne]
  have hplan : DeleteFromProject.plan st fs appName projectName = .ok none := by
    rw [DeleteFromProject_plan_eq, hnames]
    simp [hany]
  unfold DeleteFromProject
  rw [hplan]

theorem overlayContainer_exists (st : Store) (fs : FS) (appName : String)
    (happ : ExistsOrDie fs (Join [] [st.AppsDir, appName]) = true) :
    ExistsOrDie fs (overlayContainer st fs appName) = true := by
  unfold overlayContainer
  by_cases h : ExistsOrDie fs (Join (Join [] [st.AppsDir, appName]) [st.OverlaysDir]) = true
  · simp [h]
  · simp [h, happ]

/-- C28: on a view where `apps/<a>` exists and for a writer scoped to a non-empty
project `p`: when `p` is a child of the overlay container of `a`,
`DeleteFromProject(repofs, a, p)` succeeds with one removal and `RunAppDelete(a)`
makes the same removal and leaves the same tree; when `p` is not a child of the
container, `RunAppDelete` returns the error `application '<a>' not found in
project '<p>'` and `DeleteFromProject` returns success, and both leave the tree
unchanged. -/
theorem RunAppDelete_agrees_with_DeleteFromProject (env : Env) (n : NativeRepoTarget)
    (appName : String) (repofs : FS)
    (hclone : env.getRepo n.tenantRepoCloneOpts = .ok repofs)
    (happ : ExistsOrDie repofs (Join [] [env.store.AppsDir, appName]) = true)
    (hscope : n.project ≠ "") :
    (ExistsOrDie repofs (overlayContainer env.store repofs appName ++ [n.project]) = true →
        ∃ dir msg repofs1,
          DeleteFromProject env.store repofs appName n.project = .ok (repofs1, [.removeAll dir])
            ∧ (RunAppDelete env n appName).view = some repofs1
            ∧ (RunAppDelete env n appName).trace
                = [.clone n.tenantRepoCloneOpts, .removeAll dir, .persist .tenant msg])
      ∧ (ExistsOrDie repofs (overlayContainer env.store repofs appName ++ [n.project]) = false →
          RunAppDelete env n appName
              = ⟨some (.new ("application '" ++ appName ++ "' not found in project '"
                  ++ n.project ++ "'")), some repofs, [.clone n.tenantRepoCloneOpts]⟩
            ∧ DeleteFromProject env.store repofs appName n.project = .ok (repofs, [])) := by
  constructor
  · intro hchild
    obtain ⟨dir, msg, hplan1, hplan2⟩ := plans_agree env.store n.project repofs appName hscope hchild
    refine ⟨dir, msg, repofs.filter (fun e => !dir.isPrefixOf e.path), ?_, ?_, ?_⟩
    · unfold DeleteFromProject
      rw [hplan2]
      rfl
    · unfold RunAppDelete
      simp only [hclone, happ, hplan1, RemoveAll, Bool.not_true, Bool.false_eq_true, ↓reduceIte]
      split <;> rfl
    · unfold RunAppDelete
      simp only [hclone, happ, hplan1, RemoveAll, Bool.not_true, Bool.false_eq_true, ↓reduceIte]
      split <;> rfl
  · intro hchild
    constructor
    · have hplan : RunAppDelete.plan env.store n.project repofs appName
          = .error (.new ("application '" ++ appName ++ "' not found in project '"
              ++ n.project ++ "'")) := by
        unfold RunAppDelete.plan
        simp [hscope, Join_single _ _ hscope, hchild]
      unfold RunAppDelete
      simp [hclone, happ, hplan]
    · exact DeleteFromProject_of_not_child _ _ _ _ (overlayContainer_exists _ _ _ happ) hchild

/-- Witness of C28: `foo` has the overlays `teamA` and `teamB`; `teamA` is
detached by both implementations, `teamC` is a child of neither. -/
theorem RunAppDelete_agrees_with_DeleteFromProject_witness :
    (∃ dir msg repofs1,
        DeleteFromProject exampleStore fooTwoOverlays "foo" "teamA" = .ok (repofs1, [.removeAll dir])
          ∧ (RunAppDelete (exampleEnv fooTwoOverlays) teamAWriter "foo").view = some repofs1
          ∧ (RunAppDelete (exampleEnv fooTwoOverlays) teamAWriter "foo").trace
              = [.clone teamAWriter.tenantRepoCloneOpts, .removeAll dir, .persist .tenant msg])
      ∧ DeleteFromProject exampleStore fooTwoOverlays "foo" "teamC" = .ok (fooTwoOverlays, []) :=
  ⟨(RunAppDelete_agrees_with_DeleteFromProject (exampleEnv fooTwoOverlays) teamAWriter "foo"
      fooTwoOverlays rfl (by decide) (by decide)).1 (by decide),
   ((RunAppDelete_agrees_with_DeleteFromProject (exampleEnv fooTwoOverlays) teamCWriter "foo"
      fooTwoOverlays rfl (by decide) (by decide)).2 (by decide)).2⟩

/-! ## Discovery patterns: coverage and isolation -/

theorem segMatch_common_prefix (pre pats names : List String)
    (h : segMatch pats names = true) : segMatch (pre ++ pats) (pre ++ names) = true := by
  induction pre with
  | nil => exact h
  | cons x pre ih =>
    simp only [List.cons_append]
    unfold segMatch
    split
    · rw [List.any_eq_true]
      exact ⟨pre ++ names, by simp, ih⟩
    · simp [globMatch_self, ih]

theorem segMatch_doublestar (pats names before : List String) (first : String)
    (h : segMatch pats names = true) :
    segMatch ("**" :: pats) (first :: (before ++ names)) = true := by
  unfold segMatch
  simp only [↓reduceIte, List.any_eq_true]
  exact ⟨names, (List.mem_tails _ _).2 (List.suffix_append _ _), h⟩

theorem globMatch_literal (ps cs : List Char) (hstar : '*' ∉ ps)
    (h : globMatch ps cs = true) : ps = cs := by
  induction ps generalizing cs with
  | nil =>
    cases cs with
    | nil => rfl
    | cons c cs => simp [globMatch] at h
  | cons p ps ih =>
    have hp : p ≠ '*' := fun hp => hstar (by simp [hp])
    have hps : '*' ∉ ps := fun hmem => hstar (by simp [hmem])
    unfold globMatch at h
    simp only [hp, ↓reduceIte] at h
    cases cs with
    | nil => simp at h
    | cons c cs =>
      simp only [Bool.and_eq_true, decide_eq_true_eq] at h
      rw [h.1, ih cs hps h.2]

theorem segMatch_literal_end (pats names : List String) (p c : String)
    (hp : '*' ∉ p.toList) (hc : '*' ∉ c.toList)
    (h : segMatch (pats ++ [p, c]) names = true) : ∃ init, names = init ++ [p, c] := by
  have hp2 : p ≠ "**" := by
    intro heq
    apply hp
    rw [heq]
    decide
  have hc2 : c ≠ "**" := by
    intro heq
    apply hc
    rw [heq]
    decide
  induction pats generalizing names with
  | nil =>
    simp only [List.nil_append] at h
    unfold segMatch at h
    simp only [hp2, ↓reduceIte] at h
    cases names with
    | nil => simp at h
    | cons n1 rest =>
      simp only [Bool.and_eq_true] at h
      obtain ⟨h1, h2⟩ := h
      unfold segMatch at h2
      simp only [hc2, ↓reduceIte] at h2
      cases rest with
      | nil => simp at h2
      | cons n2 rest2 =>
        simp only [Bool.and_eq_true] at h2
        obtain ⟨h3, h4⟩ := h2
        unfold segMatch at h4
        have hnil : rest2 = [] := by simpa using h4
        have e1 : p = n1 := String.ext (globMatch_literal _ _ hp h1)
        have e2 : c = n2 := String.ext (globMatch_literal _ _ hc h3)
        exact ⟨[], by simp [hnil, e1, e2]⟩
  | cons x pats ih =>
    simp only [List.cons_append] at h
    unfold segMatch at h
    split at h
    · cases names with
      | nil => simp at h
      | cons n rest =>
        simp only [List.any_eq_true] at h
        obtain ⟨t, ht, hm⟩ := h
        obtain ⟨init, hinit⟩ := ih t hm
        obtain ⟨front, hfront⟩ := (List.mem_tails _ _).1 ht
        exact ⟨n :: (front ++ init), by simp [← hfront, hinit]⟩
    · cases names with
      | nil => simp at h
      | cons n rest =>
        simp only [Bool.and_eq_true] at h
        obtain ⟨init, hinit⟩ := ih rest h.2
        exact ⟨n :: init, by simp [hinit]⟩

theorem segMatch_other_project (pats before : List String) (p q c : String)
    (hp : '*' ∉ p.toList) (hc : '*' ∉ c.toList) (hne : q ≠ p) :
    segMatch (pats ++ [p, c]) (before ++ [q, c]) = false := by
  cases hm : segMatch (pats ++ [p, c]) (before ++ [q, c]) with
  | false => rfl
  | true =>
    exfalso
    obtain ⟨init, hinit⟩ := segMatch_literal_end pats _ p c hp hc hm
    have h1 : (before ++ [q, c]).reverse = (init ++ [p, c]).reverse := by rw [hinit]
    simp only [List.reverse_append, List.reverse_cons, List.reverse_nil, List.nil_append,
      List.cons_append, List.cons.injEq] at h1
    exact hne h1.2.1

theorem splitSlash_ne_nil (s : List Char) : splitSlash s ≠ [] := by
  induction s with
  | nil => simp [splitSlash]
  | cons c cs ih =>
    unfold splitSlash
    split
    · simp
    · split <;> simp

theorem splitSlash_append_slash (xs ys : List Char) :
    splitSlash (xs ++ '/' :: ys) = splitSlash xs ++ splitSlash ys := by
  induction xs with
  | nil => simp [splitSlash]
  | cons c xs ih =>
    by_cases hc : c = '/'
    · simp [splitSlash, hc, ih]
    · have h1 : splitSlash (c :: (xs ++ '/' :: ys))
          = match splitSlash (xs ++ '/' :: ys) with
            | [] => [[c]]
            | h :: t => (c :: h) :: t := by
        simp [splitSlash, hc]
      have h2 : splitSlash (c :: xs)
          = match splitSlash xs with
            | [] => [[c]]
            | h :: t => (c :: h) :: t := by
        simp [splitSlash, hc]
      rw [List.cons_append, h1, h2, ih]
      cases hs : splitSlash xs with
      | nil => exact absurd hs (splitSlash_ne_nil xs)
      | cons h t => simp

theorem splitSlash_of_no_slash (c : List Char) (h : '/' ∉ c) : splitSlash c = [c] := by
  induction c with
  | nil => rfl
  | cons x xs ih =>
    have hx : x ≠ '/' := fun hx => h (by simp [hx])
    have hxs : '/' ∉ xs := fun hm => h (by simp [hm])
    simp [splitSlash, hx, ih hxs]

theorem no_slash_of_splitSlash (s : List Char) : ∀ c ∈ splitSlash s, '/' ∉ c := by
  induction s with
  | nil => simp [splitSlash]
  | cons x xs ih =>
    intro c hc
    by_cases hx : x = '/'
    · simp only [splitSlash, hx, ↓reduceIte, List.mem_cons] at hc
      rcases hc with h | h
      · simp [h]
      · exact ih c h
    · have h2 : splitSlash (x :: xs)
          = match splitSlash xs with
            | [] => [[x]]
            | h :: t => (x :: h) :: t := by
        simp [splitSlash, hx]
      rw [h2] at hc
      cases hs : splitSlash xs with
      | nil => exact absurd hs (splitSlash_ne_nil xs)
      | cons h t =>
        rw [hs] at hc ih
        simp only [List.mem_cons] at hc
        rcases hc with h1 | h1
        · rw [h1]
          have := ih h (by simp)
          intro hm
          simp only [List.mem_cons] at hm
          rcases hm with h3 | h3
          · exact hx h3.symm
          · exact this h3
        · exact ih c (by simp [h1])

theorem splitSlash_joinSlash (comps : List (List Char)) (hne : comps ≠ [])
    (h : ∀ c ∈ comps, '/' ∉ c) : splitSlash (joinSlash comps) = comps := by
  induction comps with
  | nil => exact absurd rfl hne
  | cons c rest ih =>
    cases rest with
    | nil => simpa [joinSlash] using splitSlash_of_no_slash c (h c (by simp))
    | cons d rest2 =>
      have hj : joinSlash (c :: d :: rest2) = c ++ '/' :: joinSlash (d :: rest2) := rfl
      rw [hj, splitSlash_append_slash, splitSlash_of_no_slash c (h c (by simp)),
        ih (by simp) (fun x hx => h x (by simp [hx]))]
      rfl

theorem cleanStep_plain (rooted : Bool) (out : List (List Char)) (c : List Char)
    (h1 : c ≠ []) (h2 : c ≠ ['.']) (h3 : c ≠ ['.', '.']) :
    cleanStep rooted out c = out ++ [c] := by
  simp [cleanStep, h1, h2, h3]

theorem foldl_cleanStep_plain (rooted : Bool) (out rest : List (List Char))
    (h : ∀ c ∈ rest, c ≠ [] ∧ c ≠ ['.'] ∧ c ≠ ['.', '.']) :
    rest.foldl (cleanStep rooted) out = out ++ rest := by
  induction rest generalizing out with
  | nil => simp
  | cons c rest ih =>
    obtain ⟨h1, h2, h3⟩ := h c (by simp)
    rw [List.foldl_cons, cleanStep_plain rooted out c h1 h2 h3,
      ih _ (fun x hx => h x (by simp [hx]))]
    simp

theorem cleanStep_good (rooted : Bool) (out : List (List Char)) (c : List Char)
    (hout : ∀ x ∈ out, x ≠ [] ∧ '/' ∉ x) (hc : '/' ∉ c) :
    ∀ x ∈ cleanStep rooted out c, x ≠ [] ∧ '/' ∉ x := by
  have hpush : c ≠ [] → ∀ x ∈ out ++ [c], x ≠ [] ∧ '/' ∉ x := by
    intro hne x hx
    rcases List.mem_append.1 hx with h | h
    · exact hout x h
    · simp only [List.mem_singleton] at h
      rw [h]
      exact ⟨hne, hc⟩
  unfold cleanStep
  split
  · exact hout
  · rename_i hnot
    have hne : c ≠ [] := fun h => hnot (Or.inl h)
    split
    · split
      · split
        · exact hpush hne
        · intro x hx
          exact hout x (List.mem_of_mem_dropLast hx)
      · split
        · exact hout
        · exact hpush hne
    · exact hpush hne

theorem foldl_cleanStep_good (rooted : Bool) (out comps : List (List Char))
    (hout : ∀ x ∈ out, x ≠ [] ∧ '/' ∉ x) (hc : ∀ c ∈ comps, '/' ∉ c) :
    ∀ x ∈ comps.foldl (cleanStep rooted) out, x ≠ [] ∧ '/' ∉ x := by
  induction comps generalizing out with
  | nil => simpa using hout
  | cons c rest ih =>
    rw [List.foldl_cons]
    exact ih _ (cleanStep_good rooted out c hout (hc c (by simp)))
      (fun x hx => hc x (by simp [hx]))

theorem filter_splitSlash_joinSlash (comps : List (List Char))
    (h : ∀ c ∈ comps, c ≠ [] ∧ '/' ∉ c) :
    (splitSlash (joinSlash comps)).filter (fun c => c ≠ []) = comps := by
  cases comps with
  | nil => simp [joinSlash, splitSlash]
  | cons c rest =>
    rw [splitSlash_joinSlash _ (by simp) (fun x hx => (h x hx).2)]
    rw [List.filter_eq_self]
    intro x hx
    simpa using (h x hx).1

theorem names_of_pathClean (s : List Char)
    (hne : (splitSlash s).foldl (cleanStep (decide (s.head? = some '/'))) [] ≠ []) :
    (splitSlash (pathClean s)).filter (fun c => c ≠ [])
      = (splitSlash s).foldl (cleanStep (decide (s.head? = some '/'))) [] := by
  have hgood := foldl_cleanStep_good (decide (s.head? = some '/')) [] (splitSlash s)
    (by simp) (no_slash_of_splitSlash s)
  unfold pathClean
  simp only
  split
  · have hsplit : splitSlash ('/' :: joinSlash
        ((splitSlash s).foldl (cleanStep (decide (s.head? = some '/'))) []))
        = [] :: splitSlash (joinSlash
          ((splitSlash s).foldl (cleanStep (decide (s.head? = some '/'))) [])) := by
      simp [splitSlash]
    rw [hsplit, List.filter_cons]
    simp only [ne_eq, not_true_eq_false, decide_False, Bool.false_eq_true, ↓reduceIte]
    exact filter_splitSlash_joinSlash _ hgood
  · try rw [if_neg hne]
    exact filter_splitSlash_joinSlash _ hgood

theorem head_of_plain_join (x : List Char) (rest : List (List Char)) (hx : x ≠ [])
    (hslash : '/' ∉ x) : (joinSlash (x :: rest)).head? ≠ some '/' := by
  cases x with
  | nil => exact absurd rfl hx
  | cons a t =>
    have ha : a ≠ '/' := fun h => hslash (by simp [h])
    cases rest with
    | nil => simpa [joinSlash] using ha
    | cons d rest2 =>
      have hj : joinSlash ((a :: t) :: d :: rest2) = (a :: t) ++ '/' :: joinSlash (d :: rest2) := rfl
      rw [hj]
      simpa using ha

theorem names_of_joined (pre : List Char) (rest : List (List Char)) (hne : rest ≠ [])
    (hplain : ∀ c ∈ rest, c ≠ [] ∧ '/' ∉ c ∧ c ≠ ['.'] ∧ c ≠ ['.', '.']) :
    (splitSlash (pathClean (joinSlash (if pre = [] then rest else pre :: rest)))).filter
        (fun c => c ≠ [])
      = (splitSlash pre).foldl (cleanStep (decide (pre.head? = some '/'))) [] ++ rest := by
  have hplain2 : ∀ c ∈ rest, c ≠ [] ∧ c ≠ ['.'] ∧ c ≠ ['.', '.'] :=
    fun c hc => ⟨(hplain c hc).1, (hplain c hc).2.2.1, (hplain c hc).2.2.2⟩
  have hslash : ∀ c ∈ rest, '/' ∉ c := fun c hc => (hplain c hc).2.1
  obtain ⟨x, xs, hrest⟩ : ∃ x xs, rest = x :: xs := by
    cases rest with
    | nil => exact absurd rfl hne
    | cons x xs => exact ⟨x, xs, rfl⟩
  by_cases hpre : pre = []
  · subst hpre
    simp only [↓reduceIte]
    have hroot : decide ((joinSlash rest).head? = some '/') = false := by
      rw [hrest]
      exact decide_eq_false (head_of_plain_join x xs (hplain x (by simp [hrest])).1
        (hslash x (by simp [hrest])))
    have hfold : (splitSlash (joinSlash rest)).foldl
        (cleanStep (decide ((joinSlash rest).head? = some '/'))) [] = rest := by
      rw [splitSlash_joinSlash rest hne hslash, foldl_cleanStep_plain _ _ _ hplain2]
      simp
    rw [names_of_pathClean _ (by rw [hfold]; exact hne), hfold]
    simp [splitSlash, cleanStep]
  · simp only [hpre, ↓reduceIte]
    have hj : joinSlash (pre :: rest) = pre ++ '/' :: joinSlash rest := by
      rw [hrest]
      rfl
    have hhead : (pre ++ '/' :: joinSlash rest).head? = pre.head? := by
      cases pre with
      | nil => exact absurd rfl hpre
      | cons a t => rfl
    have hfold : (splitSlash (joinSlash (pre :: rest))).foldl
        (cleanStep (decide ((joinSlash (pre :: rest)).head? = some '/'))) []
        = (splitSlash pre).foldl (cleanStep (decide (pre.head? = some '/'))) [] ++ rest := by
      rw [hj, hhead, splitSlash_append_slash, splitSlash_joinSlash rest hne hslash,
        List.foldl_append, foldl_cleanStep_plain _ _ _ hplain2]
    rw [names_of_pathClean _ (by rw [hfold]; simp [hne]), hfold]

theorem mem_of_cleanStep (rooted : Bool) (out : List (List Char)) (c x : List Char)
    (h : x ∈ cleanStep rooted out c) : x ∈ out ∨ x = c := by
  unfold cleanStep at h
  split at h
  · exact Or.inl h
  · split at h
    · split at h
      · split at h
        · rcases List.mem_append.1 h with h1 | h1
          · exact Or.inl h1
          · exact Or.inr (by simpa using h1)
        · exact Or.inl (List.mem_of_mem_dropLast h)
      · split at h
        · exact Or.inl h
        · rcases List.mem_append.1 h with h1 | h1
          · exact Or.inl h1
          · exact Or.inr (by simpa using h1)
    · rcases List.mem_append.1 h with h1 | h1
      · exact Or.inl h1
      · exact Or.inr (by simpa using h1)

theorem mem_of_foldl_cleanStep (rooted : Bool) (out comps : List (List Char)) (x : List Char)
    (h : x ∈ comps.foldl (cleanStep rooted) out) : x ∈ out ∨ x ∈ comps := by
  induction comps generalizing out with
  | nil => exact Or.inl (by simpa using h)
  | cons c rest ih =>
    rw [List.foldl_cons] at h
    rcases ih _ h with h1 | h1
    · rcases mem_of_cleanStep rooted out c x h1 with h2 | h2
      · exact Or.inl h2
      · exact Or.inr (by simp [h2])
    · exact Or.inr (by simp [h1])

theorem chars_of_splitSlash (s : List Char) : ∀ c ∈ splitSlash s, ∀ x ∈ c, x ∈ s := by
  induction s with
  | nil => simp [splitSlash]
  | cons a t ih =>
    intro c hc x hx
    by_cases ha : a = '/'
    · simp only [splitSlash, ha, ↓reduceIte, List.mem_cons] at hc
      rcases hc with h | h
      · rw [h] at hx
        simp at hx
      · exact List.mem_cons_of_mem _ (ih c h x hx)
    · have h2 : splitSlash (a :: t)
          = match splitSlash t with
            | [] => [[a]]
            | h :: r => (a :: h) :: r := by
        simp [splitSlash, ha]
      rw [h2] at hc
      cases hs : splitSlash t with
      | nil => exact absurd hs (splitSlash_ne_nil t)
      | cons h r =>
        rw [hs] at hc ih
        simp only [List.mem_cons] at hc
        rcases hc with h1 | h1
        · rw [h1] at hx
          simp only [List.mem_cons] at hx
          rcases hx with h3 | h3
          · simp [h3]
          · exact List.mem_cons_of_mem _ (ih h (by simp) x h3)
        · exact List.mem_cons_of_mem _ (ih c (by simp [h1]) x hx)

theorem pathNames_pathJoin_chars (r : String) :
    ∃ S : List String, (∀ seg ∈ S, ∀ x ∈ seg.toList, x ∈ r.toList) ∧
      ∀ rest : List String, rest ≠ [] →
        (∀ x ∈ rest, x.toList ≠ [] ∧ '/' ∉ x.toList ∧ x.toList ≠ ['.'] ∧ x.toList ≠ ['.', '.']) →
        pathNames (pathJoin (r :: rest)) = S ++ rest := by
  refine ⟨((splitSlash r.toList).foldl
    (cleanStep (decide (r.toList.head? = some '/'))) []).map String.mk, ?_, ?_⟩
  · intro seg hseg x hx
    obtain ⟨c, hc, hcs⟩ := List.mem_map.1 hseg
    rw [← hcs] at hx
    rcases mem_of_foldl_cleanStep _ _ _ _ hc with h | h
    · simp at h
    · exact chars_of_splitSlash _ c h x hx
  · intro rest hne hplain
    have hkeep : rest.filter (fun s => decide (s ≠ "")) = rest := by
      rw [List.filter_eq_self]
      intro x hx
      have h1 := (hplain x hx).1
      have : x ≠ "" := fun h => h1 (by rw [h]; rfl)
      simpa using this
    have hmk : ∀ l : List String, (l.map String.toList).map String.mk = l := by
      intro l
      induction l with
      | nil => rfl
      | cons a t ih =>
        simp only [List.map_cons, ih]
        rfl
    have hnames := names_of_joined r.toList (rest.map String.toList) (by simpa using hne)
      (by
        intro c hc
        obtain ⟨x, hx, hxc⟩ := List.mem_map.1 hc
        rw [← hxc]
        exact hplain x hx)
    have hkept : (r :: rest).filter (fun s => decide (s ≠ ""))
        = (if r.toList = [] then rest else r :: rest) := by
      rw [List.filter_cons, hkeep]
      by_cases hr : r = ""
      · subst hr
        rfl
      · have hr2 : r.toList ≠ [] := by
          intro h
          apply hr
          cases r
          simp_all
        rw [if_pos (by simpa using hr), if_neg hr2]
    obtain ⟨x, xs, hrest⟩ : ∃ x xs, rest = x :: xs := by
      cases rest with
      | nil => exact absurd rfl hne
      | cons x xs => exact ⟨x, xs, rfl⟩
    have hjoin : pathJoin (r :: rest)
        = String.mk (pathClean (joinSlash
            (if r.toList = [] then rest.map String.toList
             else r.toList :: rest.map String.toList))) := by
      unfold pathJoin
      rw [hkept]
      by_cases hr : r.toList = []
      · simp only [hr, ↓reduceIte, hrest]
      · simp only [hr, ↓reduceIte]
        rfl
    rw [hjoin]
    show ((splitSlash (pathClean _)).filter (fun c => c ≠ [])).map String.mk = _
    rw [hnames, List.map_append, hmk]

theorem plain_of_isPlainName (s : String) (h : isPlainName s = true) :
    (s.toList ≠ [] ∧ '/' ∉ s.toList ∧ s.toList ≠ ['.'] ∧ s.toList ≠ ['.', '.'])
      ∧ '*' ∉ s.toList ∧ noGlobChars s = true := by
  simp only [isPlainName, Bool.and_eq_true, decide_eq_true_eq, List.all_eq_true] at h
  obtain ⟨⟨⟨⟨h1, h2⟩, h3⟩, h4⟩, h5⟩ := h
  refine ⟨⟨?_, ?_, ?_, ?_⟩, ?_, h5⟩
  · intro hn
    exact h1 (String.ext hn)
  · intro hm
    have := h4 _ hm
    simp at this
  · intro hn
    exact h2 (String.ext hn)
  · intro hn
    exact h3 (String.ext hn)
  · intro hm
    simp only [noGlobChars, List.all_eq_true, Bool.and_eq_true, decide_eq_true_eq] at h5
    exact (h5 _ hm).1.1.1 rfl

/-- C29 (counterexample): for the project named `team*` the first generator
watches `apps/**/team*/config.json`, and the descriptors of another project
`teamB`, at `apps/foo/overlays/teamB/config.json` and at
`apps/foo/teamB/config.json`, match that pattern. -/
theorem generated_pattern_of_starred_project_matches_other_project :
    (generateProjectManifests.appSetOptions exampleStore exampleCodec
        (RunProjectCreate.genOptions teamAWriter { teamACreate false with ProjectName := "team*" }
          "argocd" "https://kubernetes.default.svc")).generators.map
        (fun g => g.Git.map (fun git => git.Files.map GitFileGeneratorItem.Path))
      = [some ["apps/**/team*/config.json"], some ["apps/**/team*/config_dir.json"]]
    ∧ "teamB" ≠ "team*"
    ∧ segMatch (pathNames "apps/**/team*/config.json")
        (pathNames (pathJoin ["", "apps", "foo", "overlays", "teamB", "config.json"])) = true
    ∧ segMatch (pathNames "apps/**/team*/config.json")
        (pathNames (pathJoin ["", "apps", "foo", "teamB", "config.json"])) = true := by
  refine ⟨by decide, by decide, by decide, by decide⟩

/-- C29 (amended): let the directory names `apps` and `overlays`, the
application name `a` and the project name `p = o.Name` be single path segments
(not empty, not `.` or `..`, without separator and without glob character) and
let the installation path `r` hold no glob character.  The file patterns of the
two generators of `p` are `path.Join(r, apps, "**", p, "config.json")` and
`path.Join(r, apps, "**", p, "config_dir.json")`, whose only segment with a
glob character is `**`.  With `**` matching one or more directory levels, the
descriptors `r/apps/a/overlays/p/<file>` and `r/apps/a/p/<file>` match the
pattern of `<file>`, for both files; and for every single path segment `q`
other than `p`, the descriptors of `q` at `r/apps/a/overlays/q/` and
`r/apps/a/q/` match neither pattern. -/
theorem generated_patterns_cover_layouts_and_isolate_projects (st : Store) (c : Codec)
    (o : GenerateProjectOptions) (a : String)
    (happs : isPlainName st.AppsDir = true) (hover : isPlainName st.OverlaysDir = true)
    (ha : isPlainName a = true) (hp : isPlainName o.Name = true)
    (hr : noGlobChars o.InstallationPath = true) :
    (generateProjectManifests.appSetOptions st c o).generators.map
        (fun g => g.Git.map (fun git => git.Files.map GitFileGeneratorItem.Path))
      = [some [pathJoin [o.InstallationPath, st.AppsDir, "**", o.Name, "config.json"]],
         some [pathJoin [o.InstallationPath, st.AppsDir, "**", o.Name, "config_dir.json"]]]
    ∧ (∀ file, file = "config.json" ∨ file = "config_dir.json" →
        (∀ seg ∈ pathNames (pathJoin [o.InstallationPath, st.AppsDir, "**", o.Name, file]),
            seg = "**" ∨ noGlobChars seg = true)
          ∧ segMatch (pathNames (pathJoin [o.InstallationPath, st.AppsDir, "**", o.Name, file]))
            (pathNames (pathJoin [o.InstallationPath, st.AppsDir, a, st.OverlaysDir, o.Name, file]))
              = true
          ∧ segMatch (pathNames (pathJoin [o.InstallationPath, st.AppsDir, "**", o.Name, file]))
            (pathNames (pathJoin [o.InstallationPath, st.AppsDir, a, o.Name, file])) = true
          ∧ ∀ q, isPlainName q = true → q ≠ o.Name →
              segMatch (pathNames (pathJoin [o.InstallationPath, st.AppsDir, "**", o.Name, file]))
                  (pathNames (pathJoin [o.InstallationPath, st.AppsDir, a, st.OverlaysDir, q, file]))
                  = false
                ∧ segMatch (pathNames (pathJoin [o.InstallationPath, st.AppsDir, "**", o.Name, file]))
                  (pathNames (pathJoin [o.InstallationPath, st.AppsDir, a, q, file])) = false) := by
  refine ⟨rfl, ?_⟩
  intro file hfile
  obtain ⟨S, hchars, hS⟩ := pathNames_pathJoin_chars o.InstallationPath
  have hfileplain : (file.toList ≠ [] ∧ '/' ∉ file.toList ∧ file.toList ≠ ['.']
      ∧ file.toList ≠ ['.', '.']) ∧ '*' ∉ file.toList ∧ noGlobChars file = true := by
    rcases hfile with h | h <;> rw [h] <;> decide
  have hstarplain : ("**" : String).toList ≠ [] ∧ '/' ∉ ("**" : String).toList
      ∧ ("**" : String).toList ≠ ['.'] ∧ ("**" : String).toList ≠ ['.', '.'] := by decide
  have happs1 := plain_of_isPlainName _ happs
  have hover1 := plain_of_isPlainName _ hover
  have ha1 := plain_of_isPlainName _ ha
  have hp1 := plain_of_isPlainName _ hp
  have hpat : pathNames (pathJoin [o.InstallationPath, st.AppsDir, "**", o.Name, file])
      = S ++ [st.AppsDir, "**", o.Name, file] := by
    apply hS _ (by simp)
    intro x hx
    simp only [List.mem_cons, List.mem_singleton, List.not_mem_nil, or_false] at hx
    rcases hx with h | h | h | h <;> rw [h]
    · exact happs1.1
    · exact hstarplain
    · exact hp1.1
    · exact hfileplain.1
  have hoverlay : ∀ q, isPlainName q = true →
      pathNames (pathJoin [o.InstallationPath, st.AppsDir, a, st.OverlaysDir, q, file])
        = S ++ [st.AppsDir, a, st.OverlaysDir, q, file] := by
    intro q hq
    apply hS _ (by simp)
    intro x hx
    simp only [List.mem_cons, List.mem_singleton, List.not_mem_nil, or_false] at hx
    rcases hx with h | h | h | h | h <;> rw [h]
    · exact happs1.1
    · exact ha1.1
    · exact hover1.1
    · exact (plain_of_isPlainName _ hq).1
    · exact hfileplain.1
  have hflat : ∀ q, isPlainName q = true →
      pathNames (pathJoin [o.InstallationPath, st.AppsDir, a, q, file])
        = S ++ [st.AppsDir, a, q, file] := by
    intro q hq
    apply hS _ (by simp)
    intro x hx
    simp only [List.mem_cons, List.mem_singleton, List.not_mem_nil, or_false] at hx
    rcases hx with h | h | h | h <;> rw [h]
    · exact happs1.1
    · exact ha1.1
    · exact (plain_of_isPlainName _ hq).1
    · exact hfileplain.1
  have hself : segMatch [o.Name, file] [o.Name, file] = true := by
    have := segMatch_common_prefix [o.Name, file] [] [] rfl
    simpa using this
  have hcover : ∀ before : List String,
      segMatch (S ++ [st.AppsDir, "**", o.Name, file])
        (S ++ [st.AppsDir, a] ++ before ++ [o.Name, file]) = true := by
    intro before
    have h1 := segMatch_doublestar [o.Name, file] [o.Name, file] before a hself
    have h2 := segMatch_common_prefix (S ++ [st.AppsDir]) _ _ h1
    simpa [List.append_assoc] using h2
  have hisolate : ∀ (before : List String) (q : String), q ≠ o.Name →
      segMatch (S ++ [st.AppsDir, "**", o.Name, file])
        (S ++ [st.AppsDir, a] ++ before ++ [q, file]) = false := by
    intro before q hne
    have := segMatch_other_project (S ++ [st.AppsDir, "**"]) (S ++ [st.AppsDir, a] ++ before)
      o.Name q file hp1.2.1 hfileplain.2.1 hne
    simpa [List.append_assoc] using this
  refine ⟨?_, ?_, ?_, ?_⟩
  · intro seg hseg
    rw [hpat] at hseg
    rcases List.mem_append.1 hseg with h | h
    · right
      simp only [noGlobChars, List.all_eq_true] at hr ⊢
      exact fun x hx => hr x (hchars seg h x hx)
    · simp only [List.mem_cons, List.mem_singleton, List.not_mem_nil, or_false] at h
      rcases h with h | h | h | h
      · exact Or.inr (h ▸ happs1.2.2)
      · exact Or.inl h
      · exact Or.inr (h ▸ hp1.2.2)
      · exact Or.inr (h ▸ hfileplain.2.2)
  · rw [hpat, hoverlay _ hp]
    have := hcover [st.OverlaysDir]
    simpa [List.append_assoc] using this
  · rw [hpat, hflat _ hp]
    have := hcover []
    simpa [List.append_assoc] using this
  · intro q hq hne
    constructor
    · rw [hpat, hoverlay _ hq]
      have := hisolate [st.OverlaysDir] q hne
      simpa [List.append_assoc] using this
    · rw [hpat, hflat _ hq]
      have := hisolate [] q hne
      simpa [List.append_assoc] using this

/-- Witness of C29 (amended): project `teamA` under the installation path
`gitops/`, against the descriptors of `foo` for `teamA` and for `teamB`. -/
theorem generated_patterns_cover_layouts_and_isolate_projects_witness :
    pathJoin ["gitops/", "apps", "**", "teamA", "config.json"] = "gitops/apps/**/teamA/config.json"
      ∧ segMatch (pathNames (pathJoin ["gitops/", "apps", "**", "teamA", "config.json"]))
          (pathNames (pathJoin ["gitops/", "apps", "foo", "overlays", "teamA", "config.json"])) = true
      ∧ segMatch (pathNames (pathJoin ["gitops/", "apps", "**", "teamA", "config.json"]))
          (pathNames (pathJoin ["gitops/", "apps", "foo", "teamB", "config.json"])) = false :=
  ⟨by decide,
   ((generated_patterns_cover_layouts_and_isolate_projects exampleStore exampleCodec
      { teamAGenOptions with InstallationPath := "gitops/" } "foo"
      (by decide) (by decide) (by decide) (by decide) (by decide)).2
      "config.json" (Or.inl rfl)).2.1,
   ((((generated_patterns_cover_layouts_and_isolate_projects exampleStore exampleCodec
      { teamAGenOptions with InstallationPath := "gitops/" } "foo"
      (by decide) (by decide) (by decide) (by decide) (by decide)).2
      "config.json" (Or.inl rfl)).2.2.2 "teamB" (by decide) (by decide)).2)⟩

/-! ## Secret store update -/

theorem mapGet_mapSet_ne (m : GoMap) (k v k1 : String) (h : k1 ≠ k) :
    mapGet (mapSet m k v) k1 = mapGet m k1 := by
  unfold mapGet mapSet
  have hsame : (m.filter (fun kv => decide (kv.1 ≠ k))).find? (fun kv => decide (kv.1 = k1))
      = m.find? (fun kv => decide (kv.1 = k1)) := by
    rw [List.find?_filter]
    apply find?_eq_of_agree
    intro kv _
    by_cases heq : kv.1 = k1
    · have hne : kv.1 ≠ k := fun h1 => h (heq ▸ h1)
      simp [heq, hne, h]
    · simp [heq]
  have hlast : ([(k, v)] : GoMap).find? (fun kv => decide (kv.1 = k1)) = none := by
    simp [List.find?, Ne.symm h]
  rw [List.find?_append, hsame, hlast]
  simp

theorem apply_to_of_vault (now : String) (req : SecretStoreUpdateRequest) (ss : SecretStore)
    (m : GoMap) (provider : SecretStoreProvider) (vault : VaultProvider)
    (hann : ss.Annotations = some m) (hprov : ss.Provider = some provider)
    (hvault : provider.Vault = some vault) :
    SecretStoreUpdate.apply_to now req ss
      = some
          { Kind := ss.Kind,
            Name := if req.Name ≠ "" then req.Name else ss.Name,
            Namespace := ss.Namespace,
            Annotations := some (mapSet m "squidflow.github.io/updated-at" now),
            Provider := some
              { Vault := some
                  { Server := if req.Server ≠ "" then req.Server else vault.Server,
                    Path := if req.Path ≠ "" then some req.Path else vault.Path,
                    Version := vault.Version,
                    Auth := req.Auth.getD vault.Auth },
                otherProvider := provider.otherProvider } } := by
  obtain ⟨kind, name, ns, ann, prov⟩ := ss
  obtain ⟨v, other⟩ := provider
  obtain ⟨server, path, version, auth⟩ := vault
  simp only at hann hprov hvault
  subst hann hprov hvault
  obtain ⟨rname, rpath, rserver, rauth⟩ := req
  unfold SecretStoreUpdate.apply_to updateVault
  by_cases h1 : rname = "" <;> by_cases h2 : rpath = "" <;> by_cases h3 : rserver = "" <;>
    cases rauth <;> simp [h1, h2, h3]

theorem SecretStoreUpdate_of_read (env : Env) (n : NativeRepoTarget) (id : String)
    (req : SecretStoreUpdateRequest) (repofs : FS) (ss updated : SecretStore)
    (hprep : env.prepareRepo n.metaRepoCloneOpts "" = .ok repofs)
    (hread : ReadYamls env.codec repofs (secretStorePath env.store id) = .ok ss)
    (happly : SecretStoreUpdate.apply_to env.now req ss = some updated) :
    SecretStoreUpdate env n id req
      = ⟨if (SecretStoreCreate env n updated true).err = none then some updated else none,
          (SecretStoreCreate env n updated true).err.map
            (Errorf_w "failed to write secret store to repo: "),
          false, (SecretStoreCreate env n updated true).view,
          .clone (some n.metaRepoCloneOpts) :: (SecretStoreCreate env n updated true).trace⟩ := by
  unfold SecretStoreUpdate
  simp only [hprep, hread, happly]
  cases herr : (SecretStoreCreate env n updated true).err <;> simp

/-- The update of a store that has an annotations map and a Vault provider: on
a clone where `ss-<id>.yaml` reads back as such a store, `SecretStoreUpdate(id, r)` builds the
updated store: name, Vault path, Vault auth and Vault server take the request's
value when the request field is present (non-empty string, non-nil auth) and
keep the stored value otherwise; `updated-at` is set to the current time; kind,
namespace, the Vault version and every other annotation (`id`, `created-at`,
`last-synced` among them) are unchanged.  It then writes that store through
`SecretStoreCreate` with `force = true`: the view and the trace after the clone
are those of that call, the store is returned when the call succeeds and its
error, wrapped, otherwise.  When no file exists for `id`, it returns an error
with the view as cloned and no write. -/
theorem SecretStoreUpdate_on_annotated_vault_store (env : Env) (n : NativeRepoTarget) (id : String)
    (r : SecretStoreUpdateRequest) (repofs : FS)
    (hprep : env.prepareRepo n.metaRepoCloneOpts "" = .ok repofs) :
    (readFile repofs (secretStorePath env.store id) = none →
        ∃ err, SecretStoreUpdate env n id r
          = ⟨none, some (Errorf_w "failed to read secret store: " err), false, some repofs,
              [.clone (some n.metaRepoCloneOpts)]⟩)
      ∧ ∀ (ss : SecretStore) (m : GoMap) (provider : SecretStoreProvider) (vault : VaultProvider),
          ReadYamls env.codec repofs (secretStorePath env.store id) = .ok ss →
          ss.Annotations = some m → ss.Provider = some provider → provider.Vault = some vault →
          ∃ updated : SecretStore,
            updated
                = { Kind := ss.Kind,
                    Name := if r.Name ≠ "" then r.Name else ss.Name,
                    Namespace := ss.Namespace,
                    Annotations := some (mapSet m "squidflow.github.io/updated-at" env.now),
                    Provider := some
                      { Vault := some
                          { Server := if r.Server ≠ "" then r.Server else vault.Server,
                            Path := if r.Path ≠ "" then some r.Path else vault.Path,
                            Version := vault.Version,
                            Auth := r.Auth.getD vault.Auth },
                        otherProvider := provider.otherProvider } }
              ∧ updated.annotation_of "squidflow.github.io/updated-at" = env.now
              ∧ (∀ k, k ≠ "squidflow.github.io/updated-at" →
                  updated.annotation_of k = ss.annotation_of k)
              ∧ SecretStoreUpdate env n id r
                  = ⟨if (SecretStoreCreate env n updated true).err = none then some updated else none,
                      (SecretStoreCreate env n updated true).err.map
                        (Errorf_w "failed to write secret store to repo: "),
                      false, (SecretStoreCreate env n updated true).view,
                      .clone (some n.metaRepoCloneOpts)
                        :: (SecretStoreCreate env n updated true).trace⟩ := by
  constructor
  · intro habsent
    refine ⟨.new ("file does not exist: " ++ "/".intercalate (secretStorePath env.store id)), ?_⟩
    unfold SecretStoreUpdate ReadYamls
    simp [hprep, habsent]
  · intro ss m provider vault hread hann hprov hvault
    have happly := apply_to_of_vault env.now r ss m provider vault hann hprov hvault
    refine ⟨_, rfl, ?_, ?_, SecretStoreUpdate_of_read env n id r repofs ss _ hprep hread happly⟩
    · simp [SecretStore.annotation_of, mapGet_mapSet]
    · intro k hk
      simp [SecretStore.annotation_of, hann, mapGet_mapSet_ne _ _ _ _ hk]

/-- The stored secret store `abc` is renamed and moved to another Vault
server; its Vault path and its identifier are kept. -/
theorem SecretStoreUpdate_on_annotated_vault_store_witness :
    ∃ updated : SecretStore,
      (SecretStoreUpdate (exampleEnv repoWithMixedSecretStores) teamAWriter "abc" renameRequest).value
          = some updated
        ∧ updated.Name = "renamed"
        ∧ updated.annotation_of "squidflow.github.io/id" = "abc"
        ∧ updated.annotation_of "squidflow.github.io/updated-at" = "2024-01-01T00:00:00Z" :=
  match (SecretStoreUpdate_on_annotated_vault_store (exampleEnv repoWithMixedSecretStores)
      teamAWriter "abc" renameRequest repoWithMixedSecretStores rfl).2 storedSecretStore
      _ _ _ rfl rfl rfl rfl with
  | ⟨updated, hupdated, hstamp, _, hcall⟩ =>
    ⟨updated, by rw [hcall, hupdated]; rfl, by rw [hupdated]; rfl, by rw [hupdated]; rfl, hstamp⟩

/-- C22 (the code at a failing input): the file `ss-plain.yaml` holds a
SecretStore with a Vault provider and no annotations, the file `ss-bare.yaml` a
SecretStore with annotations and no provider.  `SecretStoreUpdate` with a
request that sets the name and the Vault server reads each of them and then
panics, on the assignment to `Annotations["squidflow.github.io/updated-at"]` of
a nil map for `plain` and on the nil `Spec.Provider` for `bare`: no field is
changed, nothing is written through `SecretStoreCreate` and nothing is returned. -/
theorem SecretStoreUpdate_panics_on_stored_store :
    ReadYamls exampleCodec repoWithForeignSecretStores (secretStorePath exampleStore "plain")
        = .ok { Kind := "SecretStore", Name := "vault-store", Provider := some { Vault := some {} } }
      ∧ SecretStoreUpdate (exampleEnv repoWithForeignSecretStores) teamAWriter "plain" renameRequest
        = ⟨none, none, true, some repoWithForeignSecretStores, [.clone (some exampleOpts)]⟩
      ∧ ReadYamls exampleCodec repoWithForeignSecretStores (secretStorePath exampleStore "bare")
        = .ok { Kind := "SecretStore", Name := "plain",
                Annotations := some [("squidflow.github.io/id", "client-id")] }
      ∧ SecretStoreUpdate (exampleEnv repoWithForeignSecretStores) teamAWriter "bare" renameRequest
        = ⟨none, none, true, some repoWithForeignSecretStores, [.clone (some exampleOpts)]⟩ := by
  refine ⟨by rfl, by rfl, by rfl, by rfl⟩

/-! ## Secret store list and get -/

theorem collect_eq_filterMap (c : Codec) (repofs : FS) (files : List Path) :
    SecretStoreList.collect c repofs files
      = files.filterMap (fun file =>
          match ReadYamls c repofs file with
          | .error _ => none
          | .ok secretStore => if secretStore.Kind = "SecretStore" then some secretStore else none) := by
  induction files with
  | nil => rfl
  | cons file rest ih =>
    unfold SecretStoreList.collect
    cases hread : ReadYamls c repofs file with
    | error err => simp [List.filterMap_cons, hread, ih]
    | ok secretStore =>
      by_cases hkind : secretStore.Kind = "SecretStore"
      · simp [List.filterMap_cons, hread, hkind, ih]
      · simp [List.filterMap_cons, hread, hkind, ih]

/-- C23 (counterexample): the file `ss-shared.yaml` holds an object of kind
`ClusterSecretStore`; `SecretStoreGet("shared")` returns the error `invalid
secret store kind: ClusterSecretStore` and no store, while `SecretStoreList` on
the same repository succeeds and skips that file. -/
theorem SecretStoreGet_other_kind_is_an_error :
    SecretStoreGet (exampleEnv repoWithMixedSecretStores) teamAWriter "shared"
        = ⟨none, some (.new "invalid secret store kind: ClusterSecretStore"),
            some repoWithMixedSecretStores, [.clone (some exampleOpts)]⟩
      ∧ SecretStoreList (exampleEnv repoWithMixedSecretStores) teamAWriter
        = ⟨some [storedSecretStore], none, some repoWithMixedSecretStores,
            [.clone (some exampleOpts)]⟩ := by
  constructor <;> rfl

/-- C23 (amended): once the clone has succeeded, `SecretStoreList` never fails:
it returns, in the order of the glob matches of `ss-*.yaml` in the
cluster-resources directory of the configured context, exactly the entries that
parse and whose kind is `SecretStore`, the others being skipped.
`SecretStoreGet(id)` reads the single file `ss-<id>.yaml`: it returns the store
when the file parses and its kind is `SecretStore`, the error `failed to read
secret store <id>: ...` when the file is absent or does not parse, and the
error `invalid secret store kind: <kind>` when it holds another kind. -/
theorem SecretStoreList_skips_and_SecretStoreGet_fails (env : Env) (n : NativeRepoTarget)
    (repofs : FS) (hprep : env.prepareRepo n.metaRepoCloneOpts "" = .ok repofs) :
    SecretStoreList env n
        = ⟨some ((Glob repofs (SecretStoreList.pattern env.store)).filterMap (fun file =>
              match ReadYamls env.codec repofs file with
              | .error _ => none
              | .ok secretStore =>
                if secretStore.Kind = "SecretStore" then some secretStore else none)),
            none, some repofs, [.clone (some n.metaRepoCloneOpts)]⟩
      ∧ ∀ id,
          (∀ err, ReadYamls env.codec repofs (secretStorePath env.store id) = .error err →
            SecretStoreGet env n id
              = ⟨none, some (Errorf_v ("failed to read secret store " ++ id ++ ": ") err),
                  some repofs, [.clone (some n.metaRepoCloneOpts)]⟩)
          ∧ (∀ ss, ReadYamls env.codec repofs (secretStorePath env.store id) = .ok ss →
              ss.Kind ≠ "SecretStore" →
              SecretStoreGet env n id
                = ⟨none, some (.new ("invalid secret store kind: " ++ ss.Kind)), some repofs,
                    [.clone (some n.metaRepoCloneOpts)]⟩)
          ∧ (∀ ss, ReadYamls env.codec repofs (secretStorePath env.store id) = .ok ss →
              ss.Kind = "SecretStore" →
              SecretStoreGet env n id
                = ⟨some ss, none, some repofs, [.clone (some n.metaRepoCloneOpts)]⟩) := by
  constructor
  · unfold SecretStoreList
    simp only [hprep, collect_eq_filterMap]
  · intro id
    refine ⟨?_, ?_, ?_⟩
    · intro err hread
      unfold SecretStoreGet
      simp only [hprep, hread]
    · intro ss hread hkind
      unfold SecretStoreGet
      simp only [hprep, hread, hkind, ne_eq, not_false_eq_true, ↓reduceIte]
    · intro ss hread hkind
      unfold SecretStoreGet
      simp only [hprep, hread, hkind, ne_eq, not_true_eq_false, ↓reduceIte]

/-- Witness of C23 (amended): three files match `ss-*.yaml`, one of them is listed. -/
theorem SecretStoreList_skips_and_SecretStoreGet_fails_witness :
    SecretStoreList (exampleEnv repoWithMixedSecretStores) teamAWriter
        = ⟨some ((Glob repoWithMixedSecretStores (SecretStoreList.pattern exampleStore)).filterMap
              (fun file =>
                match ReadYamls exampleCodec repoWithMixedSecretStores file with
                | .error _ => none
                | .ok secretStore =>
                  if secretStore.Kind = "SecretStore" then some secretStore else none)),
            none, some repoWithMixedSecretStores, [.clone (some exampleOpts)]⟩
      ∧ (Glob repoWithMixedSecretStores (SecretStoreList.pattern exampleStore)).length = 3 :=
  ⟨(SecretStoreList_skips_and_SecretStoreGet_fails (exampleEnv repoWithMixedSecretStores)
      teamAWriter repoWithMixedSecretStores rfl).1, by decide⟩

theorem SecretStoreCreate_view_frame (env : Env) (n : NativeRepoTarget) (ss : SecretStore)
    (force : Bool) (repofs : FS)
    (hprep : env.prepareRepo n.metaRepoCloneOpts "" = .ok repofs) :
    ∃ v, (SecretStoreCreate env n ss force).view = some v
      ∧ ∀ q, q ≠ secretStorePath env.store (ss.annotation_of "squidflow.github.io/id") →
          readFile v q = readFile repofs q := by
  unfold SecretStoreCreate
  simp only [hprep]
  cases hm : env.codec.marshalSecretStore ss with
  | error err => exact ⟨repofs, rfl, fun _ _ => rfl⟩
  | ok ssYaml =>
    simp only []
    split
    · exact ⟨repofs, rfl, fun _ _ => rfl⟩
    · cases hw : WriteFile repofs
          (secretStorePath env.store (ss.annotation_of "squidflow.github.io/id"))
          (JoinManifests [ssYaml]) with
      | error err =>
        simp only [BulkWrite, hw]
        exact ⟨repofs, rfl, fun _ _ => rfl⟩
      | ok repofs1 =>
        simp only [BulkWrite, hw]
        have hframe := (readFile_of_WriteFile _ _ _ _ hw).2
        split <;> exact ⟨repofs1, rfl, hframe⟩

theorem handler_stored (env : Env) (bound : Except GoErr SecretStoreCreateReq) (ss : SecretStore)
    (hs : (handler.SecretStoreCreate env bound).stored = some ss) :
    ∃ want provider vault, ss = handler.SecretStoreCreate.annotated env want
      ∧ want.Provider = some provider ∧ provider.Vault = some vault := by
  unfold handler.SecretStoreCreate at hs
  cases bound with
  | error err => simp at hs
  | ok req =>
    simp only [] at hs
    cases hparse : env.codec.unmarshalSecretStore req.SecretStoreYaml with
    | error err => simp [hparse] at hs
    | ok want =>
      simp only [hparse] at hs
      cases hp : want.Provider with
      | none => simp [hp] at hs
      | some provider =>
        simp only [hp] at hs
        cases hv : provider.Vault with
        | none => simp [hv] at hs
        | some v =>
          simp only [hv] at hs
          split at hs
          · simp at hs
          · refine ⟨want, provider, v, ?_, hp, hv⟩
            split at hs <;> exact (Option.some.inj hs).symm

theorem annotated_annotations (env : Env) (want : SecretStore) :
    ∃ m, (handler.SecretStoreCreate.annotated env want).Annotations = some m
      ∧ mapGet m "squidflow.github.io/id" = env.getNewId
      ∧ mapGet m "squidflow.github.io/updated-at" = env.now
      ∧ mapGet m "squidflow.github.io/created-at" = env.now
      ∧ mapGet m "squidflow.github.io/last-synced" = env.now := by
  refine ⟨_, rfl, ?_, ?_, ?_, ?_⟩ <;> simp only [SecretStore.annotate, Option.getD_some]
  · exact mapGet_mapSet _ _ _
  · rw [mapGet_mapSet_ne _ "squidflow.github.io/id" _ "squidflow.github.io/updated-at" (by decide)]
    exact mapGet_mapSet _ _ _
  · rw [mapGet_mapSet_ne _ "squidflow.github.io/id" _ "squidflow.github.io/created-at" (by decide),
      mapGet_mapSet_ne _ "squidflow.github.io/updated-at" _ "squidflow.github.io/created-at"
        (by decide)]
    exact mapGet_mapSet _ _ _
  · rw [mapGet_mapSet_ne _ "squidflow.github.io/id" _ "squidflow.github.io/last-synced" (by decide),
      mapGet_mapSet_ne _ "squidflow.github.io/updated-at" _ "squidflow.github.io/last-synced"
        (by decide),
      mapGet_mapSet_ne _ "squidflow.github.io/created-at" _ "squidflow.github.io/last-synced"
        (by decide)]
    exact mapGet_mapSet _ _ _

/-- C30: let `ss` be a secret store that the create handler accepted, annotated
and handed to the writer, and let `ss-<id>.yaml`, for the identifier the handler
gave it, read back as `ss`.  Then `ss` has an annotations map holding the four
reserved keys and a Vault provider, and for every update request
`SecretStoreUpdate(id, r)` does not panic (no write to a nil map, no nil
pointer), every bulk write it makes is to the single file `ss-<id>.yaml` it
read, and the view it leaves agrees with the clone on every other file. -/
theorem SecretStoreUpdate_safe_on_created_stores (created env : Env) (n : NativeRepoTarget)
    (bound : Except GoErr SecretStoreCreateReq) (ss : SecretStore)
    (r : SecretStoreUpdateRequest) (repofs : FS)
    (hstored : (handler.SecretStoreCreate created bound).stored = some ss)
    (hprep : env.prepareRepo n.metaRepoCloneOpts "" = .ok repofs)
    (hread : ReadYamls env.codec repofs (secretStorePath env.store created.getNewId) = .ok ss) :
    (∃ m provider vault, ss.Annotations = some m ∧ ss.Provider = some provider
        ∧ provider.Vault = some vault
        ∧ mapGet m "squidflow.github.io/id" = created.getNewId
        ∧ mapGet m "squidflow.github.io/updated-at" = created.now
        ∧ mapGet m "squidflow.github.io/created-at" = created.now
        ∧ mapGet m "squidflow.github.io/last-synced" = created.now)
      ∧ (SecretStoreUpdate env n created.getNewId r).panicked = false
      ∧ (∀ files, Event.bulkWrite files ∈ (SecretStoreUpdate env n created.getNewId r).trace →
          files = [secretStorePath env.store created.getNewId])
      ∧ ∃ v, (SecretStoreUpdate env n created.getNewId r).view = some v
          ∧ ∀ q, q ≠ secretStorePath env.store created.getNewId →
              readFile v q = readFile repofs q := by
  obtain ⟨want, provider, vault, hss, hprov, hvault⟩ := handler_stored created bound ss hstored
  obtain ⟨m, hm, hid, hupd, hcre, hsync⟩ := annotated_annotations created want
  have hann : ss.Annotations = some m := by rw [hss, hm]
  have hprov1 : ss.Provider = some provider := by rw [hss]; exact hprov
  have happly := apply_to_of_vault env.now r ss m provider vault hann hprov1 hvault
  have hcall := SecretStoreUpdate_of_read env n created.getNewId r repofs ss _ hprep hread happly
  have hkey : SecretStore.annotation_of
      { Kind := ss.Kind,
        Name := if r.Name ≠ "" then r.Name else ss.Name,
        Namespace := ss.Namespace,
        Annotations := some (mapSet m "squidflow.github.io/updated-at" env.now),
        Provider := some
          { Vault := some
              { Server := if r.Server ≠ "" then r.Server else vault.Server,
                Path := if r.Path ≠ "" then some r.Path else vault.Path,
                Version := vault.Version,
                Auth := r.Auth.getD vault.Auth },
            otherProvider := provider.otherProvider } } "squidflow.github.io/id"
      = created.getNewId := by
    simp only [SecretStore.annotation_of]
    rw [mapGet_mapSet_ne _ _ _ _ (by decide), hid]
  refine ⟨⟨m, provider, vault, hann, hprov1, hvault, hid, hupd, hcre, hsync⟩, ?_, ?_, ?_⟩
  · rw [hcall]
  · intro files hfiles
    rw [hcall] at hfiles
    simp only [List.mem_cons, reduceCtorEq, false_or] at hfiles
    have hf := SecretStoreCreate_written_files _ _ _ _ _ hfiles
    rw [hkey] at hf
    exact hf
  · obtain ⟨v, hv, hframe⟩ := SecretStoreCreate_view_frame env n
      { Kind := ss.Kind,
        Name := if r.Name ≠ "" then r.Name else ss.Name,
        Namespace := ss.Namespace,
        Annotations := some (mapSet m "squidflow.github.io/updated-at" env.now),
        Provider := some
          { Vault := some
              { Server := if r.Server ≠ "" then r.Server else vault.Server,
                Path := if r.Path ≠ "" then some r.Path else vault.Path,
                Version := vault.Version,
                Auth := r.Auth.getD vault.Auth },
            otherProvider := provider.otherProvider } } true repofs hprep
    rw [hkey] at hframe
    exact ⟨v, by rw [hcall]; exact hv, hframe⟩

/-- Witness of C30: the store created from the document `vault` is updated. -/
theorem SecretStoreUpdate_safe_on_created_stores_witness :
    (SecretStoreUpdate (exampleEnv repoWithCreatedSecretStore) teamAWriter "generated-id"
        renameRequest).panicked = false
      ∧ ∀ files,
          Event.bulkWrite files ∈ (SecretStoreUpdate (exampleEnv repoWithCreatedSecretStore)
            teamAWriter "generated-id" renameRequest).trace →
          files = [["bootstrap", "cluster-resources", "in-cluster", "ss-generated-id.yaml"]] :=
  ⟨(SecretStoreUpdate_safe_on_created_stores (exampleEnv bootstrappedRepo)
      (exampleEnv repoWithCreatedSecretStore) teamAWriter (.ok ⟨"vault"⟩) createdSecretStore
      renameRequest repoWithCreatedSecretStore rfl rfl rfl).2.1,
   (SecretStoreUpdate_safe_on_created_stores (exampleEnv bootstrappedRepo)
      (exampleEnv repoWithCreatedSecretStore) teamAWriter (.ok ⟨"vault"⟩) createdSecretStore
      renameRequest repoWithCreatedSecretStore rfl rfl rfl).2.2.1⟩

/-! ## Project create, then list and get -/

theorem readFile_last_of_BulkWrite (writes : List BulkWriteRequest) (w : BulkWriteRequest)
    (fs fs1 : FS) (h : BulkWrite fs (writes ++ [w]) = (fs1, none)) :
    readFile fs1 w.Filename = some w.Data := by
  induction writes generalizing fs with
  | nil =>
    simp only [List.nil_append, BulkWrite] at h
    cases hw : WriteFile fs w.Filename w.Data with
    | error err => simp [hw] at h
    | ok fs2 =>
      simp only [hw, Prod.mk.injEq, and_true] at h
      subst h
      exact (readFile_of_WriteFile _ _ _ _ hw).1
  | cons x rest ih =>
    simp only [List.cons_append, BulkWrite] at h
    cases hw : WriteFile fs x.Filename x.Data with
    | error err => simp [hw] at h
    | ok fs2 =>
      simp only [hw] at h
      exact ih fs2 h

theorem RunProjectCreate_success_write (env : Env) (n : NativeRepoTarget)
    (opts : ProjectCreateOptions) (repofs v1 : FS) (ns dest : String) (m : ProjectManifests)
    (hprep : env.prepareRepo n.metaRepoCloneOpts "" = .ok repofs)
    (hboot : env.getInstallationNamespace repofs = .ok ns)
    (hserver : RunProjectCreate.destServer env opts = .ok dest)
    (hgen : generateProjectManifests env.store env.codec
      (RunProjectCreate.genOptions n opts ns dest) = .ok m)
    (hdry : opts.DryRun = false)
    (hok : (RunProjectCreate env n opts).err = none)
    (hview : (RunProjectCreate env n opts).view = some v1) :
    BulkWrite repofs (RunProjectCreate.bulkWrites env.store repofs opts m) = (v1, none) := by
  unfold RunProjectCreate at hok hview
  simp only [hprep, hboot] at hok hview
  split at hok
  · simp at hok
  · rename_i hnew
    simp only [hnew, hserver, hgen, hdry, Bool.false_eq_true, ↓reduceIte] at hok hview
    split at hok
    · simp at hok
    · rename_i hadd
      simp only [hadd] at hview
      cases hbw : BulkWrite repofs (RunProjectCreate.bulkWrites env.store repofs opts m) with
      | mk fs2 e =>
        simp only [hbw] at hok hview
        cases e with
        | some err => simp at hok
        | none =>
          simp only at hok hview
          split at hview <;> simp at hview <;> rw [hview]

theorem globMatch_star_suffix (s t : List Char) : globMatch ('*' :: s) (t ++ s) = true := by
  simp only [globMatch, ↓reduceIte, List.any_eq_true]
  exact ⟨s, (List.mem_tails _ _).2 (List.suffix_append _ _), globMatch_self s⟩

theorem matchPath_project_file (projects name : String) :
    matchPath (Join [] [projects, "*.yaml"]) (Join [] [projects, name ++ ".yaml"]) = true := by
  have hstar : globMatch ['*', '.', 'y', 'a', 'm', 'l'] (name.data ++ ['.', 'y', 'a', 'm', 'l'])
      = true := globMatch_star_suffix _ _
  have hne : name ++ ".yaml" ≠ "" := by
    intro h
    have hlen := congrArg String.length h
    have h5 : (".yaml" : String).length = 5 := by decide
    rw [String.length_append, h5] at hlen
    simp at hlen
  by_cases h1 : projects = ""
  · simp [Join, h1, hne, matchPath, hstar]
  · simp [Join, h1, hne, matchPath, hstar, globMatch_self]

theorem RunProjectList_collect_ok (st : Store) (c : Codec) (fs : FS) (files : List Path)
    (h : ∀ file ∈ files, ∃ proj appset info,
      getProjectInfoFromFile c fs file = .ok (proj, appset)
        ∧ RunProjectList.entry st proj appset = some info) :
    ∃ tenants, RunProjectList.collect st c fs files = .ok (some tenants)
      ∧ ∀ file ∈ files, ∀ proj appset info,
          getProjectInfoFromFile c fs file = .ok (proj, appset) →
          RunProjectList.entry st proj appset = some info → info ∈ tenants := by
  induction files with
  | nil => exact ⟨[], rfl, by simp⟩
  | cons file rest ih =>
    obtain ⟨proj, appset, info, hread, hentry⟩ := h file (by simp)
    obtain ⟨tenants, hrest, hmem⟩ := ih (fun f hf => h f (by simp [hf]))
    refine ⟨info :: tenants, ?_, ?_⟩
    · unfold RunProjectList.collect
      simp only [hread, hentry, hrest]
    · intro f hf proj1 appset1 info1 hread1 hentry1
      rcases List.mem_cons.1 hf with heq | hin
      · subst heq
        rw [hread] at hread1
        injection hread1 with hpair
        injection hpair with hp ha
        subst hp ha
        rw [hentry] at hentry1
        injection hentry1 with hi
        simp [← hi]
      · exact List.mem_cons_of_mem _ (hmem f hin proj1 appset1 info1 hread1 hentry1)

theorem exists_of_readFile (fs : FS) (p : Path) (data : String) (h : readFile fs p = some data) :
    ExistsOrDie fs p = true := by
  unfold readFile at h
  cases hfind : fs.find? (fun e => decide (e.path = p) && e.data.isSome) with
  | none => simp [hfind] at h
  | some e =>
    have hmem := List.mem_of_find?_eq_some hfind
    have hp := List.find?_some hfind
    simp only [Bool.and_eq_true, decide_eq_true_eq] at hp
    exact (ExistsOrDie_iff _ _).2 ⟨e, hmem, hp.1 ▸ List.prefix_refl _⟩

theorem created_project_reads_back (env : Env) (n : NativeRepoTarget)
    (opts : ProjectCreateOptions) (repofs v1 : FS) (ns dest : String) (m : ProjectManifests)
    (hprep : env.prepareRepo n.metaRepoCloneOpts "" = .ok repofs)
    (hboot : env.getInstallationNamespace repofs = .ok ns)
    (hserver : RunProjectCreate.destServer env opts = .ok dest)
    (hgen : generateProjectManifests env.store env.codec
      (RunProjectCreate.genOptions n opts ns dest) = .ok m)
    (hdry : opts.DryRun = false)
    (hok : (RunProjectCreate env n opts).err = none)
    (hview : (RunProjectCreate env n opts).view = some v1)
    (hround : env.codec.readProjectYamls (JoinManifests [m.projectYAML, m.appSetYAML])
      = .ok (generateProjectManifests.project env.store (RunProjectCreate.genOptions n opts ns dest),
          createAppSet.object env.store (generateProjectManifests.appSetOptions env.store env.codec
            (RunProjectCreate.genOptions n opts ns dest)))) :
    ExistsOrDie v1 (Join [] [env.store.ProjectsDir, opts.ProjectName ++ ".yaml"]) = true
      ∧ getProjectInfoFromFile env.codec v1 (Join [] [env.store.ProjectsDir, opts.ProjectName ++ ".yaml"])
        = .ok (generateProjectManifests.project env.store (RunProjectCreate.genOptions n opts ns dest),
            createAppSet.object env.store (generateProjectManifests.appSetOptions env.store env.codec
              (RunProjectCreate.genOptions n opts ns dest))) := by
  have hbw := RunProjectCreate_success_write env n opts repofs v1 ns dest m hprep hboot hserver hgen
    hdry hok hview
  unfold RunProjectCreate.bulkWrites at hbw
  have hfile := readFile_last_of_BulkWrite _ _ _ _ hbw
  simp only at hfile
  refine ⟨exists_of_readFile _ _ _ hfile, ?_⟩
  unfold getProjectInfoFromFile
  simp only [hfile, hround]

/-- C26: let `RunProjectCreate` with options `o` (not a dry run) succeed on a
clone with installation namespace `ns` and resolved destination server `dest`,
leaving the view `v1`, and let the project file it wrote parse back as the two
objects that were marshalled.  Then on `v1`: `RunProjectGet(o.ProjectName)`
succeeds (the stored ApplicationSet has a first git generator) with
`Name = o.ProjectName`, `Namespace = ns`, `DefaultCluster = dest` and
`GitOpsRepo = o.ProjectGitopsRepo` when that is non-empty and the URL of the
meta repository otherwise; `RunProjectList` succeeds and has the entry with
these four values, provided the other project files of `v1` read back; and
`RunProjectGet` of a name without project file returns `project <name> not found`. -/
theorem RunProjectCreate_then_RunProjectGet_and_RunProjectList (env : Env) (n : NativeRepoTarget)
    (opts : ProjectCreateOptions) (repofs v1 : FS) (ns dest : String) (m : ProjectManifests)
    (later : CloneOptions → String → Except GoErr FS)
    (hprep : env.prepareRepo n.metaRepoCloneOpts "" = .ok repofs)
    (hboot : env.getInstallationNamespace repofs = .ok ns)
    (hserver : RunProjectCreate.destServer env opts = .ok dest)
    (hgen : generateProjectManifests env.store env.codec
      (RunProjectCreate.genOptions n opts ns dest) = .ok m)
    (hdry : opts.DryRun = false)
    (hok : (RunProjectCreate env n opts).err = none)
    (hview : (RunProjectCreate env n opts).view = some v1)
    (hround : env.codec.readProjectYamls (JoinManifests [m.projectYAML, m.appSetYAML])
      = .ok (generateProjectManifests.project env.store (RunProjectCreate.genOptions n opts ns dest),
          createAppSet.object env.store (generateProjectManifests.appSetOptions env.store env.codec
            (RunProjectCreate.genOptions n opts ns dest)))) :
    (later n.metaRepoCloneOpts opts.ProjectName = .ok v1 →
        ∃ detail, RunProjectGet { env with prepareRepo := later } n opts.ProjectName
              = ⟨some detail, none, some v1, [.clone (some n.metaRepoCloneOpts)]⟩
            ∧ detail.Name = opts.ProjectName ∧ detail.Namespace = ns
            ∧ detail.DefaultCluster = dest
            ∧ detail.GitOpsRepo = (if opts.ProjectGitopsRepo = "" then n.metaRepoCloneOpts.URL
                else opts.ProjectGitopsRepo))
      ∧ (later (env.Parse n.metaRepoCloneOpts) "" = .ok v1 →
          (∀ file ∈ Glob v1 (Join [] [env.store.ProjectsDir, "*.yaml"]),
              file ≠ Join [] [env.store.ProjectsDir, opts.ProjectName ++ ".yaml"] →
              ∃ proj appset info, getProjectInfoFromFile env.codec v1 file = .ok (proj, appset)
                ∧ RunProjectList.entry env.store proj appset = some info) →
          ∃ tenants, RunProjectList { env with prepareRepo := later } n
                = ⟨some tenants, none, some v1, [.clone (some (env.Parse n.metaRepoCloneOpts))]⟩
              ∧ (⟨opts.ProjectName, ns, dest,
                    if opts.ProjectGitopsRepo = "" then n.metaRepoCloneOpts.URL
                    else opts.ProjectGitopsRepo⟩ : types.TenantInfo) ∈ tenants)
      ∧ (∀ name fs, later n.metaRepoCloneOpts name = .ok fs →
          ExistsOrDie fs (Join [] [env.store.ProjectsDir, name ++ ".yaml"]) = false →
          RunProjectGet { env with prepareRepo := later } n name
            = ⟨none, some (.new ("project " ++ name ++ " not found")), some fs,
                [.clone (some n.metaRepoCloneOpts)]⟩) := by
  obtain ⟨hexists, hinfo⟩ := created_project_reads_back env n opts repofs v1 ns dest m hprep hboot
    hserver hgen hdry hok hview hround
  have hdest : annotationOf
      (generateProjectManifests.project env.store
        (RunProjectCreate.genOptions n opts ns dest)).objectMeta.Annotations
      env.store.DestServerAnnotation = dest := by
    simp only [generateProjectManifests.project, annotationOf, RunProjectCreate.genOptions]
    exact mapGet_mapSet _ _ _
  refine ⟨?_, ?_, ?_⟩
  · intro hlater
    refine Exists.intro ?detail (And.intro ?hrun (And.intro ?h1 (And.intro ?h2 (And.intro ?h3 ?h4))))
    case hrun =>
      have hurl : firstGeneratorRepoURL
          (createAppSet.object env.store (generateProjectManifests.appSetOptions env.store env.codec
            (RunProjectCreate.genOptions n opts ns dest)))
          = some (if opts.ProjectGitopsRepo = "" then n.metaRepoCloneOpts.URL
              else opts.ProjectGitopsRepo) := rfl
      unfold RunProjectGet
      simp only [hlater, hexists, hinfo, Bool.not_true, Bool.false_eq_true, ↓reduceIte,
        RunProjectGet.detail, hurl, Option.map_some']
      exact rfl
    case h1 => rfl
    case h2 => rfl
    case h3 => exact hdest
    case h4 => rfl
  · intro hlater hothers
    have hentry : RunProjectList.entry env.store
        (generateProjectManifests.project env.store (RunProjectCreate.genOptions n opts ns dest))
        (createAppSet.object env.store (generateProjectManifests.appSetOptions env.store env.codec
          (RunProjectCreate.genOptions n opts ns dest)))
        = some ⟨opts.ProjectName, ns, dest,
            if opts.ProjectGitopsRepo = "" then n.metaRepoCloneOpts.URL
            else opts.ProjectGitopsRepo⟩ := by
      have h0 : RunProjectList.entry env.store
          (generateProjectManifests.project env.store (RunProjectCreate.genOptions n opts ns dest))
          (createAppSet.object env.store (generateProjectManifests.appSetOptions env.store env.codec
            (RunProjectCreate.genOptions n opts ns dest)))
          = some ⟨opts.ProjectName, ns,
              annotationOf (generateProjectManifests.project env.store
                (RunProjectCreate.genOptions n opts ns dest)).objectMeta.Annotations
                env.store.DestServerAnnotation,
              if opts.ProjectGitopsRepo = "" then n.metaRepoCloneOpts.URL
              else opts.ProjectGitopsRepo⟩ := rfl
      rw [h0, hdest]
    have hall : ∀ file ∈ Glob v1 (Join [] [env.store.ProjectsDir, "*.yaml"]),
        ∃ proj appset info, getProjectInfoFromFile env.codec v1 file = .ok (proj, appset)
          ∧ RunProjectList.entry env.store proj appset = some info := by
      intro file hfile
      by_cases hf : file = Join [] [env.store.ProjectsDir, opts.ProjectName ++ ".yaml"]
      · exact ⟨_, _, _, hf ▸ hinfo, hentry⟩
      · exact hothers file hfile hf
    obtain ⟨tenants, hcollect, hmem⟩ := RunProjectList_collect_ok env.store env.codec v1 _ hall
    refine ⟨tenants, ?_, ?_⟩
    · unfold RunProjectList
      simp only [hlater, hcollect]
    · exact hmem _ (mem_Glob_of_exists _ _ _ hexists (matchPath_project_file _ _)) _ _ _ hinfo hentry
  · intro name fs hlater habsent
    unfold RunProjectGet
    simp only [hlater, habsent, Bool.not_false, ↓reduceIte]

/-- Witness of C26: project `teamA` is created on a bootstrapped repository
and read back. -/
theorem RunProjectCreate_then_RunProjectGet_and_RunProjectList_witness :
    ∃ detail,
      RunProjectGet { roundTripEnv bootstrappedRepo with prepareRepo := fun _ _ => .ok repoWithTeamA }
          teamAWriter "teamA"
          = ⟨some detail, none, some repoWithTeamA, [.clone (some exampleOpts)]⟩
        ∧ detail.Name = "teamA" ∧ detail.Namespace = "argocd"
        ∧ detail.DefaultCluster = "https://kubernetes.default.svc"
        ∧ detail.GitOpsRepo = "https://git.example/org/meta.git" :=
  (RunProjectCreate_then_RunProjectGet_and_RunProjectList (roundTripEnv bootstrappedRepo) teamAWriter
    (teamACreate false) bootstrappedRepo repoWithTeamA "argocd" "https://kubernetes.default.svc"
    ⟨"kind: AppProject name: teamA namespace: argocd",
     "kind: ApplicationSet name: teamA namespace: argocd",
     exampleCodec.clusterResReadmeTpl.replace "\x7bCLUSTER\x7d" "https://kubernetes.default.svc",
     "name:  server: https://kubernetes.default.svc"⟩
    (fun _ _ => .ok repoWithTeamA) rfl rfl rfl (by rfl) rfl (by rfl) (by rfl) (by rfl)).1 rfl

/-! ## The persist discipline of the writer -/

theorem discipline_without_persist (persist : RepoHandle → FS → String → Option GoErr)
    (err : Option GoErr) (t : List Event) (h : ∀ e ∈ t, e.isPersist = false) :
    (t.filter Event.isPersist).length ≤ 1
      ∧ ∀ hd msg, Event.persist hd msg ∈ t →
          t.getLast? = some (.persist hd msg) ∧ ((∀ fs, persist hd fs msg = none) → err = none) := by
  constructor
  · have : t.filter Event.isPersist = [] := by
      rw [List.filter_eq_nil_iff]
      intro e he
      simp [h e he]
    simp [this]
  · intro hd msg hmem
    have := h _ hmem
    simp [Event.isPersist] at this

theorem discipline_with_last_persist (persist : RepoHandle → FS → String → Option GoErr)
    (err : Option GoErr) (pre : List Event) (hd : RepoHandle) (msg : String)
    (h : ∀ e ∈ pre, e.isPersist = false)
    (hfail : (∀ fs, persist hd fs msg = none) → err = none) :
    ((pre ++ [Event.persist hd msg]).filter Event.isPersist).length ≤ 1
      ∧ ∀ hd1 msg1, Event.persist hd1 msg1 ∈ pre ++ [Event.persist hd msg] →
          (pre ++ [Event.persist hd msg]).getLast? = some (.persist hd1 msg1)
            ∧ ((∀ fs, persist hd1 fs msg1 = none) → err = none) := by
  have hnil : pre.filter Event.isPersist = [] := by
    rw [List.filter_eq_nil_iff]
    intro e he
    simp [h e he]
  constructor
  · simp [List.filter_append, hnil, List.filter, Event.isPersist]
  · intro hd1 msg1 hmem
    rcases List.mem_append.1 hmem with hin | hin
    · have := h _ hin
      simp [Event.isPersist] at this
    · simp only [List.mem_singleton, Event.persist.injEq] at hin
      obtain ⟨h1, h2⟩ := hin
      subst h1 h2
      exact ⟨by simp, hfail⟩

theorem detachAll_events (st : Store) (projectName : String) (apps : List String) (fs : FS) :
    ∀ ev ∈ (RunProjectDelete.detachAll st projectName fs apps).2.1, ev.isPersist = false := by
  induction apps generalizing fs with
  | nil => simp [RunProjectDelete.detachAll]
  | cons a rest ih =>
    unfold RunProjectDelete.detachAll
    cases hd : DeleteFromProject st fs a projectName with
    | error err => simp
    | ok r =>
      obtain ⟨fs1, evs⟩ := r
      simp only
      intro ev hev
      rcases List.mem_append.1 hev with h1 | h2
      · obtain ⟨d, hd1⟩ := (DeleteFromProject_result st fs fs1 a projectName evs hd).2 ev h1
        rw [hd1]
        rfl
      · exact ih fs1 ev h2

theorem discipline_cons (persist : RepoHandle → FS → String → Option GoErr)
    (err err1 : Option GoErr) (e : Event) (t : List Event) (he : e.isPersist = false)
    (himp : err = none → err1 = none)
    (h : (t.filter Event.isPersist).length ≤ 1
      ∧ ∀ hd msg, Event.persist hd msg ∈ t →
          t.getLast? = some (.persist hd msg) ∧ ((∀ fs, persist hd fs msg = none) → err = none)) :
    ((e :: t).filter Event.isPersist).length ≤ 1
      ∧ ∀ hd msg, Event.persist hd msg ∈ e :: t →
          (e :: t).getLast? = some (.persist hd msg)
            ∧ ((∀ fs, persist hd fs msg = none) → err1 = none) := by
  obtain ⟨h1, h2⟩ := h
  constructor
  · simpa [List.filter, he] using h1
  · intro hd msg hmem
    rcases List.mem_cons.1 hmem with heq | hin
    · rw [← heq] at he
      simp [Event.isPersist] at he
    · obtain ⟨hlast, hfail⟩ := h2 hd msg hin
      refine ⟨?_, fun hall => himp (hfail hall)⟩
      cases t with
      | nil => simp at hin
      | cons x rest => simpa [List.getLast?_cons_cons] using hlast

theorem RunAppDelete_discipline (env : Env) (n : NativeRepoTarget) (appName : String) :
    ((RunAppDelete env n appName).trace.filter Event.isPersist).length ≤ 1
      ∧ ∀ hd msg, Event.persist hd msg ∈ (RunAppDelete env n appName).trace →
          (RunAppDelete env n appName).trace.getLast? = some (.persist hd msg)
            ∧ ((∀ fs, env.Persist hd fs msg = none) → (RunAppDelete env n appName).err = none) := by
  unfold RunAppDelete
  cases hclone : env.getRepo n.tenantRepoCloneOpts with
  | error err => exact discipline_without_persist _ _ _ (by simp [Event.isPersist])
  | ok repofs =>
    simp only
    split
    · exact discipline_without_persist _ _ _ (by simp [Event.isPersist])
    · cases hplan : RunAppDelete.plan env.store n.project repofs appName with
      | error err => exact discipline_without_persist _ _ _ (by simp [Event.isPersist])
      | ok r =>
        obtain ⟨dir, msg⟩ := r
        simp only [RemoveAll]
        cases hp : env.Persist .tenant (repofs.filter (fun e => !dir.isPrefixOf e.path)) msg with
        | some err =>
          exact discipline_with_last_persist _ _ [_, _] _ _ (by simp [Event.isPersist])
            (fun h => by simp [h] at hp)
        | none =>
          exact discipline_with_last_persist _ _ [_, _] _ _ (by simp [Event.isPersist])
            (fun _ => rfl)

theorem SecretStoreCreate_discipline (env : Env) (n : NativeRepoTarget) (ss : SecretStore)
    (force : Bool) :
    ((SecretStoreCreate env n ss force).trace.filter Event.isPersist).length ≤ 1
      ∧ ∀ hd msg, Event.persist hd msg ∈ (SecretStoreCreate env n ss force).trace →
          (SecretStoreCreate env n ss force).trace.getLast? = some (.persist hd msg)
            ∧ ((∀ fs, env.Persist hd fs msg = none) →
                (SecretStoreCreate env n ss force).err = none) := by
  unfold SecretStoreCreate
  cases hprep : env.prepareRepo n.metaRepoCloneOpts "" with
  | error err => exact discipline_without_persist _ _ _ (by simp [Event.isPersist])
  | ok repofs =>
    simp only
    cases hm : env.codec.marshalSecretStore ss with
    | error err => exact discipline_without_persist _ _ _ (by simp [Event.isPersist])
    | ok ssYaml =>
      simp only
      split
      · exact discipline_without_persist _ _ _ (by simp [Event.isPersist])
      · cases hbw : BulkWrite repofs
            [{ Filename := secretStorePath env.store (ss.annotation_of "squidflow.github.io/id"),
               Data := JoinManifests [ssYaml], ErrMsg := "failed to create secret store file" }] with
        | mk repofs1 e =>
          cases e with
          | some err => exact discipline_without_persist _ _ _ (by simp [Event.isPersist])
          | none =>
            simp only
            cases hp : env.Persist .meta repofs1 ("chore: added secret store '" ++ ss.Name ++ "'") with
            | some err =>
              exact discipline_with_last_persist _ _ [_, _] _ _ (by simp [Event.isPersist])
                (fun h => by simp [h] at hp)
            | none =>
              exact discipline_with_last_persist _ _ [_, _] _ _ (by simp [Event.isPersist])
                (fun _ => rfl)

theorem SecretStoreDelete_discipline (env : Env) (n : NativeRepoTarget) (id : String) :
    ((SecretStoreDelete env n id).trace.filter Event.isPersist).length ≤ 1
      ∧ ∀ hd msg, Event.persist hd msg ∈ (SecretStoreDelete env n id).trace →
          (SecretStoreDelete env n id).trace.getLast? = some (.persist hd msg)
            ∧ ((∀ fs, env.Persist hd fs msg = none) → (SecretStoreDelete env n id).err = none) := by
  unfold SecretStoreDelete
  cases hprep : env.prepareRepo n.metaRepoCloneOpts "" with
  | error err => exact discipline_without_persist _ _ _ (by simp [Event.isPersist])
  | ok repofs =>
    simp only
    split
    · exact discipline_without_persist _ _ _ (by simp [Event.isPersist])
    · cases hrm : Remove repofs (secretStorePath env.store id) with
      | error err => exact discipline_without_persist _ _ _ (by simp [Event.isPersist])
      | ok repofs1 =>
        simp only
        cases hp : env.Persist .meta repofs1 ("chore: deleted secret store '" ++ id ++ "'") with
        | some err =>
          exact discipline_with_last_persist _ _ [_, _] _ _ (by simp [Event.isPersist])
            (fun h => by simp [h] at hp)
        | none =>
          exact discipline_with_last_persist _ _ [_, _] _ _ (by simp [Event.isPersist])
            (fun _ => rfl)

theorem SecretStoreUpdate_discipline (env : Env) (n : NativeRepoTarget) (id : String)
    (req : SecretStoreUpdateRequest) :
    ((SecretStoreUpdate env n id req).trace.filter Event.isPersist).length ≤ 1
      ∧ ∀ hd msg, Event.persist hd msg ∈ (SecretStoreUpdate env n id req).trace →
          (SecretStoreUpdate env n id req).trace.getLast? = some (.persist hd msg)
            ∧ ((∀ fs, env.Persist hd fs msg = none) →
                (SecretStoreUpdate env n id req).err = none) := by
  unfold SecretStoreUpdate
  cases hprep : env.prepareRepo n.metaRepoCloneOpts "" with
  | error err => exact discipline_without_persist _ _ _ (by simp [Event.isPersist])
  | ok repofs =>
    simp only
    cases hread : ReadYamls env.codec repofs (secretStorePath env.store id) with
    | error err => exact discipline_without_persist _ _ _ (by simp [Event.isPersist])
    | ok secretStore =>
      simp only
      cases happly : SecretStoreUpdate.apply_to env.now req secretStore with
      | none => exact discipline_without_persist _ _ _ (by simp [Event.isPersist])
      | some updated =>
        simp only
        have hw := SecretStoreCreate_discipline env n updated true
        cases herr : (SecretStoreCreate env n updated true).err with
        | some err =>
          exact discipline_cons _ _ _ _ _ rfl (fun h => by simp [herr] at h) hw
        | none =>
          exact discipline_cons _ _ _ _ _ rfl (fun _ => rfl) hw

theorem RunProjectCreate_discipline (env : Env) (n : NativeRepoTarget)
    (opts : ProjectCreateOptions) :
    ((RunProjectCreate env n opts).trace.filter Event.isPersist).length ≤ 1
      ∧ ∀ hd msg, Event.persist hd msg ∈ (RunProjectCreate env n opts).trace →
          (RunProjectCreate env n opts).trace.getLast? = some (.persist hd msg)
            ∧ ((∀ fs, env.Persist hd fs msg = none) → (RunProjectCreate env n opts).err = none) := by
  unfold RunProjectCreate
  cases hprep : env.prepareRepo n.metaRepoCloneOpts "" with
  | error err => exact discipline_without_persist _ _ _ (by simp [Event.isPersist])
  | ok repofs =>
    simp only
    cases hboot : env.getInstallationNamespace repofs with
    | error err => exact discipline_without_persist _ _ _ (by simp [Event.isPersist])
    | ok ns =>
      simp only
      split
      · exact discipline_without_persist _ _ _ (by simp [Event.isPersist])
      · cases hserver : RunProjectCreate.destServer env opts with
        | error err => exact discipline_without_persist _ _ _ (by simp [Event.isPersist])
        | ok dest =>
          simp only
          cases hgen : generateProjectManifests env.store env.codec
              (RunProjectCreate.genOptions n opts ns dest) with
          | error err => exact discipline_without_persist _ _ _ (by simp [Event.isPersist])
          | ok m =>
            simp only
            split
            · exact discipline_without_persist _ _ _ (by simp [Event.isPersist])
            · have hpre : ∀ e ∈ (if opts.DestKubeContext ≠ "" then
                    [Event.clone (some n.metaRepoCloneOpts)] ++ [.addCluster opts.DestKubeContext]
                  else [Event.clone (some n.metaRepoCloneOpts)]), e.isPersist = false := by
                intro e he
                split at he
                · simp at he
                  rcases he with h | h <;> simp [h, Event.isPersist]
                · simp at he
                  simp [he, Event.isPersist]
              split
              · exact discipline_without_persist _ _ _ hpre
              · cases hbw : BulkWrite repofs (RunProjectCreate.bulkWrites env.store repofs opts m) with
                | mk repofs1 e =>
                  have hpre2 : ∀ e ∈ (if opts.DestKubeContext ≠ "" then
                        [Event.clone (some n.metaRepoCloneOpts)] ++ [.addCluster opts.DestKubeContext]
                      else [Event.clone (some n.metaRepoCloneOpts)])
                      ++ [Event.bulkWrite ((RunProjectCreate.bulkWrites env.store repofs opts m).map
                        BulkWriteRequest.Filename)], e.isPersist = false := by
                    intro e he
                    rcases List.mem_append.1 he with h | h
                    · exact hpre e h
                    · simp at h
                      simp [h, Event.isPersist]
                  cases e with
                  | some err => exact discipline_without_persist _ _ _ hpre2
                  | none =>
                    simp only
                    cases hp : env.Persist .meta repofs1
                        ("chore: added project '" ++ opts.ProjectName ++ "'") with
                    | some err =>
                      exact discipline_with_last_persist _ _ _ _ _ hpre2 (fun h => by simp [h] at hp)
                    | none =>
                      exact discipline_with_last_persist _ _ _ _ _ hpre2 (fun _ => rfl)

theorem RunProjectDelete_discipline (env : Env) (n : NativeRepoTarget) (projectName : String) :
    ((RunProjectDelete env n projectName).trace.filter Event.isPersist).length ≤ 1
      ∧ ∀ hd msg, Event.persist hd msg ∈ (RunProjectDelete env n projectName).trace →
          (RunProjectDelete env n projectName).trace.getLast? = some (.persist hd msg)
            ∧ ((∀ fs, env.Persist hd fs msg = none) →
                (RunProjectDelete env n projectName).err = none) := by
  unfold RunProjectDelete
  cases hprep : env.prepareRepo n.metaRepoCloneOpts projectName with
  | error err => exact discipline_without_persist _ _ _ (by simp [Event.isPersist])
  | ok repofs =>
    simp only
    cases hlist : ReadDir repofs (Join [] [env.store.AppsDir]) with
    | error err => exact discipline_without_persist _ _ _ (by simp [Event.isPersist])
    | ok allApps =>
      simp only
      have hevs := detachAll_events env.store projectName allApps repofs
      cases hdetach : RunProjectDelete.detachAll env.store projectName repofs allApps with
      | mk repofs1 rest =>
        obtain ⟨evs, e⟩ := rest
        rw [hdetach] at hevs
        simp only at hevs
        have hpre : ∀ ev ∈ [Event.clone (some n.metaRepoCloneOpts)] ++ evs, ev.isPersist = false := by
          intro ev hev
          rcases List.mem_append.1 hev with h | h
          · simp at h
            simp [h, Event.isPersist]
          · exact hevs ev h
        cases e with
        | some err => exact discipline_without_persist _ _ _ hpre
        | none =>
          simp only
          cases hrm : Remove repofs1 (Join [] [env.store.ProjectsDir, projectName ++ ".yaml"]) with
          | error err => exact discipline_without_persist _ _ _ hpre
          | ok repofs2 =>
            simp only
            have hpre2 : ∀ ev ∈ [Event.clone (some n.metaRepoCloneOpts)] ++ evs
                ++ [Event.remove (Join [] [env.store.ProjectsDir, projectName ++ ".yaml"])],
                ev.isPersist = false := by
              intro ev hev
              rcases List.mem_append.1 hev with h | h
              · exact hpre ev h
              · simp at h
                simp [h, Event.isPersist]
            have happ : [Event.clone (some n.metaRepoCloneOpts)] ++ evs
                ++ [Event.remove (Join [] [env.store.ProjectsDir, projectName ++ ".yaml"]),
                    Event.persist .meta ("chore: deleted project '" ++ projectName ++ "'")]
                = ([Event.clone (some n.metaRepoCloneOpts)] ++ evs
                    ++ [Event.remove (Join [] [env.store.ProjectsDir, projectName ++ ".yaml"])])
                  ++ [Event.persist .meta ("chore: deleted project '" ++ projectName ++ "'")] := by
              simp
            cases hp : env.Persist .meta repofs2
                ("chore: deleted project '" ++ projectName ++ "'") with
            | some err =>
              rw [happ]
              exact discipline_with_last_persist _ _ _ _ _ hpre2 (fun h => by simp [h] at hp)
            | none =>
              rw [happ]
              exact discipline_with_last_persist _ _ _ _ _ hpre2 (fun _ => rfl)

theorem RunAppCreate_discipline (env : Env) (n : NativeRepoTarget) (opts : AppCreateOptions) :
    ((RunAppCreate env n opts).trace.filter Event.isPersist).length ≤ 1
      ∧ ∀ hd msg, Event.persist hd msg ∈ (RunAppCreate env n opts).trace →
          (RunAppCreate env n opts).trace.getLast? = some (.persist hd msg)
            ∧ ((∀ fs, env.Persist hd fs msg = none) → (RunAppCreate env n opts).err = none) := by
  have ht0 : ∀ e ∈ (if decide (n.metaRepoCloneOpts.Repo
        ≠ (n.tenantRepoCloneOpts.getD n.metaRepoCloneOpts).Repo) = true then
        [Event.clone (some n.metaRepoCloneOpts),
         Event.clone (some (n.tenantRepoCloneOpts.getD n.metaRepoCloneOpts))]
      else [Event.clone (some n.metaRepoCloneOpts)]), e.isPersist = false := by
    intro e he
    split at he
    · simp at he
      rcases he with h | h <;> simp [h, Event.isPersist]
    · simp at he
      simp [he, Event.isPersist]
  have ht1 : ∀ e ∈ (if decide (n.metaRepoCloneOpts.Repo
        ≠ (n.tenantRepoCloneOpts.getD n.metaRepoCloneOpts).Repo) = true then
        [Event.clone (some n.metaRepoCloneOpts),
         Event.clone (some (n.tenantRepoCloneOpts.getD n.metaRepoCloneOpts))]
      else [Event.clone (some n.metaRepoCloneOpts)]) ++ [Event.createFiles opts.ProjectName],
      e.isPersist = false := by
    intro e he
    rcases List.mem_append.1 he with h | h
    · exact ht0 e h
    · simp at h
      simp [h, Event.isPersist]
  unfold RunAppCreate
  cases hprep : env.prepareRepo n.metaRepoCloneOpts opts.ProjectName with
  | error err => exact discipline_without_persist _ _ _ (by simp [Event.isPersist])
  | ok metaRepofs =>
    simp only
    cases htenant : (if decide (n.metaRepoCloneOpts.Repo
        ≠ (n.tenantRepoCloneOpts.getD n.metaRepoCloneOpts).Repo) = true then
        env.getRepo (some (n.tenantRepoCloneOpts.getD n.metaRepoCloneOpts))
      else Except.ok metaRepofs) with
    | error err => exact discipline_without_persist _ _ _ ht0
    | ok appsfs =>
      simp only
      cases hdef : env.setAppOptsDefaults metaRepofs opts with
      | error err => exact discipline_without_persist _ _ _ ht0
      | ok appOpts =>
        simp only
        split
        · split
          · exact discipline_without_persist _ _ _ ht0
          · exact discipline_without_persist _ _ _ ht0
        · cases hparse : env.parseApp appOpts opts.ProjectName
              (n.tenantRepoCloneOpts.getD n.metaRepoCloneOpts).URL
              (n.tenantRepoCloneOpts.getD n.metaRepoCloneOpts).Revision
              (n.tenantRepoCloneOpts.getD n.metaRepoCloneOpts).Path with
          | error err => exact discipline_without_persist _ _ _ ht0
          | ok app =>
            simp only
            split
            · exact discipline_without_persist _ _ _ ht1
            · split
              · split
                · rename_i hp
                  exact discipline_with_last_persist _ _ _ _ _ (by simp [Event.isPersist])
                    (fun h => by simp [h] at hp)
                · exact discipline_with_last_persist _ _ _ _ _ (by simp [Event.isPersist])
                    (fun _ => rfl)
              · split
                · rename_i hp
                  exact discipline_with_last_persist _ _ _ _ _ (by simp [Event.isPersist])
                    (fun h => by simp [h] at hp)
                · exact discipline_with_last_persist _ _ _ _ _ (by simp [Event.isPersist])
                    (fun _ => rfl)

theorem read_only_traces (env : Env) (n : NativeRepoTarget) (appName projectName id : String) :
    ∀ t ∈ [(RunAppList env n).trace, (RunAppGet env n appName).trace, (RunProjectList env n).trace,
        (RunProjectGet env n projectName).trace, (SecretStoreList env n).trace,
        (SecretStoreGet env n id).trace],
      ∀ e ∈ t, e.isPersist = false ∧ e.isMutation = false := by
  intro t ht
  simp only [List.mem_cons, List.mem_singleton, List.not_mem_nil, or_false] at ht
  rcases ht with rfl | rfl | rfl | rfl | rfl | rfl
  · unfold RunAppList
    repeat' split
    all_goals simp [Event.isPersist, Event.isMutation]
  · unfold RunAppGet
    repeat' split
    all_goals simp [Event.isPersist, Event.isMutation]
  · unfold RunProjectList
    repeat' split
    all_goals simp [Event.isPersist, Event.isMutation]
  · unfold RunProjectGet
    cases hprep : env.prepareRepo n.metaRepoCloneOpts projectName with
    | error err => simp [Event.isPersist, Event.isMutation]
    | ok repofs =>
      simp only
      split
      · simp [Event.isPersist, Event.isMutation]
      · repeat' split
        all_goals simp [Event.isPersist, Event.isMutation]
  · unfold SecretStoreList
    repeat' split
    all_goals simp [Event.isPersist, Event.isMutation]
  · unfold SecretStoreGet
    repeat' split
    all_goals simp [Event.isPersist, Event.isMutation]

theorem read_only_views (env : Env) (n : NativeRepoTarget) (appName projectName id : String) :
    (∀ v, (RunAppList env n).view = some v → env.getRepo n.tenantRepoCloneOpts = .ok v)
      ∧ (∀ v, (RunAppGet env n appName).view = some v → env.getRepo n.tenantRepoCloneOpts = .ok v)
      ∧ (∀ v, (RunProjectList env n).view = some v →
          env.prepareRepo (env.Parse n.metaRepoCloneOpts) "" = .ok v)
      ∧ (∀ v, (RunProjectGet env n projectName).view = some v →
          env.prepareRepo n.metaRepoCloneOpts projectName = .ok v)
      ∧ (∀ v, (SecretStoreList env n).view = some v → env.prepareRepo n.metaRepoCloneOpts "" = .ok v)
      ∧ (∀ v, (SecretStoreGet env n id).view = some v →
          env.prepareRepo n.metaRepoCloneOpts "" = .ok v) := by
  refine ⟨?_, ?_, ?_, ?_, ?_, ?_⟩
  · intro v hv
    unfold RunAppList at hv
    cases hclone : env.getRepo n.tenantRepoCloneOpts with
    | error err => simp [hclone] at hv
    | ok repofs =>
      simp only [hclone] at hv
      repeat' split at hv
      all_goals simp_all
  · intro v hv
    unfold RunAppGet at hv
    cases hclone : env.getRepo n.tenantRepoCloneOpts with
    | error err => simp [hclone] at hv
    | ok repofs =>
      simp only [hclone] at hv
      repeat' split at hv
      all_goals simp_all
  · intro v hv
    unfold RunProjectList at hv
    cases hclone : env.prepareRepo (env.Parse n.metaRepoCloneOpts) "" with
    | error err => simp [hclone] at hv
    | ok repofs =>
      simp only [hclone] at hv
      repeat' split at hv
      all_goals simp_all
  · intro v hv
    unfold RunProjectGet at hv
    cases hclone : env.prepareRepo n.metaRepoCloneOpts projectName with
    | error err => simp [hclone] at hv
    | ok repofs =>
      simp only [hclone] at hv
      repeat' split at hv
      all_goals simp_all
  · intro v hv
    unfold SecretStoreList at hv
    cases hclone : env.prepareRepo n.metaRepoCloneOpts "" with
    | error err => simp [hclone] at hv
    | ok repofs =>
      simp only [hclone] at hv
      simp_all
  · intro v hv
    unfold SecretStoreGet at hv
    cases hclone : env.prepareRepo n.metaRepoCloneOpts "" with
    | error err => simp [hclone] at hv
    | ok repofs =>
      simp only [hclone] at hv
      repeat' split at hv
      all_goals simp_all

/-- C27: in every call of a mutating writer operation (`RunAppCreate`,
`RunAppDelete`, `RunProjectCreate`, `RunProjectDelete`, `SecretStoreCreate`,
`SecretStoreUpdate`, `SecretStoreDelete`) `Persist` is called at most once; a
`Persist` call is the last effect of the call, after all its filesystem
changes; and a call that made a `Persist` call returns an error only when
`Persist` itself failed, so every other error return happens without `Persist`.
In every call of a read-only operation (`RunAppList`, `RunAppGet`,
`RunProjectList`, `RunProjectGet`, `SecretStoreList`, `SecretStoreGet`) there is
no `Persist` call, no filesystem change, and the view is the one that was cloned. -/
theorem writer_persists_once_and_last (env : Env) (n : NativeRepoTarget)
    (appOpts : AppCreateOptions) (appName : String) (projectOpts : ProjectCreateOptions)
    (projectName : String) (ss : SecretStore) (force : Bool) (id : String)
    (req : SecretStoreUpdateRequest) :
    (∀ out ∈ [((RunAppCreate env n appOpts).err, (RunAppCreate env n appOpts).trace),
          ((RunAppDelete env n appName).err, (RunAppDelete env n appName).trace),
          ((RunProjectCreate env n projectOpts).err, (RunProjectCreate env n projectOpts).trace),
          ((RunProjectDelete env n projectName).err, (RunProjectDelete env n projectName).trace),
          ((SecretStoreCreate env n ss force).err, (SecretStoreCreate env n ss force).trace),
          ((SecretStoreUpdate env n id req).err, (SecretStoreUpdate env n id req).trace),
          ((SecretStoreDelete env n id).err, (SecretStoreDelete env n id).trace)],
        (out.2.filter Event.isPersist).length ≤ 1
          ∧ ∀ hd msg, Event.persist hd msg ∈ out.2 →
              out.2.getLast? = some (.persist hd msg)
                ∧ ((∀ fs, env.Persist hd fs msg = none) → out.1 = none))
      ∧ (∀ t ∈ [(RunAppList env n).trace, (RunAppGet env n appName).trace,
            (RunProjectList env n).trace, (RunProjectGet env n projectName).trace,
            (SecretStoreList env n).trace, (SecretStoreGet env n id).trace],
          ∀ e ∈ t, e.isPersist = false ∧ e.isMutation = false)
      ∧ (∀ v, (RunAppList env n).view = some v → env.getRepo n.tenantRepoCloneOpts = .ok v)
      ∧ (∀ v, (RunAppGet env n appName).view = some v → env.getRepo n.tenantRepoCloneOpts = .ok v)
      ∧ (∀ v, (RunProjectList env n).view = some v →
          env.prepareRepo (env.Parse n.metaRepoCloneOpts) "" = .ok v)
      ∧ (∀ v, (RunProjectGet env n projectName).view = some v →
          env.prepareRepo n.metaRepoCloneOpts projectName = .ok v)
      ∧ (∀ v, (SecretStoreList env n).view = some v → env.prepareRepo n.metaRepoCloneOpts "" = .ok v)
      ∧ (∀ v, (SecretStoreGet env n id).view = some v →
          env.prepareRepo n.metaRepoCloneOpts "" = .ok v) := by
  refine ⟨?_, read_only_traces env n appName projectName id,
    read_only_views env n appName projectName id⟩
  intro out hout
  simp only [List.mem_cons, List.mem_singleton, List.not_mem_nil, or_false] at hout
  rcases hout with rfl | rfl | rfl | rfl | rfl | rfl | rfl
  · exact RunAppCreate_discipline env n appOpts
  · exact RunAppDelete_discipline env n appName
  · exact RunProjectCreate_discipline env n projectOpts
  · exact RunProjectDelete_discipline env n projectName
  · exact SecretStoreCreate_discipline env n ss force
  · exact SecretStoreUpdate_discipline env n id req
  · exact SecretStoreDelete_discipline env n id

end Squidflow
